import Mathlib

/-!
Shallow embedding of the LSODA header-only library (src/inst/include/lsoda.h)
and verification of its specification claims.

Modelling conventions:
- `double` values are modelled as exact rationals (`ℚ`); machine epsilon
  (`ETA = std::numeric_limits<double>::epsilon()`) is the exact rational
  `2 ^ (-52)`, and `sqrteta = sqrt(ETA)` is the exact rational `2 ^ (-26)`
  (the double square root of `2 ^ (-52)` is exact).
- `size_t` members are `ℕ`, `int` members are `ℤ`.
- `std::vector<double>` is modelled as a total function `ℕ → ℚ` (the code
  uses 1-based indexing throughout; index 0 is dead storage).  Matrix members
  (`yh_`, `wm_`, `elco`, `tesco`) are `ℕ → ℕ → ℚ`.
- Loops whose iterations write pairwise distinct locations and read only
  locations not written by the same loop are translated as pointwise maps;
  loops with sequential dependences are translated as recursions.
- `Rcpp::stop` is a hard abort and is modelled as a dedicated `abort`
  result constructor; `Rcpp::Rcerr`/`REprintf` output is diagnostic text
  with no effect on the program state and is not modelled.
- The two floating-point library calls whose results are not exactly
  representable in `ℚ` (`pow` with non-integral exponent in the step/order
  heuristics, and `sqrt` in the initial-step-size computation) are taken as
  parameters (`powF`, `sqrtF`) of the embedding.
-/

namespace LSODAModel

/-- Machine epsilon of IEEE-754 double, the constant `ETA` of the source. -/
def eta : ℚ := 1 / 2 ^ 52

/-- Conversion of a nonnegative `double` to `size_t` (C++ truncation toward
zero, which is `⌊·⌋` for nonnegative arguments). -/
def toSize (x : ℚ) : ℕ := (⌊x⌋).toNat

/-- The `mord` member array set by the constructor: `mord = {{12, 5}}`. -/
def mord : ℕ → ℕ := fun i => if i = 0 then 12 else if i = 1 then 5 else 0

/-- The `sm1` member array set by the constructor (stability-region bounds). -/
def sm1 : ℕ → ℚ := fun i =>
  if i = 1 then 0.5 else if i = 2 then 0.575 else if i = 3 then 0.55
  else if i = 4 then 0.45 else if i = 5 then 0.35 else if i = 6 then 0.25
  else if i = 7 then 0.2 else if i = 8 then 0.15 else if i = 9 then 0.1
  else if i = 10 then 0.075 else if i = 11 then 0.05 else if i = 12 then 0.025
  else 0

/-- Pointwise update of a vector. -/
def upd1 (v : ℕ → ℚ) (i : ℕ) (x : ℚ) : ℕ → ℚ :=
  fun j => if j = i then x else v j

/-- Pointwise update of a matrix entry. -/
def upd2 (m : ℕ → ℕ → ℚ) (r c : ℕ) (x : ℚ) : ℕ → ℕ → ℚ :=
  fun a b => if a = r ∧ b = c then x else m a b

/-- C implementation of `SIGN()` from the source:
`(b >= 0.0) ? std::abs(a) : -std::abs(a)`. -/
def sign (a b : ℚ) : ℚ := if 0 ≤ b then |a| else -|a|

/-! ## BLAS-style kernels (`idamax1`, `dscal1`, `ddot1`, `daxpy1`) -/

/-- Loop of `idamax1`.  The accumulators `v` and `vmax` are declared
`size_t` in the source, so the absolute value of each (double) entry is
truncated to an integer before the comparison `v > vmax`.  `i` is the
current loop index, `cnt` the number of remaining iterations. -/
def idamax1Go (dx : ℕ → ℚ) (offset : ℕ) : ℕ → ℕ → ℕ → ℕ → ℕ
  | _, 0, _, idmax => idmax
  | i, cnt + 1, vmax, idmax =>
    let v := toSize |dx (i + offset)|
    if v > vmax then idamax1Go dx offset (i + 1) cnt v i
    else idamax1Go dx offset (i + 1) cnt vmax idmax

/-- `idamax1(dx, n, offset)`: the source's pivot search.  Starts with
`vmax = 0`, `idmax = 1` and scans `i = 1..n`, comparing `size_t`-truncated
absolute values. -/
def idamax1 (dx : ℕ → ℚ) (n : ℕ) (offset : ℕ) : ℕ :=
  idamax1Go dx offset 1 n 0 1

/-- `dscal1(da, dx, n, offset)` scales `dx[1+offset]` through the last
element of the vector by `da` (the parameter `n` of the source is unused;
the `std::transform` runs from `dx.begin()+1+offset` to `dx.end()`, so the
model takes the vector length `len` explicitly: entries
`1 + offset ≤ i < len` are scaled). -/
def dscal1 (da : ℚ) (dx : ℕ → ℚ) (len : ℕ) (offset : ℕ) : ℕ → ℚ :=
  fun i => if 1 + offset ≤ i ∧ i < len then da * dx i else dx i

/-- Loop of `ddot1`: sum of `a[i+offsetA] * b[i+offsetB]` for `i = 1..n`. -/
def ddot1Go (a b : ℕ → ℚ) (offsetA offsetB : ℕ) : ℕ → ℚ
  | 0 => 0
  | i + 1 => ddot1Go a b offsetA offsetB i + a (i + 1 + offsetA) * b (i + 1 + offsetB)

/-- `ddot1(a, b, n, offsetA, offsetB)`. -/
def ddot1 (a b : ℕ → ℚ) (n : ℕ) (offsetA offsetB : ℕ) : ℚ :=
  ddot1Go a b offsetA offsetB n

/-- `daxpy1(da, dx, dy, n, offsetX, offsetY)`:
`dy[i+offsetY] = da * dx[i+offsetX] + dy[i+offsetY]` for `i = 1..n`
(all writes hit pairwise distinct entries of `dy`, and `dx` is a separate
input, so the loop is a pointwise map). -/
def daxpy1 (da : ℚ) (dx dy : ℕ → ℚ) (n : ℕ) (offsetX offsetY : ℕ) : ℕ → ℚ :=
  fun i =>
    if 1 + offsetY ≤ i ∧ i ≤ n + offsetY then
      da * dx (i - offsetY + offsetX) + dy i
    else dy i

/-! ## Dense LU factorization and solve (`dgefa`, `dgesl`) -/

/-- Inner elimination loop of `dgefa` (`for i = k+1..n`): each iteration
only writes row `i` and reads the fixed pivot row `k`, so the loop is a
map over rows.  For each such row: `t = a[i][j]`, optional column swap of
columns `j` and `k`, then `daxpy1(t, a[k], a[i], n-k, k, k)`. -/
def dgefaInner (a : ℕ → ℕ → ℚ) (n k j : ℕ) : ℕ → ℕ → ℚ :=
  fun r c =>
    if k + 1 ≤ r ∧ r ≤ n then
      let t := a r j
      let row : ℕ → ℚ := fun cc =>
        if j ≠ k then
          if cc = j then a r k else if cc = k then t else a r cc
        else a r cc
      daxpy1 t (a k) row (n - k) k k c
    else a r c

/-- One iteration of the outer `k`-loop of `dgefa`: pivot search via
`idamax1`, record of the pivot index, zero-pivot check (`info = k`,
`continue`), optional interchange, computation of multipliers via
`dscal1`, and column elimination. -/
def dgefaStep (n : ℕ) (st : (ℕ → ℕ → ℚ) × (ℕ → ℕ) × ℕ) (k : ℕ) :
    (ℕ → ℕ → ℚ) × (ℕ → ℕ) × ℕ :=
  let a := st.1
  let ipvt := st.2.1
  let info := st.2.2
  let j := idamax1 (a k) (n - k + 1) (k - 1) + k - 1
  let ipvt1 := fun m => if m = k then j else ipvt m
  if a k j = 0 then (a, ipvt1, k)
  else
    let a1 := if j ≠ k then upd2 (upd2 a k j (a k k)) k k (a k j) else a
    let t := -1 / a1 k k
    let a2 := fun r => if r = k then dscal1 t (a1 k) (n + 1) k else a1 r
    (dgefaInner a2 n k j, ipvt1, info)

/-- Outer `k`-loop of `dgefa`, `k = 1..n-1`, threading the matrix, the
pivot array and `info`; `cnt` counts the remaining iterations. -/
def dgefaGo (n : ℕ) : ℕ → ℕ → ((ℕ → ℕ → ℚ) × (ℕ → ℕ) × ℕ) → (ℕ → ℕ → ℚ) × (ℕ → ℕ) × ℕ
  | _, 0, st => st
  | k, cnt + 1, st => dgefaGo n (k + 1) cnt (dgefaStep n st k)

/-- `dgefa(a, n, ipvt, info)`: Gaussian elimination with partial pivoting.
Returns the factored matrix, the pivot array (with `ipvt[n] = n`) and
`info` (`0`, or the index of a zero pivot). -/
def dgefa (a : ℕ → ℕ → ℚ) (n : ℕ) (ipvt : ℕ → ℕ) : (ℕ → ℕ → ℚ) × (ℕ → ℕ) × ℕ :=
  let st := dgefaGo n 1 (n - 1) (a, ipvt, 0)
  let ipvt1 := fun m => if m = n then n else st.2.1 m
  let info := if st.1 n n = 0 then n else st.2.2
  (st.1, ipvt1, info)

/-- Forward-substitution loop of `dgesl` with `job = 0`
(`for k = 1..n: t = ddot1(a[k], b, k-1); b[k] = (b[k] - t)/a[k][k]`),
sequential in `k`. -/
def dgeslFwd (a : ℕ → ℕ → ℚ) : ℕ → ℕ → (ℕ → ℚ) → ℕ → ℚ
  | _, 0, b => b
  | k, cnt + 1, b =>
    let t := ddot1 (a k) b (k - 1) 0 0
    dgeslFwd a (k + 1) cnt (upd1 b k ((b k - t) / a k k))

/-- Backward loop of `dgesl` with `job = 0`
(`for k = n-1 down to 1: b[k] += ddot1(a[k], b, n-k, k, k); swap per ipvt`),
sequential, recursing on the loop index `k` itself. -/
def dgeslBwd (a : ℕ → ℕ → ℚ) (ipvt : ℕ → ℕ) (n : ℕ) : ℕ → (ℕ → ℚ) → ℕ → ℚ
  | 0, b => b
  | k + 1, b =>
    let kk := k + 1
    let b1 := upd1 b kk (b kk + ddot1 (a kk) b (n - kk) kk kk)
    let j := ipvt kk
    let b2 := if j ≠ kk then upd1 (upd1 b1 j (b1 kk)) kk (b1 j) else b1
    dgeslBwd a ipvt n k b2

/-- First loop of the transposed solve of `dgesl` (`job ≠ 0`):
`for k = 1..n-1: j = ipvt[k]; t = b[j]; swap if j ≠ k; daxpy1(t, a[k], b, n-k, k, k)`. -/
def dgeslTFwd (a : ℕ → ℕ → ℚ) (ipvt : ℕ → ℕ) (n : ℕ) : ℕ → ℕ → (ℕ → ℚ) → ℕ → ℚ
  | _, 0, b => b
  | k, cnt + 1, b =>
    let j := ipvt k
    let t := b j
    let b1 := if j ≠ k then upd1 (upd1 b j (b k)) k t else b
    dgeslTFwd a ipvt n (k + 1) cnt (daxpy1 t (a k) b1 (n - k) k k)

/-- Second loop of the transposed solve of `dgesl` (`job ≠ 0`):
`for k = n down to 1: b[k] /= a[k][k]; t = -b[k]; daxpy1(t, a[k], b, k-1)`. -/
def dgeslTBwd (a : ℕ → ℕ → ℚ) : ℕ → (ℕ → ℚ) → ℕ → ℚ
  | 0, b => b
  | k + 1, b =>
    let kk := k + 1
    let b1 := upd1 b kk (b kk / a kk kk)
    let t := -b1 kk
    dgeslTBwd a k (daxpy1 t (a kk) b1 (kk - 1) 0 0)

/-- `dgesl(a, n, ipvt, b, job)`: solves `a * x = b` (`job = 0`) or
`aᵀ * x = b` (`job ≠ 0`), overwriting `b`. -/
def dgesl (a : ℕ → ℕ → ℚ) (n : ℕ) (ipvt : ℕ → ℕ) (b : ℕ → ℚ) (job : ℕ) : ℕ → ℚ :=
  if job = 0 then dgeslBwd a ipvt n (n - 1) (dgeslFwd a 1 n b)
  else dgeslTBwd a n (dgeslTFwd a ipvt n 1 (n - 1) b)

/-! ## Norms (`vmnorm`, `fnorm`) -/

/-- Loop of `vmnorm`: running maximum of `|v[i]| * w[i]`, `i = 1..n`. -/
def vmnormGo (v w : ℕ → ℚ) : ℕ → ℚ
  | 0 => 0
  | i + 1 => max (vmnormGo v w i) (|v (i + 1)| * w (i + 1))

/-- `vmnorm(n, v, w)`: weighted max-norm. -/
def vmnorm (n : ℕ) (v w : ℕ → ℚ) : ℚ := vmnormGo v w n

/-- Inner row-sum loop of `fnorm`: sum of `|a[i][j]| / w[j]`, `j = 1..n`. -/
def fnormRow (a : ℕ → ℕ → ℚ) (w : ℕ → ℚ) (i : ℕ) : ℕ → ℚ
  | 0 => 0
  | j + 1 => fnormRow a w i j + |a i (j + 1)| / w (j + 1)

/-- Outer loop of `fnorm`: running maximum of `rowsum * w[i]`, `i = 1..n`. -/
def fnormGo (a : ℕ → ℕ → ℚ) (w : ℕ → ℚ) (n : ℕ) : ℕ → ℚ
  | 0 => 0
  | i + 1 => max (fnormGo a w n i) (fnormRow a w (i + 1) n * w (i + 1))

/-- `fnorm(n, a, w)`: matrix norm induced by the weighted max-norm. -/
def fnorm (n : ℕ) (a : ℕ → ℕ → ℚ) (w : ℕ → ℚ) : ℚ := fnormGo a w n n

/-! ## The integrator state (the private members of `class LSODA`) -/

/-- The mutable members of `class LSODA` (source lines 2127-2179).
`size_t` members are `ℕ`, `int` members are `ℤ`, `double` members are `ℚ`,
vectors are `ℕ → ℚ` and matrices `ℕ → ℕ → ℚ`.  `yhLen` tracks
`yh_.size()` (used only by the source's size assertion). -/
structure LState where
  ml : ℕ
  mu : ℕ
  imxer : ℕ
  sqrteta : ℚ
  el : ℕ → ℚ
  cm1 : ℕ → ℚ
  cm2 : ℕ → ℚ
  elco : ℕ → ℕ → ℚ
  tesco : ℕ → ℕ → ℚ
  illin : ℕ
  init : ℕ
  ierpj : ℕ
  iersl : ℕ
  jcur : ℕ
  l : ℕ
  miter : ℕ
  maxord : ℕ
  maxcor : ℕ
  msbp : ℕ
  mxncf : ℕ
  kflag : ℤ
  jstart : ℤ
  iret : ℤ
  ixpr : ℕ
  jtyp : ℕ
  mused : ℕ
  mxordn : ℕ
  mxords : ℕ
  meth_ : ℕ
  n : ℕ
  nq : ℕ
  nst : ℕ
  nfe : ℕ
  nje : ℕ
  nqu : ℕ
  mxstep : ℕ
  mxhnil : ℕ
  nslast : ℕ
  nhnil : ℕ
  ntrep : ℕ
  nyh : ℕ
  ccmax : ℚ
  el0 : ℚ
  h_ : ℚ
  hmin : ℚ
  hmxi : ℚ
  hu : ℚ
  rc : ℚ
  tn_ : ℚ
  tsw : ℚ
  pdnorm : ℚ
  conit : ℚ
  crate : ℚ
  hold : ℚ
  rmax : ℚ
  ialth : ℕ
  ipup : ℕ
  lmax : ℕ
  nslp : ℕ
  pdest : ℚ
  pdlast : ℚ
  ratio : ℚ
  icount : ℤ
  irflag : ℤ
  ewt : ℕ → ℚ
  savf : ℕ → ℚ
  acor : ℕ → ℚ
  yh_ : ℕ → ℕ → ℚ
  wm_ : ℕ → ℕ → ℚ
  ipvt : ℕ → ℕ
  itol_ : ℤ
  rtol_ : ℕ → ℚ
  atol_ : ℕ → ℚ
  yhLen : ℕ

/-- The state of a freshly constructed `LSODA` object: the constructor
zeroes `el`, `cm1`, `cm2`; the in-class initializers set `init = 0`,
`ixpr = 0`, `mxords = 12`, `h_ = 0`, `tn_ = 0`, `itol_ = 2`.  All members
without an initializer hold indeterminate values that the algorithm writes
before reading; the model sets them to zero. -/
def ctorState : LState where
  ml := 0
  mu := 0
  imxer := 0
  sqrteta := 0
  el := fun _ => 0
  cm1 := fun _ => 0
  cm2 := fun _ => 0
  elco := fun _ _ => 0
  tesco := fun _ _ => 0
  illin := 0
  init := 0
  ierpj := 0
  iersl := 0
  jcur := 0
  l := 0
  miter := 0
  maxord := 0
  maxcor := 0
  msbp := 0
  mxncf := 0
  kflag := 0
  jstart := 0
  iret := 0
  ixpr := 0
  jtyp := 0
  mused := 0
  mxordn := 0
  mxords := 12
  meth_ := 0
  n := 0
  nq := 0
  nst := 0
  nfe := 0
  nje := 0
  nqu := 0
  mxstep := 0
  mxhnil := 0
  nslast := 0
  nhnil := 0
  ntrep := 0
  nyh := 0
  ccmax := 0
  el0 := 0
  h_ := 0
  hmin := 0
  hmxi := 0
  hu := 0
  rc := 0
  tn_ := 0
  tsw := 0
  pdnorm := 0
  conit := 0
  crate := 0
  hold := 0
  rmax := 0
  ialth := 0
  ipup := 0
  lmax := 0
  nslp := 0
  pdest := 0
  pdlast := 0
  ratio := 0
  icount := 0
  irflag := 0
  ewt := fun _ => 0
  savf := fun _ => 0
  acor := fun _ => 0
  yh_ := fun _ _ => 0
  wm_ := fun _ _ => 0
  ipvt := fun _ => 0
  itol_ := 2
  rtol_ := fun _ => 0
  atol_ := fun _ => 0
  yhLen := 0

/-! ## Driver helpers (`terminate`, `terminate2`, `successreturn`, `ewset`) -/

/-- `terminate(istate)`: if `illin == 5` the source only prints the
repeated-illegal-input message ("run aborted") and returns with no state
change and `*istate` untouched; otherwise it increments `illin` and sets
`*istate = -3`. -/
def terminate (s : LState) (istate : ℤ) : LState × ℤ :=
  if s.illin = 5 then (s, istate)
  else ({ s with illin := s.illin + 1 }, -3)

/-- `terminate2(y, t)`: copies `yh_[1][1..n]` into `y`, sets `*t = tn_`
and zeroes `illin`.  It does not touch `*istate`. -/
def terminate2 (s : LState) (y : ℕ → ℚ) : LState × (ℕ → ℚ) × ℚ :=
  ({ s with illin := 0 },
   fun i => if 1 ≤ i ∧ i ≤ s.n then s.yh_ 1 i else y i,
   s.tn_)

/-- `successreturn(y, t, itask, ihit, tcrit, istate)`: loads `y` from
`yh_[1]`, sets `*t = tn_` (or `tcrit` when `itask` is 4 or 5 and `ihit`
is nonzero), sets `*istate = 2` and zeroes `illin`.  Result components:
updated `y`, `*t`, `*istate`, updated state. -/
def successreturn (s : LState) (y : ℕ → ℚ) (itask : ℤ) (ihit : ℤ) (tcrit : ℚ) :
    (ℕ → ℚ) × ℚ × ℤ × LState :=
  let y2 := fun i => if 1 ≤ i ∧ i ≤ s.n then s.yh_ 1 i else y i
  let t2 := if (itask = 4 ∨ itask = 5) ∧ ihit ≠ 0 then tcrit else s.tn_
  (y2, t2, 2, { s with illin := 0 })

/-- `ewset(ycur)`: recomputes the error-weight vector `ewt[1..n]` from the
tolerance mode `itol_` (cases 1-4 of the `switch`; any other value leaves
`ewt` unchanged). -/
def ewset (s : LState) (ycur : ℕ → ℚ) : LState :=
  if s.itol_ = 1 then
    { s with ewt := fun i => if 1 ≤ i ∧ i ≤ s.n then s.rtol_ 1 * |ycur i| + s.atol_ 1 else s.ewt i }
  else if s.itol_ = 2 then
    { s with ewt := fun i => if 1 ≤ i ∧ i ≤ s.n then s.rtol_ 1 * |ycur i| + s.atol_ i else s.ewt i }
  else if s.itol_ = 3 then
    { s with ewt := fun i => if 1 ≤ i ∧ i ≤ s.n then s.rtol_ i * |ycur i| + s.atol_ 1 else s.ewt i }
  else if s.itol_ = 4 then
    { s with ewt := fun i => if 1 ≤ i ∧ i ≤ s.n then s.rtol_ i * |ycur i| + s.atol_ i else s.ewt i }
  else s

/-! ## Dense-output interpolation (`intdy`) -/

/-- Ascending integer product: `ic = 1; for (jj = lo; cnt times) ic *= jj`
with `jj` of type `size_t`. -/
def prodN : ℕ → ℕ → ℤ
  | _, 0 => 1
  | lo, c + 1 => prodN lo c * (lo + c)

/-- Ascending integer product with `int` loop variable starting at `lo`. -/
def prodZ : ℤ → ℕ → ℤ
  | _, 0 => 1
  | lo, c + 1 => prodZ lo c * (lo + c)

/-- Descending `j`-loop of `intdy`
(`for (int j = nq - 1; j >= k; j--)`); each iteration recomputes the
factorial-style coefficient `c` and maps
`dky[i] = c * yh_[j+1][i] + s * dky[i]` over `i = 1..n`. -/
def intdyJGo (n : ℕ) (yh : ℕ → ℕ → ℚ) (sq : ℚ) (k : ℕ) : ℤ → ℕ → (ℕ → ℚ) → ℕ → ℚ
  | _, 0, dky => dky
  | j, c + 1, dky =>
    let jp1 := j + 1
    let lo := jp1 - (k : ℤ)
    let ic := prodZ lo (j - lo + 1).toNat
    let cq : ℚ := (ic : ℚ)
    let dky2 := fun i =>
      if 1 ≤ i ∧ i ≤ n then cq * yh jp1.toNat i + sq * dky i else dky i
    intdyJGo n yh sq k (j - 1) c dky2

/-- `intdy(t, k, dky, iflag)`: interpolated `k`-th derivative at `t` from
the Nordsieck array.  Returns the (possibly untouched) `dky` and the value
of `*iflag`.  The method mutates no member of the integrator state.  The
final scaling `r = pow(h_, -k)` has an integral exponent and is modelled
as the exact rational power `h_ ^ (-k)`. -/
def intdy (s : LState) (t : ℚ) (k : ℤ) (dky : ℕ → ℚ) : (ℕ → ℚ) × ℤ :=
  if k < 0 ∨ (s.nq : ℤ) < k then (dky, -1)
  else if 0 < (t - (s.tn_ - s.hu - 100 * eta * sign (|s.tn_| + |s.hu|) s.hu)) *
      (t - (s.tn_ + 100 * eta * sign (|s.tn_| + |s.hu|) s.hu)) then (dky, -2)
  else
    let sq := (t - s.tn_) / s.h_
    let kn := k.toNat
    let ic := prodN (s.l - kn) (s.nq + 1 - (s.l - kn))
    let c : ℚ := (ic : ℚ)
    let dky1 := fun i => if 1 ≤ i ∧ i ≤ s.n then c * s.yh_ s.l i else dky i
    let dky2 := intdyJGo s.n s.yh_ sq kn ((s.nq : ℤ) - 1) (s.nq - kn) dky1
    if k = 0 then (dky2, 0)
    else
      let r := s.h_ ^ (-k)
      (fun i => if 1 ≤ i ∧ i ≤ s.n then dky2 i * r else dky2 i, 0)

/-! ## Nordsieck prediction and retraction (the Pascal-triangle loops) -/

/-- Middle loop of the prediction update of `stoda` (source lines
1060-1063), `i1 = j..nq`, with `cnt` remaining iterations.  The innermost
loop `for (i = 1; i <= n; i++) yh_[i1][i] += yh_[i1+1][i]` writes row `i1`
and reads only row `i1+1`, so it is a pointwise map; the `i1` iterations
are sequential. -/
def predMid (n : ℕ) : (ℕ → ℕ → ℚ) → ℕ → ℕ → ℕ → ℕ → ℚ
  | yh, _, 0 => yh
  | yh, i1, c + 1 =>
    predMid n
      (fun a b => if a = i1 ∧ 1 ≤ b ∧ b ≤ n then yh i1 b + yh (i1 + 1) b else yh a b)
      (i1 + 1) c

/-- Outer loop of the prediction update: `for (j = nq; j >= 1; j--)`,
each iteration running the middle loop for `i1 = j..nq`. -/
def predOuter (n nq : ℕ) : (ℕ → ℕ → ℚ) → ℕ → ℕ → ℕ → ℚ
  | yh, 0 => yh
  | yh, j + 1 => predOuter n nq (predMid n yh (j + 1) (nq + 1 - (j + 1))) j

/-- Prediction section of `stoda`: `tn_ += h_` followed by the
Pascal-triangle update of `yh_`. -/
def predictStep (s : LState) : LState :=
  { s with tn_ := s.tn_ + s.h_, yh_ := predOuter s.n s.nq s.yh_ s.nq }

/-- Middle loop of the retraction (`yh_[i1][i] -= yh_[i1+1][i]`), same
iteration order as `predMid`. -/
def retrMid (n : ℕ) : (ℕ → ℕ → ℚ) → ℕ → ℕ → ℕ → ℕ → ℚ
  | yh, _, 0 => yh
  | yh, i1, c + 1 =>
    retrMid n
      (fun a b => if a = i1 ∧ 1 ≤ b ∧ b ≤ n then yh i1 b - yh (i1 + 1) b else yh a b)
      (i1 + 1) c

/-- Outer loop of the retraction, same iteration order as `predOuter`. -/
def retrOuter (n nq : ℕ) : (ℕ → ℕ → ℚ) → ℕ → ℕ → ℕ → ℚ
  | yh, 0 => yh
  | yh, j + 1 => retrOuter n nq (retrMid n yh (j + 1) (nq + 1 - (j + 1))) j

/-- Restoration performed when the error test fails in `stoda` (lines
1195-1200) and by `corfailure` (lines 1781-1785): `tn_ = told` and the
subtractive Pascal-triangle loop over `yh_`. -/
def retractStep (s : LState) (told : ℚ) : LState :=
  { s with tn_ := told, yh_ := retrOuter s.n s.nq s.yh_ s.nq }

/-- Scalar (single Nordsieck column) form of `predMid`: one ascending pass
of `g[i1] += g[i1+1]` over `i1`, with `cnt` remaining operations. -/
def passAdd : (ℕ → ℚ) → ℕ → ℕ → ℕ → ℚ
  | g, _, 0 => g
  | g, i1, c + 1 =>
    passAdd (fun k => if k = i1 then g i1 + g (i1 + 1) else g k) (i1 + 1) c

/-- Scalar form of `retrMid`: one ascending pass of `g[i1] -= g[i1+1]`. -/
def passSub : (ℕ → ℚ) → ℕ → ℕ → ℕ → ℚ
  | g, _, 0 => g
  | g, i1, c + 1 =>
    passSub (fun k => if k = i1 then g i1 - g (i1 + 1) else g k) (i1 + 1) c

/-- Scalar form of `predOuter`: passes for `j = nq, nq - 1, ..., 1`. -/
def outerAdd (q : ℕ) : (ℕ → ℚ) → ℕ → ℕ → ℚ
  | g, 0 => g
  | g, j + 1 => outerAdd q (passAdd g (j + 1) (q + 1 - (j + 1))) j

/-- Scalar form of `retrOuter`. -/
def outerSub (q : ℕ) : (ℕ → ℚ) → ℕ → ℕ → ℚ
  | g, 0 => g
  | g, j + 1 => outerSub q (passSub g (j + 1) (q + 1 - (j + 1))) j

/-- Proof-side regrouping of `outerAdd` that peels the pass applied last:
`blocksAdd q d` performs the passes for `j = q, q - 1, ..., q + 1 - d`. -/
def blocksAdd (q : ℕ) : ℕ → (ℕ → ℚ) → ℕ → ℚ
  | 0, g => g
  | d + 1, g => passAdd (blocksAdd q d g) (q - d) (d + 1)

/-- Proof-side regrouping of `outerSub`, analogous to `blocksAdd`. -/
def blocksSub (q : ℕ) : ℕ → (ℕ → ℚ) → ℕ → ℚ
  | 0, g => g
  | d + 1, g => passSub (blocksSub q d g) (q - d) (d + 1)

/-! ## External context and the corrector (`prja`, `solsy`, `corfailure`,
`correction`) -/

/-- External context of the embedding: the user right-hand-side callback
`f` of type `LSODA_ODE_SYSTEM_TYPE` (the model passes the whole 1-based
vector; the code reads entries `1..n` and writes entries `1..n` of the
output), and the two floating-point library functions whose results are
not exactly representable in `ℚ`: `pow` with non-integral exponent and
`sqrt`. -/
structure Ctx where
  f : ℚ → (ℕ → ℚ) → ℕ → ℚ
  powF : ℚ → ℚ → ℚ
  sqrtF : ℚ → ℚ

/-- Effect of `(*f)(t, &y[1], &out[1], _data)`: entries `1..n` of `out`
are overwritten with the right-hand side evaluated at `(t, y)`. -/
def callF (ctx : Ctx) (t : ℚ) (y : ℕ → ℚ) (out : ℕ → ℚ) (n : ℕ) : ℕ → ℚ :=
  fun i => if 1 ≤ i ∧ i ≤ n then ctx.f t y i else out i

/-- Column loop of `prja` (`for j = 1..n`), sequential: perturb `y[j]` by
`r = max(sqrteta * |y[j]|, r0 / ewt[j])`, evaluate `f` into `acor`, store
`(acor[i] - savf[i]) * (-hl0/r)` into column `j` of `wm_`, restore `y[j]`.
Threads `(y, acor, wm_)`; `c` counts the remaining columns. -/
def prjaGo (ctx : Ctx) (tn : ℚ) (n : ℕ) (ewt savf : ℕ → ℚ) (sqeta r0 hl0 : ℚ) :
    ℕ → ℕ → (ℕ → ℚ) → (ℕ → ℚ) → (ℕ → ℕ → ℚ) → (ℕ → ℚ) × (ℕ → ℚ) × (ℕ → ℕ → ℚ)
  | _, 0, y, acor, wm => (y, acor, wm)
  | j, c + 1, y, acor, wm =>
    let yj := y j
    let r := max (sqeta * |yj|) (r0 / ewt j)
    let y1 := upd1 y j (y j + r)
    let fac := -hl0 / r
    let acor1 := callF ctx tn y1 acor n
    let wm1 := fun a b =>
      if b = j ∧ 1 ≤ a ∧ a ≤ n then (acor1 a - savf a) * fac else wm a b
    prjaGo ctx tn n ewt savf sqeta r0 hl0 (j + 1) c (upd1 y1 j yj) acor1 wm1

/-- `prja`: finite-difference Jacobian, scaled by `-h_ * el0`, norm
estimate, identity shift, and LU factorization via `dgefa`.  Sets
`jcur = 1` unconditionally; `ierpj = 1` when the factorization reported a
zero pivot.  With `miter != 2` the source prints a message and returns
after the bookkeeping assignments. -/
def prja (ctx : Ctx) (s : LState) (y : ℕ → ℚ) : LState × (ℕ → ℚ) :=
  let s1 := { s with nje := s.nje + 1, ierpj := 0, jcur := 1 }
  let hl0 := s.h_ * s.el0
  if s.miter ≠ 2 then (s1, y)
  else
    let fac := vmnorm s.n s.savf s.ewt
    let r00 := 1000 * |s.h_| * eta * (s.n : ℚ) * fac
    let r0 := if r00 = 0 then 1 else r00
    let res := prjaGo ctx s.tn_ s.n s.ewt s.savf s.sqrteta r0 hl0 1 s.n y s1.acor s1.wm_
    let pd := fnorm s.n res.2.2 s.ewt / |hl0|
    let wm2 := fun a b =>
      if a = b ∧ 1 ≤ a ∧ a ≤ s.n then res.2.2 a b + 1 else res.2.2 a b
    let dg := dgefa wm2 s.n s.ipvt
    ({ s1 with
        acor := res.2.1
        nfe := s1.nfe + s.n
        pdnorm := pd
        wm_ := dg.1
        ipvt := dg.2.1
        ierpj := if dg.2.2 ≠ 0 then 1 else 0 }, res.1)

/-- `solsy(y)`: sets `iersl = 0` and, when `miter == 2`, solves the
factored system via `dgesl` with `job = 0` (otherwise only prints). -/
def solsy (s : LState) (y : ℕ → ℚ) : LState × (ℕ → ℚ) :=
  let s1 := { s with iersl := 0 }
  if s.miter ≠ 2 then (s1, y)
  else (s1, dgesl s.wm_ s.n s.ipvt y 0)

/-- `corfailure(told, rh, ncf, corflag)`: increments `ncf`, sets
`rmax = 2`, restores `tn_` and retracts `yh_`; returns `corflag = 2` at
the minimum step size or after `mxncf` failures, otherwise `corflag = 1`
with `rh = 0.25` and a forced Jacobian update.  Result components:
updated state, `rh`, `ncf`, `corflag`. -/
def corfailure (s : LState) (told : ℚ) (rh : ℚ) (ncf : ℕ) :
    LState × ℚ × ℕ × ℕ :=
  let ncf1 := ncf + 1
  let s1 : LState := { retractStep s told with rmax := 2 }
  if |s1.h_| ≤ s1.hmin * 1.00001 ∨ ncf1 = s1.mxncf then (s1, rh, ncf1, 2)
  else ({ s1 with ipup := s1.miter }, 0.25, ncf1, 1)

/-- Loop-carried data of one `correction` call: the integrator state, the
caller's `y`, and the locals `m`, `del`, `delp`, `ncf`, `rh`, `rate` of
the corrector loop.  `rcount` is a ghost counter (no source counterpart,
written by no other definition) that counts the Jacobian
refresh-restarts, i.e. executions of the `ipup = miter; *m = 0` branch. -/
structure CorrS where
  s : LState
  y : ℕ → ℚ
  m : ℕ
  del : ℚ
  delp : ℚ
  ncf : ℕ
  rh : ℚ
  rate : ℚ
  rcount : ℕ

/-- Result of one iteration of the corrector `while(1)` loop:
converged (`break` with `corflag = 0`), `corfailure` return (with the
resulting `corflag`), or loop again. -/
inductive CorrStepRes where
  | conv (c : CorrS)
  | fail (c : CorrS) (corflag : ℕ)
  | next (c : CorrS)

/-- The `for (i) acor[i] = 0` reset in the `m == 0` block. -/
def corrZeroAcor (s : LState) : LState :=
  { s with acor := fun i => if 1 ≤ i ∧ i ≤ s.n then 0 else s.acor i }

/-- Divergence handling of `correction` (after `(*m)++`): divergence is
declared when `*m == maxcor` or (`*m >= 2` and `*del > 2 * *delp`); then
either `corfailure` is invoked (`miter == 0` or the Jacobian is current),
or the iteration restarts from `m = 0` with a forced Jacobian update.
Otherwise the corrector iterates (`*delp = *del`, new `f` evaluation). -/
def corrDiverge (ctx : Ctx) (told : ℚ) (c : CorrS) : CorrStepRes :=
  let s := c.s
  let m1 := c.m + 1
  if m1 = s.maxcor ∨ (2 ≤ m1 ∧ c.del > 2 * c.delp) then
    if s.miter = 0 ∨ s.jcur = 1 then
      let cf := corfailure s told c.rh c.ncf
      .fail { c with
        s := cf.1
        rh := cf.2.1
        ncf := cf.2.2.1
        m := m1 } cf.2.2.2
    else
      let y1 := fun i => if 1 ≤ i ∧ i ≤ s.n then s.yh_ 1 i else c.y i
      let savf1 := callF ctx s.tn_ y1 s.savf s.n
      .next { c with
        s := { s with ipup := s.miter, savf := savf1, nfe := s.nfe + 1 }
        y := y1
        m := 0
        rate := 0
        del := 0
        rcount := c.rcount + 1 }
  else
    let savf1 := callF ctx s.tn_ c.y s.savf s.n
    .next { c with
      s := { s with savf := savf1, nfe := s.nfe + 1 }
      m := m1
      delp := c.del }

/-- Convergence test of `correction`: immediate acceptance at roundoff
scale (`del <= 100 * pnorm * ETA`); otherwise, when `m != 0` or the
method is not Adams, the rate-based test `dcon <= 1` (updating `rate`,
`crate`, `pdest`, `pdlast`); on failure, divergence handling. -/
def corrConvTest (ctx : Ctx) (pnorm told : ℚ) (c : CorrS) : CorrStepRes :=
  let s := c.s
  if c.del ≤ 100 * pnorm * eta then .conv c
  else if c.m ≠ 0 ∨ s.meth_ ≠ 1 then
    let rr :=
      if c.m ≠ 0 then
        let rm := if c.del ≤ 1024 * c.delp then c.del / c.delp else 1024
        (max c.rate rm, max (0.2 * s.crate) rm)
      else (c.rate, s.crate)
    let dcon := c.del * min 1 (1.5 * rr.2) / (s.tesco s.nq 2 * s.conit)
    if dcon ≤ 1 then
      let pdest1 := max s.pdest (rr.1 / |s.h_ * s.el 1|)
      let pdlast1 := if pdest1 ≠ 0 then pdest1 else s.pdlast
      .conv { c with
        s := { s with crate := rr.2, pdest := pdest1, pdlast := pdlast1 }
        rate := rr.1 }
    else corrDiverge ctx told { c with s := { s with crate := rr.2 }, rate := rr.1 }
  else corrDiverge ctx told c

/-- Update-and-test part of one corrector iteration: the functional
(`miter == 0`) or chord (`miter != 0`, via `solsy`) update of `y`, `savf`
or `acor` and `del`, followed by the convergence test. -/
def corrIterBody (ctx : Ctx) (pnorm told : ℚ) (c : CorrS) : CorrStepRes :=
  let s := c.s
  if s.miter = 0 then
    let savf1 := fun i =>
      if 1 ≤ i ∧ i ≤ s.n then s.h_ * s.savf i - s.yh_ 2 i else s.savf i
    let y1 := fun i => if 1 ≤ i ∧ i ≤ s.n then savf1 i - s.acor i else c.y i
    let del := vmnorm s.n y1 s.ewt
    let y2 := fun i => if 1 ≤ i ∧ i ≤ s.n then s.yh_ 1 i + s.el 1 * savf1 i else y1 i
    let acor1 := fun i => if 1 ≤ i ∧ i ≤ s.n then savf1 i else s.acor i
    corrConvTest ctx pnorm told
      { c with
        s := { s with savf := savf1, acor := acor1 }
        y := y2
        del := del }
  else
    let y1 := fun i =>
      if 1 ≤ i ∧ i ≤ s.n then s.h_ * s.savf i - (s.yh_ 2 i + s.acor i) else c.y i
    let so := solsy s y1
    let del := vmnorm s.n so.2 s.ewt
    let acor1 := fun i => if 1 ≤ i ∧ i ≤ s.n then s.acor i + so.2 i else s.acor i
    let y2 := fun i =>
      if 1 ≤ i ∧ i ≤ s.n then s.yh_ 1 i + s.el 1 * acor1 i else so.2 i
    corrConvTest ctx pnorm told
      { c with
        s := { so.1 with acor := acor1 }
        y := y2
        del := del }

/-- One full iteration of the corrector `while(1)` loop, including the
`m == 0` block (Jacobian evaluation when `ipup > 0`, `acor` reset). -/
def corrStep (ctx : Ctx) (pnorm told : ℚ) (c : CorrS) : CorrStepRes :=
  if c.m = 0 then
    if c.s.ipup > 0 then
      let pr := prja ctx c.s c.y
      let s1 : LState := { pr.1 with ipup := 0, rc := 1, nslp := pr.1.nst, crate := 0.7 }
      if s1.ierpj ≠ 0 then
        let cf := corfailure s1 told c.rh c.ncf
        .fail { c with
          s := cf.1
          y := pr.2
          rh := cf.2.1
          ncf := cf.2.2.1 } cf.2.2.2
      else corrIterBody ctx pnorm told { c with s := corrZeroAcor s1, y := pr.2 }
    else corrIterBody ctx pnorm told { c with s := corrZeroAcor c.s }
  else corrIterBody ctx pnorm told c

/-- Outcome of a full `correction` call: the final loop data and
`*corflag` (0 converged, 1 shrink-and-retry, 2 unrecoverable). -/
structure CorrOut where
  c : CorrS
  corflag : ℕ

/-- The corrector `while(1)` loop, fuelled. -/
def corrLoop (ctx : Ctx) (pnorm told : ℚ) : ℕ → CorrS → Option CorrOut
  | 0, _ => none
  | fuel + 1, c =>
    match corrStep ctx pnorm told c with
    | .conv c1 => some ⟨c1, 0⟩
    | .fail c1 flag => some ⟨c1, flag⟩
    | .next c1 => corrLoop ctx pnorm told fuel c1

/-- `correction(...)`: initializes `*m = 0`, `*del = 0`, loads `y` from
`yh_[1]`, evaluates `f` into `savf`, then runs the corrector loop.  The
local `rate` starts at 0, and the ghost restart counter at 0. -/
def correction (ctx : Ctx) (s : LState) (y : ℕ → ℚ) (pnorm : ℚ)
    (delp told : ℚ) (ncf : ℕ) (rh : ℚ) (fuel : ℕ) : Option CorrOut :=
  let y1 := fun i => if 1 ≤ i ∧ i ≤ s.n then s.yh_ 1 i else y i
  let savf1 := callF ctx s.tn_ y1 s.savf s.n
  corrLoop ctx pnorm told fuel
    { s := { s with savf := savf1, nfe := s.nfe + 1 }
      y := y1
      m := 0
      del := 0
      delp := delp
      ncf := ncf
      rh := rh
      rate := 0
      rcount := 0 }

/-- Specification helper: a corrector-iteration result counts as a
declared divergence when it either invoked `corfailure` (`fail`) or
restarted the iteration from `m = 0` (Jacobian refresh; the ordinary
iterate step always has `m ≥ 1`). -/
def isDivergedRes : CorrStepRes → Prop
  | .conv _ => False
  | .fail _ _ => True
  | .next c1 => c1.m = 0

/-- Specification helper: invariant of the corrector loop stating that at
most one Jacobian refresh-restart has happened, and that right after one
either the Jacobian is current (`jcur = 1`) or the forced update
(`ipup = miter ≠ 0`, `m = 0`) is still pending. -/
def corrInv (c : CorrS) : Prop :=
  c.rcount ≤ 1 ∧
    (c.rcount = 1 → (c.s.jcur = 1 ∨ (c.m = 0 ∧ c.s.ipup = c.s.miter ∧ c.s.miter ≠ 0)))

/-! ## Method coefficients (`cfode`, `resetcoeff`) -/

/-- Descending inner loop of `cfode`: `for (i = <start>; i >= 2; i--)
pc[i] = pc[i-1] + f * pc[i]`, with `c` remaining iterations (so the
current index is `c + 1`). -/
def cfodePcGo (f : ℚ) : ℕ → (ℕ → ℚ) → ℕ → ℚ
  | 0, pc => pc
  | c + 1, pc => cfodePcGo f c (upd1 pc (c + 2) (pc (c + 1) + f * pc (c + 2)))

/-- Integration loop of `cfode` (`meth_ == 1` branch): for `i = 2..nq`,
`tsign = -tsign; pint += tsign*pc[i]/i; xpin += tsign*pc[i]/(i+1)`.
Returns `(pint, xpin)`; `c` counts the remaining iterations. -/
def cfodeIntGo (pc : ℕ → ℚ) : ℕ → ℕ → ℚ → ℚ → ℚ → ℚ × ℚ
  | _, 0, _, pint, xpin => (pint, xpin)
  | i, c + 1, tsign, pint, xpin =>
    cfodeIntGo pc (i + 1) c (-tsign)
      (pint + -tsign * pc i / (i : ℚ))
      (xpin + -tsign * pc i / ((i + 1 : ℕ) : ℚ))

/-- Outer loop of `cfode` for `meth_ == 1`: `nq = 2..12`, threading
`(elco, tesco, pc, rqfac)`. -/
def cfode1Go : ℕ → ℕ → (ℕ → ℕ → ℚ) → (ℕ → ℕ → ℚ) → (ℕ → ℚ) → ℚ →
    (ℕ → ℕ → ℚ) × (ℕ → ℕ → ℚ)
  | _, 0, elco, tesco, _, _ => (elco, tesco)
  | nq, c + 1, elco, tesco, pc, rqfac =>
    let rq1fac := rqfac
    let rqfac1 := rqfac / (nq : ℚ)
    let fnqm1 : ℚ := ((nq - 1 : ℕ) : ℚ)
    let pcB := cfodePcGo fnqm1 (nq - 1) (upd1 pc nq 0)
    let pcC := upd1 pcB 1 (fnqm1 * pcB 1)
    let ix := cfodeIntGo pcC 2 (nq - 1) 1 (pcC 1) (pcC 1 / 2)
    let elco1 := fun r c2 =>
      if r = nq then
        if c2 = 1 then ix.1 * rq1fac
        else if c2 = 2 then 1
        else if 3 ≤ c2 ∧ c2 ≤ nq + 1 then rq1fac * pcC (c2 - 1) / ((c2 - 1 : ℕ) : ℚ)
        else elco r c2
      else elco r c2
    let ragq := 1 / (rqfac1 * ix.2)
    let tescoA := upd2 tesco nq 2 ragq
    let tescoB :=
      if nq < 12 then upd2 tescoA (nq + 1) 1 (ragq * rqfac1 / ((nq + 1 : ℕ) : ℚ))
      else tescoA
    cfode1Go (nq + 1) c elco1 (upd2 tescoB (nq - 1) 3 ragq) pcC rqfac1

/-- Outer loop of `cfode` for `meth_ == 2`: `nq = 1..5`, threading
`(elco, tesco, pc, rq1fac)`. -/
def cfode2Go : ℕ → ℕ → (ℕ → ℕ → ℚ) → (ℕ → ℕ → ℚ) → (ℕ → ℚ) → ℚ →
    (ℕ → ℕ → ℚ) × (ℕ → ℕ → ℚ)
  | _, 0, elco, tesco, _, _ => (elco, tesco)
  | nq, c + 1, elco, tesco, pc, rq1fac =>
    let fnq : ℚ := (nq : ℚ)
    let pcB := cfodePcGo fnq nq (upd1 pc (nq + 1) 0)
    let pcC := upd1 pcB 1 (pcB 1 * fnq)
    let elco1 := fun r c2 =>
      if r = nq then
        if c2 = 2 then 1
        else if 1 ≤ c2 ∧ c2 ≤ nq + 1 then pcC c2 / pcC 2
        else elco r c2
      else elco r c2
    let tescoA := upd2 tesco nq 1 rq1fac
    let tescoB := upd2 tescoA nq 2 (((nq + 1 : ℕ) : ℚ) / elco1 nq 1)
    let tescoC := upd2 tescoB nq 3 (((nq + 2 : ℕ) : ℚ) / elco1 nq 1)
    cfode2Go (nq + 1) c elco1 tescoC pcC (rq1fac / fnq)

/-- `cfode(meth_)`: fills the `elco` and `tesco` coefficient tables for
the Adams (`meth_ == 1`, orders 2..12 plus the order-1 seed values) or bdf
(orders 1..5) family.  The local array `pc[13]` starts with `pc[1] = 1`
(remaining entries are written before being read; the model zeroes
them). -/
def cfode (s : LState) (meth : ℕ) : LState :=
  let r :=
    if meth = 1 then
      cfode1Go 2 11 (upd2 (upd2 s.elco 1 1 1) 1 2 1)
        (upd2 (upd2 (upd2 (upd2 s.tesco 1 1 0) 1 2 2) 2 1 1) 12 3 0)
        (upd1 (fun _ => 0) 1 1) 1
    else
      cfode2Go 1 5 s.elco s.tesco (upd1 (fun _ => 0) 1 1) 1
  { s with elco := r.1, tesco := r.2 }

/-- `resetcoeff()`: copies row `nq` of `elco` into `el[1..l]` and updates
`rc`, `el0`, `conit`. -/
def resetcoeff (s : LState) : LState :=
  let el1 := fun i => if 1 ≤ i ∧ i ≤ s.l then s.elco s.nq i else s.el i
  { s with
    el := el1
    rc := s.rc * el1 1 / s.el0
    el0 := el1 1
    conit := 0.5 / ((s.nq + 2 : ℕ) : ℚ) }

/-! ## Step-size rescaling (`scaleh`) and step epilogue (`endstoda`) -/

/-- Row-scaling loop of `scaleh`: `r = 1; for (j = 2; j <= l; j++)
{ r *= rh; for (i) yh_[j][i] *= r; }`; `c` counts remaining rows. -/
def scalehRows (n : ℕ) (rh : ℚ) : (ℕ → ℕ → ℚ) → ℕ → ℕ → ℚ → ℕ → ℕ → ℚ
  | yh, _, 0, _ => yh
  | yh, j, c + 1, r =>
    let r1 := r * rh
    scalehRows n rh
      (fun a b => if a = j ∧ 1 ≤ b ∧ b ≤ n then yh a b * r1 else yh a b)
      (j + 1) c r1

/-- `scaleh(&rh, &pdh)`: clamps `rh` by `rmax` and `hmxi`, restricts it by
the Adams stability region when `meth_ == 1` (setting `irflag`), rescales
rows `2..l` of `yh_` by powers of `rh`, and updates `h_`, `rc`,
`ialth = l`.  Result components: updated state, `*rh`, `*pdh`. -/
def scaleh (s : LState) (rh pdh : ℚ) : LState × ℚ × ℚ :=
  let rhA := min rh s.rmax
  let rhB := rhA / max 1 (|s.h_| * s.hmxi * rhA)
  let pdhC := if s.meth_ = 1 then max (|s.h_| * s.pdlast) 0.000001 else pdh
  let rhC := if s.meth_ = 1 ∧ rhB * pdhC * 1.00001 ≥ sm1 s.nq then sm1 s.nq / pdhC else rhB
  let irflag1 : ℤ :=
    if s.meth_ = 1 then (if rhB * pdhC * 1.00001 ≥ sm1 s.nq then 1 else 0) else s.irflag
  { s with
    yh_ := scalehRows s.n rhC s.yh_ 2 (s.l - 1) 1
    h_ := s.h_ * rhC
    rc := s.rc * rhC
    ialth := s.l
    irflag := irflag1 } |> fun s1 => (s1, rhC, pdhC)

/-- `endstoda()`: scales `acor` by `1 / tesco[nqu][2]` and sets
`hold = h_`, `jstart = 1`. -/
def endstoda (s : LState) : LState :=
  let r := 1 / s.tesco s.nqu 2
  { s with
    acor := fun i => if 1 ≤ i ∧ i ≤ s.n then s.acor i * r else s.acor i
    hold := s.h_
    jstart := 1 }

/-! ## Order and method selection (`orderswitch`, `methodswitch`) -/

/-- The `*pdh` update of `orderswitch` (and of `scaleh`): when
`meth_ == 1`, `*pdh = max(|h_| * pdlast, 0.000001)`; otherwise `*pdh` is
left at the caller's value. -/
def osPdh (s : LState) (pdhIn : ℚ) : ℚ :=
  if s.meth_ = 1 then max (|s.h_| * s.pdlast) 0.000001 else pdhIn

/-- `rhsm` as computed by `orderswitch`: `1/(1.2*pow(dsm, 1/l) + 1.2e-6)`,
restricted by the stability bound `sm1[nq] / pdh` when `meth_ == 1`. -/
def osRhsm (ctx : Ctx) (s : LState) (dsm pdh1 : ℚ) : ℚ :=
  let r := 1 / (1.2 * ctx.powF dsm (1 / (s.l : ℚ)) + 0.0000012)
  if s.meth_ = 1 then min r (sm1 s.nq / pdh1) else r

/-- `rhdn` as computed by `orderswitch`: `0` at order 1, otherwise
`1/(1.3*pow(ddn, 1/nq) + 1.3e-6)` with
`ddn = vmnorm(n, yh_[l], ewt)/tesco[nq][1]`, restricted by
`sm1[nq-1] / pdh` when `meth_ == 1`. -/
def osRhdn (ctx : Ctx) (s : LState) (pdh1 : ℚ) : ℚ :=
  let r :=
    if s.nq ≠ 1 then
      1 / (1.3 * ctx.powF (vmnorm s.n (s.yh_ s.l) s.ewt / s.tesco s.nq 1)
        (1 / (s.nq : ℚ)) + 0.0000013)
    else 0
  if s.meth_ = 1 ∧ s.nq > 1 then min r (sm1 (s.nq - 1) / pdh1) else r

/-- The `*rhup` restriction of `orderswitch`: when `meth_ == 1` and
`l < lmax`, `*rhup = min(*rhup, sm1[l] / pdh)`. -/
def osRhup (s : LState) (rhupIn pdh1 : ℚ) : ℚ :=
  if s.meth_ = 1 ∧ s.l < s.lmax then min rhupIn (sm1 s.l / pdh1) else rhupIn

/-- Common tail of `orderswitch` after `newq` and `*rh` were selected: the
10-percent test (bypassed when `meth_ == 1` and the step is
stability-restricted) setting `ialth = 3` with `orderflag = 0`; the
post-failure clamp `*rh = min(*rh, 0.2)` when `kflag <= -2`; and the
`newq == nq` dispatch (`orderflag` 1 versus 2 with `nq = newq`,
`l = nq + 1`).  Result components: state, `*rhup`, `*pdh`, `*rh`,
`*orderflag`. -/
def orderswitchTail (s0 : LState) (rhup1 pdh1 rh0 : ℚ) (newq : ℕ) :
    LState × ℚ × ℚ × ℚ × ℕ :=
  if (s0.meth_ = 1 ∧ rh0 * pdh1 * 1.00001 < sm1 newq ∧ s0.kflag = 0 ∧ rh0 < 1.1) ∨
      (s0.meth_ ≠ 1 ∧ s0.kflag = 0 ∧ rh0 < 1.1) then
    ({ s0 with ialth := 3 }, rhup1, pdh1, rh0, 0)
  else
    let rh2 := if s0.kflag ≤ -2 then min rh0 0.2 else rh0
    if newq = s0.nq then (s0, rhup1, pdh1, rh2, 1)
    else ({ s0 with nq := newq, l := newq + 1 }, rhup1, pdh1, rh2, 2)

/-- `orderswitch(&rhup, dsm, &pdh, &rh, &orderflag)`: computes the step
ratios `rhsm`, `rhdn` (and restricts them and `rhup` by the stability
region when `meth_ == 1`, also zeroing `pdest`), selects the candidate
order (`nq`, `nq - 1`, or the order-increase branch writing the new
ratio-scaled derivative row `yh_[l]`), and finishes via
`orderswitchTail`.  Result components: state, `*rhup`, `*pdh`, `*rh`,
`*orderflag`. -/
def orderswitch (ctx : Ctx) (s : LState) (rhupIn dsm pdhIn rhIn : ℚ) :
    LState × ℚ × ℚ × ℚ × ℕ :=
  let pdh1 := osPdh s pdhIn
  let rhup1 := osRhup s rhupIn pdh1
  let rhsm := osRhsm ctx s dsm pdh1
  let rhdn := osRhdn ctx s pdh1
  let s0 : LState := if s.meth_ = 1 then { s with pdest := 0 } else s
  if rhsm ≥ rhup1 then
    if rhsm ≥ rhdn then orderswitchTail s0 rhup1 pdh1 rhsm s0.nq
    else
      orderswitchTail s0 rhup1 pdh1
        (if s0.kflag < 0 ∧ rhdn > 1 then 1 else rhdn) (s0.nq - 1)
  else
    if rhup1 ≤ rhdn then
      orderswitchTail s0 rhup1 pdh1
        (if s0.kflag < 0 ∧ rhdn > 1 then 1 else rhdn) (s0.nq - 1)
    else
      if rhup1 ≥ 1.1 then
        ({ s0 with
            nq := s0.l
            l := s0.l + 1
            yh_ := fun a b =>
              if a = s0.l + 1 ∧ 1 ≤ b ∧ b ≤ s0.n then
                s0.acor b * (s0.el s0.l / (s0.l : ℚ))
              else s0.yh_ a b },
         rhup1, pdh1, rhup1, 2)
      else ({ s0 with ialth := 3 }, rhup1, pdh1, rhup1, 0)

/-- `methodswitch(dsm, pnorm, &pdh, &rh)`: the Adams-to-bdf test
(`meth_ == 1`: roundoff-polluted branch keyed on `irflag`, or the
`rh2 >= ratio * rh1` step-ratio test, switching to order
`min(nq, mxords)` respectively `mxords`/`nq`) and the bdf-to-Adams test
(`meth_ == 2`: step-ratio and roundoff tests, switching to order
`mxordn`/`nq`).  A switch sets `icount = 20`, the new `miter` (`jtyp`
resp. 0), `pdlast = 0` and `l = nq + 1`.  Result components: state,
`*pdh`, `*rh`. -/
def methodswitch (ctx : Ctx) (s : LState) (dsm pnorm pdh rh : ℚ) :
    LState × ℚ × ℚ :=
  if s.meth_ = 1 then
    if s.nq > 5 then (s, pdh, rh)
    else if dsm ≤ 100 * pnorm * eta ∨ s.pdest = 0 then
      if s.irflag = 0 then (s, pdh, rh)
      else
        let nqm2 := min s.nq s.mxords
        ({ s with
            icount := 20
            meth_ := 2
            miter := s.jtyp
            pdlast := 0
            nq := nqm2
            l := nqm2 + 1 }, pdh, 2)
    else
      let exsm := 1 / (s.l : ℚ)
      let rh1a := 1 / (1.2 * ctx.powF dsm exsm + 0.0000012)
      let pdh1 := s.pdlast * |s.h_|
      let rh1it := if pdh1 * rh1a > 0.00001 then sm1 s.nq / pdh1 else 2 * rh1a
      let rh1 := min rh1a rh1it
      let nr :=
        if s.nq > s.mxords then
          (s.mxords,
           1 / (1.2 * ctx.powF
              (vmnorm s.n (s.yh_ (s.mxords + 1 + 1)) s.ewt / s.cm2 s.mxords)
              (1 / ((s.mxords + 1 : ℕ) : ℚ)) + 0.0000012))
        else
          (s.nq, 1 / (1.2 * ctx.powF (dsm * (s.cm1 s.nq / s.cm2 s.nq)) exsm + 0.0000012))
      if nr.2 < s.ratio * rh1 then (s, pdh1, rh)
      else
        ({ s with
            icount := 20
            meth_ := 2
            miter := s.jtyp
            pdlast := 0
            nq := nr.1
            l := nr.1 + 1 }, pdh1, nr.2)
  else
    let exsm := 1 / (s.l : ℚ)
    let nd :=
      if s.mxordn < s.nq then
        let dm1 := vmnorm s.n (s.yh_ (s.mxordn + 1 + 1)) s.ewt / s.cm1 s.mxordn
        (s.mxordn, 1 / ((s.mxordn + 1 : ℕ) : ℚ), dm1,
         1 / (1.2 * ctx.powF dm1 (1 / ((s.mxordn + 1 : ℕ) : ℚ)) + 0.0000012))
      else
        let dm1 := dsm * (s.cm2 s.nq / s.cm1 s.nq)
        (s.nq, exsm, dm1, 1 / (1.2 * ctx.powF dm1 exsm + 0.0000012))
    let pdh1 := s.pdnorm * |s.h_|
    let rh1it := if pdh1 * nd.2.2.2 > 0.00001 then sm1 nd.1 / pdh1 else 2 * nd.2.2.2
    let rh1 := min nd.2.2.2 rh1it
    let rh2 := 1 / (1.2 * ctx.powF dsm exsm + 0.0000012)
    if rh1 * s.ratio < 5 * rh2 then (s, pdh1, rh)
    else
      let dm1b := nd.2.2.1 * ctx.powF (max 0.001 rh1) nd.2.1
      if dm1b ≤ 1000 * eta * pnorm then (s, pdh1, rh)
      else
        ({ s with
            icount := 20
            meth_ := 1
            miter := 0
            pdlast := 0
            nq := nd.1
            l := nd.1 + 1 }, pdh1, rh1)

/-! ## One integration step (`stoda`) -/

/-- The `jstart == 0` initialization block of `stoda`: order 1, both
coefficient tables via `cfode(2)` / `cfode(1)` with the `cm2` / `cm1`
method-switch constants, then `resetcoeff`. -/
def stodaInit (s : LState) : LState :=
  let sA : LState := { s with
    lmax := s.maxord + 1
    nq := 1
    l := 2
    ialth := 2
    rmax := 10000
    rc := 0
    el0 := 1
    crate := 0.7
    hold := s.h_
    nslp := 0
    ipup := s.miter
    iret := 3
    icount := 20
    irflag := 0
    pdest := 0
    pdlast := 0
    ratio := 5 }
  let sB := cfode sA 2
  let sC : LState := { sB with
    cm2 := fun i => if 1 ≤ i ∧ i ≤ 5 then sB.tesco i 2 * sB.elco i (i + 1) else sB.cm2 i }
  let sD := cfode sC 1
  let sE : LState := { sD with
    cm1 := fun i => if 1 ≤ i ∧ i ≤ 12 then sD.tesco i 2 * sD.elco i (i + 1) else sD.cm1 i }
  resetcoeff sE

/-- The `jstart == -1` preliminaries of `stoda`: force a Jacobian update,
refresh `lmax`, postpone a pending order increase, reload the method
coefficients if `meth_` changed, and rescale `yh_` if `h_` changed.
Threads `(state, rh, pdh)`. -/
def stodaJm1 (s : LState) (rh pdh : ℚ) : LState × ℚ × ℚ :=
  let sA : LState := { s with ipup := s.miter, lmax := s.maxord + 1 }
  let sB : LState := { sA with ialth := if sA.ialth = 1 then 2 else sA.ialth }
  let sC : LState :=
    if sB.meth_ ≠ sB.mused then
      let c1 := cfode sB sB.meth_
      resetcoeff { c1 with ialth := c1.l, iret := 1 }
    else sB
  if sC.h_ ≠ sC.hold then scaleh { sC with h_ := sC.hold } (sC.h_ / sC.hold) pdh
  else (sC, rh, pdh)

/-- The `jstart == -2` preliminaries of `stoda`: rescale `yh_` if `h_`
changed. -/
def stodaJm2 (s : LState) (rh pdh : ℚ) : LState × ℚ × ℚ :=
  if s.h_ ≠ s.hold then scaleh { s with h_ := s.hold } (s.h_ / s.hold) pdh
  else (s, rh, pdh)

/-- Data available when the corrector loop of `stoda` has converged
(`corflag == 0`): the state, `y`, and the locals `m`, `del`, `pnorm`,
`delp`, `ncf`, `rh`, `pdh` at the `break`. -/
structure StodaConv where
  s : LState
  y : ℕ → ℚ
  m : ℕ
  del : ℚ
  pnorm : ℚ
  delp : ℚ
  ncf : ℕ
  rh : ℚ
  pdh : ℚ

/-- The inner `while(1)` loop of `stoda` (prediction plus corrector):
forces `ipup = miter` when `rc` drifted or `msbp` steps have passed,
predicts, runs `correction`, and dispatches on `corflag` (0 `break` with
the converged data, 1 rescale and loop, 2 return with `kflag = -2`).
`none` means the fuel ran out. -/
def stodaInner (ctx : Ctx) : ℕ → LState → (ℕ → ℚ) → ℚ → ℕ → ℚ → ℚ → ℚ →
    Option (Sum (LState × (ℕ → ℚ)) StodaConv)
  | 0, _, _, _, _, _, _, _ => none
  | fuel + 1, s, y, told, ncf, delp, rh, pdh =>
    let ip1 := if |s.rc - 1| > s.ccmax then s.miter else s.ipup
    let ip2 := if s.nst ≥ s.nslp + s.msbp then s.miter else ip1
    let sC := predictStep { s with ipup := ip2 }
    let pnorm := vmnorm sC.n (sC.yh_ 1) sC.ewt
    match correction ctx sC y pnorm delp told ncf rh (fuel + 1) with
    | none => none
    | some out =>
      if out.corflag = 0 then
        some (.inr ⟨out.c.s, out.c.y, out.c.m, out.c.del, pnorm, out.c.delp,
          out.c.ncf, out.c.rh, pdh⟩)
      else if out.corflag = 1 then
        let sc := scaleh out.c.s (max out.c.rh (out.c.s.hmin / |out.c.s.h_|)) pdh
        stodaInner ctx fuel sc.1 out.c.y told out.c.ncf out.c.delp sc.2.1 sc.2.2
      else
        some (.inl ({ out.c.s with kflag := -2, hold := out.c.s.h_, jstart := 1 }, out.c.y))

/-- Last part of the successful-step block of `stoda`: the
`ialth > 1 || l == lmax` early epilogue, otherwise `yh_[lmax] = acor`
before the epilogue. -/
def stodaSuccTail (s : LState) (y : ℕ → ℚ) : LState × (ℕ → ℚ) :=
  if s.ialth > 1 ∨ s.l = s.lmax then (endstoda s, y)
  else
    (endstoda { s with
      yh_ := fun a b => if a = s.lmax ∧ 1 ≤ b ∧ b ≤ s.n then s.acor b else s.yh_ a b }, y)

/-- The `orderswitch` call of the successful-step block and its
`orderflag` dispatch: 0 ends the step, 1 rescales `h_` and ends, 2
additionally reloads the coefficients (the fall-through for other values
is dead, as `orderflag` is always 0, 1 or 2). -/
def stodaOrderSel (ctx : Ctx) (sB : LState) (y : ℕ → ℚ) (rhup dsm pdh rh : ℚ) :
    LState × (ℕ → ℚ) :=
  let os := orderswitch ctx sB rhup dsm pdh rh
  if os.2.2.2.2 = 0 then (endstoda os.1, y)
  else if os.2.2.2.2 = 1 then
    let sc := scaleh os.1 (max os.2.2.2.1 (os.1.hmin / |os.1.h_|)) os.2.2.1
    (endstoda { sc.1 with rmax := 10 }, y)
  else if os.2.2.2.2 = 2 then
    let so2 := resetcoeff os.1
    let sc := scaleh so2 (max os.2.2.2.1 (so2.hmin / |so2.h_|)) os.2.2.1
    (endstoda { sc.1 with rmax := 10 }, y)
  else stodaSuccTail os.1 y

/-- Step/order-selection part of the successful-step block of `stoda`:
`ialth--` (a `size_t` decrement, wrapping at 0), and when it reaches 0
the `rhup` computation (saving `acor - yh_[lmax]` into `savf` when
`l != lmax`) followed by `stodaOrderSel`. -/
def stodaSucc2 (ctx : Ctx) (s : LState) (y : ℕ → ℚ) (dsm rh pdh : ℚ) :
    LState × (ℕ → ℚ) :=
  let ia : ℕ := if s.ialth = 0 then 2 ^ 64 - 1 else s.ialth - 1
  let sA : LState := { s with ialth := ia }
  if ia = 0 then
    if sA.l ≠ sA.lmax then
      let sB : LState :=
        { sA with savf := fun i =>
            if 1 ≤ i ∧ i ≤ sA.n then sA.acor i - sA.yh_ sA.lmax i else sA.savf i }
      let rhup :=
        1 / (1.4 * ctx.powF (vmnorm sB.n sB.savf sB.ewt / sB.tesco sB.nq 3)
          (1 / ((sA.l + 1 : ℕ) : ℚ)) + 0.0000014)
      stodaOrderSel ctx sB y rhup dsm pdh rh
    else stodaOrderSel ctx sA y 0 dsm pdh rh
  else stodaSuccTail sA y

/-- Successful-step block of `stoda` (`dsm <= 1`): bookkeeping
(`kflag = 0`, `nst++`, `hu`, `nqu`, `mused`), the `yh_ += el[j] * acor`
update, `icount--` with the possible `methodswitch` (exiting the step when
the method changed), then `stodaSucc2`. -/
def stodaSucc (ctx : Ctx) (s2 : LState) (y : ℕ → ℚ) (dsm pnorm rh pdh : ℚ) :
    LState × (ℕ → ℚ) :=
  let sA : LState := { s2 with
    kflag := 0
    nst := s2.nst + 1
    hu := s2.h_
    nqu := s2.nq
    mused := s2.meth_ }
  let sB : LState := { sA with
    yh_ := fun a b =>
      if 1 ≤ a ∧ a ≤ sA.l ∧ 1 ≤ b ∧ b ≤ sA.n then sA.yh_ a b + sA.el a * sA.acor b
      else sA.yh_ a b
    icount := sA.icount - 1 }
  if sB.icount < 0 then
    let ms := methodswitch ctx sB dsm pnorm pdh rh
    if ms.1.meth_ ≠ ms.1.mused then
      let sc := scaleh ms.1 (max ms.2.2 (ms.1.hmin / |ms.1.h_|)) ms.2.1
      (endstoda { sc.1 with rmax := 10 }, y)
    else stodaSucc2 ctx ms.1 y dsm ms.2.2 ms.2.1
  else stodaSucc2 ctx sB y dsm rh pdh

/-- Failed-error-test block of `stoda` (`dsm > 1`): `kflag--`, restore
`tn_` and `yh_`, `rmax = 2`; then either give up at the minimum step
(`kflag = -1`), retry via `orderswitch` (`kflag > -3`), give up after 10
failures, or restart at order 1 with `h_` reduced by 10 and the first
derivative recomputed.  `.inl` ends the step; `.inr` carries
`(state, y, rh, pdh)` into the next outer iteration. -/
def stodaFail (ctx : Ctx) (s2 : LState) (y : ℕ → ℚ) (told dsm rh pdh : ℚ) :
    Sum (LState × (ℕ → ℚ)) (LState × (ℕ → ℚ) × ℚ × ℚ) :=
  let sA : LState := { retractStep s2 told with kflag := s2.kflag - 1, rmax := 2 }
  if |sA.h_| ≤ sA.hmin * 1.00001 then
    .inl ({ sA with kflag := -1, hold := sA.h_, jstart := 1 }, y)
  else if sA.kflag > -3 then
    let os := orderswitch ctx sA 0 dsm pdh rh
    if os.2.2.2.2 = 1 ∨ os.2.2.2.2 = 0 then
      let rh2 := if os.2.2.2.2 = 0 then min os.2.2.2.1 0.2 else os.2.2.2.1
      let sc := scaleh os.1 (max rh2 (os.1.hmin / |os.1.h_|)) os.2.2.1
      .inr (sc.1, y, sc.2.1, sc.2.2)
    else if os.2.2.2.2 = 2 then
      let so2 := resetcoeff os.1
      let sc := scaleh so2 (max os.2.2.2.1 (so2.hmin / |so2.h_|)) os.2.2.1
      .inr (sc.1, y, sc.2.1, sc.2.2)
    else .inr (os.1, y, os.2.2.2.1, os.2.2.1)
  else if sA.kflag = -10 then
    .inl ({ sA with kflag := -1, hold := sA.h_, jstart := 1 }, y)
  else
    let rh1 := max (sA.hmin / |sA.h_|) 0.1
    let sB : LState := { sA with h_ := sA.h_ * rh1 }
    let y1 := fun i => if 1 ≤ i ∧ i ≤ sB.n then sB.yh_ 1 i else y i
    let savf1 := callF ctx sB.tn_ y1 sB.savf sB.n
    let sC : LState := { sB with
      savf := savf1
      nfe := sB.nfe + 1
      yh_ := fun a b =>
        if a = 2 ∧ 1 ≤ b ∧ b ≤ sB.n then sB.h_ * savf1 b else sB.yh_ a b
      ipup := sB.miter
      ialth := 5 }
    if sC.nq = 1 then .inr (sC, y1, rh1, pdh)
    else .inr (resetcoeff { sC with nq := 1, l := 2 }, y1, rh1, pdh)

/-- The outer `while(1)` loop of `stoda`: runs the inner loop, computes
the error estimate `dsm`, and dispatches to the success or failure block;
a failure may `continue` the outer loop.  `none` means the fuel ran
out. -/
def stodaOuter (ctx : Ctx) : ℕ → LState → (ℕ → ℚ) → ℚ → ℕ → ℚ → ℚ → ℚ →
    Option (LState × (ℕ → ℚ))
  | 0, _, _, _, _, _, _, _ => none
  | fuel + 1, s, y, told, ncf, delp, rh, pdh =>
    match stodaInner ctx (fuel + 1) s y told ncf delp rh pdh with
    | none => none
    | some (.inl done) => some done
    | some (.inr cv) =>
      let s2 : LState := { cv.s with jcur := 0 }
      let dsm :=
        if cv.m = 0 then cv.del / s2.tesco s2.nq 2
        else vmnorm s2.n s2.acor s2.ewt / s2.tesco s2.nq 2
      if dsm ≤ 1 then some (stodaSucc ctx s2 cv.y dsm cv.pnorm cv.rh cv.pdh)
      else
        match stodaFail ctx s2 cv.y told dsm cv.rh cv.pdh with
        | .inl done => some done
        | .inr k => stodaOuter ctx fuel k.1 k.2.1 told cv.ncf cv.delp k.2.2.1 k.2.2.2

/-- `stoda(neq, y, f, _data)`: prologue (`kflag = 0`, `told = tn_`,
`ncf = delp = 0`, `ierpj = iersl = jcur = 0`), the `jstart` preliminaries
(0, -1, -2), then the outer loop.  The locals `rh` and `pdh` start at 0.
None of the preliminary blocks writes `jstart`, so the three tests read
the caller's value.  The source's `neq + 1 == y.size()` assertion holds
trivially in the model (vectors are total functions). -/
def stoda (ctx : Ctx) (fuel : ℕ) (s : LState) (y : ℕ → ℚ) :
    Option (LState × (ℕ → ℚ)) :=
  let s0 : LState := { s with kflag := 0, ierpj := 0, iersl := 0, jcur := 0 }
  let told := s0.tn_
  let s1 := if s.jstart = 0 then stodaInit s0 else s0
  let r2 := if s.jstart = -1 then stodaJm1 s1 0 0 else (s1, (0 : ℚ), (0 : ℚ))
  let r3 := if s.jstart = -2 then stodaJm2 r2.1 r2.2.1 r2.2.2 else r2
  stodaOuter ctx fuel r3.1 y told 0 0 r3.2.1 r3.2.2

/-! ## Specification predicates for the order invariant -/

/-- The order bound of the active method family: `mxordn` for Adams
(`meth_ == 1`), `mxords` for bdf. -/
def bnd (s : LState) : ℕ := if s.meth_ = 1 then s.mxordn else s.mxords

/-- Fields of the state that `correction`, `scaleh`, `cfode`,
`resetcoeff`, `endstoda`, prediction and retraction never modify. -/
def ordFrame (a b : LState) : Prop :=
  b.meth_ = a.meth_ ∧ b.mused = a.mused ∧ b.mxordn = a.mxordn ∧
  b.mxords = a.mxords ∧ b.maxord = a.maxord ∧ b.lmax = a.lmax ∧
  b.nq = a.nq ∧ b.l = a.l

/-- Mid-step order invariant without the `lmax` clause. -/
def stodaMid0 (s : LState) : Prop :=
  (s.meth_ = 1 ∨ s.meth_ = 2) ∧ 1 ≤ s.mxordn ∧ s.mxordn ≤ 12 ∧
  1 ≤ s.mxords ∧ s.mxords ≤ 12 ∧ s.maxord = bnd s ∧
  1 ≤ s.nq ∧ s.nq ≤ s.maxord ∧ s.l = s.nq + 1

/-- Mid-step order invariant, maintained across the `stoda` loops. -/
def stodaMid (s : LState) : Prop := stodaMid0 s ∧ s.lmax = s.maxord + 1

/-- The order invariant claimed for every completed `stoda` call:
`1 <= nq <= maxord` with `maxord` read as the active family's bound
(`mxordn`/`mxords`), and `l = nq + 1`. -/
def stodaPost (s : LState) : Prop := 1 ≤ s.nq ∧ s.nq ≤ bnd s ∧ s.l = s.nq + 1

/-- `stodaPost` of the state component of a completed `stoda` result. -/
def stodaPostOpt (r : Option (LState × (ℕ → ℚ))) : Prop :=
  ∀ p, r = some p → stodaPost p.1

/-- Entry conditions of a `stoda` call, as established by `lsoda`: a
valid method flag and order bounds, `maxord` equal to the active bound,
and (except on the initializing calls `jstart == 0`, which set them, and
`jstart == -1`, which refreshes `lmax` after `lsoda` changed `maxord` on
a method switch) the order fields of the previous completed call. -/
def stodaEntryInv (s : LState) : Prop :=
  (s.meth_ = 1 ∨ s.meth_ = 2) ∧ 1 ≤ s.mxordn ∧ s.mxordn ≤ 12 ∧
  1 ≤ s.mxords ∧ s.mxords ≤ 12 ∧ s.maxord = bnd s ∧
  (s.jstart ≠ 0 →
    (1 ≤ s.nq ∧ s.nq ≤ s.maxord ∧ s.l = s.nq + 1 ∧
      (s.jstart ≠ -1 → s.lmax = s.maxord + 1)))

/-- The loop data carried by any `CorrStepRes` constructor. -/
def resCS : CorrStepRes → CorrS
  | .conv c => c
  | .fail c _ => c
  | .next c => c

/-! ## Concrete inputs used by witnesses and counterexamples -/

/-- Concrete vector with entries `dx[1] = 0.5`, `dx[2] = 0.9` (index 0 is
the dead 1-based-indexing slot). -/
def dxC1 : ℕ → ℚ := fun i => if i = 1 then 1 / 2 else if i = 2 then 9 / 10 else 0

/-- Freshly constructed state with a one-dimensional problem loaded. -/
def stateW : LState := { ctorState with n := 1 }

/-- Trivial context used by witnesses: zero right-hand side and zero
library functions. -/
def ctxW : Ctx where
  f := fun _ _ _ => 0
  powF := fun _ _ => 0
  sqrtF := fun _ => 0

/-- Concrete corrector-loop data used by witnesses (`maxcor = 3` as set
by the `lsoda` initialization). -/
def cW : CorrS where
  s := { ctorState with n := 1, maxcor := 3 }
  y := fun _ => 0
  m := 0
  del := 0
  delp := 0
  ncf := 0
  rh := 0
  rate := 0
  rcount := 0

/-- Concrete entry state for a first `stoda` call (`jstart = 0` from the
constructor): Adams family active with both order bounds set to 1. -/
def sW8 : LState := { ctorState with
  meth_ := 1
  mxordn := 1
  mxords := 1
  maxord := 1
  maxcor := 3 }

/-- The zero vector (1-based contents all 0). -/
def yW8 : ℕ → ℚ := fun _ => 0

/-! ## The driver `lsoda` (source lines 297-918) and `lsoda_function` -/

/-- Identifies the `return` statement (or `continue` site) of `lsoda` that
produced a result.  Prefixes: `a`/`b` the validation blocks, `c` the
initial-call block, `d` the continuation-call stop-condition block, `e` the
step-loop preamble and error exits, `f` the successful-step dispatch. -/
inductive LTag where
  | aIstate
  | aItask
  | aInit
  | bNeq
  | bNeqUp
  | bItol
  | bIopt
  | bJt
  | bMl
  | bMu
  | bIxpr
  | bDir
  | bHmax
  | bHmin
  | bRtol
  | bAtol
  | cTcrit
  | cEwt
  | cClose
  | dIntdy1
  | dOut1
  | dTp3
  | dOut3
  | dTcrit4a
  | dTcrit4b
  | dIntdy4
  | dOut4
  | dTcrit5
  | dHit5
  | eMaxStep
  | eEwt
  | eAcc0
  | eAcc
  | eKflag
  | fOut1
  | fOut2
  | fOut3
  | fOut4
  | fHit4
  | fOut5
  deriving DecidableEq

/-- Result of a `lsoda` call: `abort` models `Rcpp::stop` (a hard abort of
the run), `ret` a normal return carrying the return site, the final
integrator state, the caller's `y` vector, `*t` and `*istate`, and
`fuelOut` exhaustion of the step-loop fuel. -/
inductive LRes where
  | abort : LRes
  | ret (tag : LTag) (s : LState) (y : ℕ → ℚ) (t : ℚ) (istate : ℤ) : LRes
  | fuelOut : LRes

/-- Return site of a normal return. -/
def LRes.tagOf : LRes → Option LTag
  | .ret tag _ _ _ _ => some tag
  | _ => none

/-- Returned `*istate` of a normal return. -/
def LRes.istateOf : LRes → Option ℤ
  | .ret _ _ _ _ istate => some istate
  | _ => none

/-- Final integrator state of a normal return. -/
def LRes.stateOf : LRes → Option LState
  | .ret _ s _ _ _ => some s
  | _ => none

/-- A `terminate(istate); return;` site: `y` and `*t` are untouched;
`terminate` either increments `illin` and sets `*istate = -3`, or (at
`illin == 5`) only prints and leaves both alone. -/
def lsodaTerm (tag : LTag) (s : LState) (y : ℕ → ℚ) (t : ℚ) (istate : ℤ) : LRes :=
  let r := terminate s istate
  .ret tag r.1 y t r.2

/-- Error-weight inversion loop (`for i = 1..n: if ewt[i] <= 0 return;
ewt[i] = 1/ewt[i]`), used after both `ewset` calls.  On failure returns
the failing index and the state with the entries before it already
inverted; `c` counts the remaining indices. -/
def lsodaEwtInvGo : LState → ℕ → ℕ → Sum (ℕ × LState) LState
  | s, _, 0 => .inr s
  | s, i, c + 1 =>
    if s.ewt i ≤ 0 then .inl (i, s)
    else lsodaEwtInvGo { s with ewt := upd1 s.ewt i (1 / s.ewt i) } (i + 1) c

/-- Tolerance legality loop (`for i = 1..n` over `rtoli`/`atoli` threaded
per `itol_`); `some tag` reports the first negative tolerance. -/
def lsodaTolGo (s : LState) : ℚ → ℚ → ℕ → ℕ → Option LTag
  | _, _, _, 0 => none
  | rtoli, atoli, i, c + 1 =>
    let rtoli1 := if s.itol_ ≥ 3 then s.rtol_ i else rtoli
    let atoli1 := if s.itol_ = 2 ∨ s.itol_ = 4 then s.atol_ i else atoli
    if rtoli1 < 0 then some .bRtol
    else if atoli1 < 0 then some .bAtol
    else lsodaTolGo s rtoli1 atoli1 (i + 1) c

/-- Loop `for i = 2..n: tol = max(tol, rtol_[i])` of the initial
step-size computation (`itol_ > 2` case). -/
def lsodaMaxRtolGo (s : LState) : ℚ → ℕ → ℕ → ℚ
  | tol, _, 0 => tol
  | tol, i, c + 1 => lsodaMaxRtolGo s (max tol (s.rtol_ i)) (i + 1) c

/-- Loop `for i = 1..n` raising `tol` to `max(tol, atoli / |y[i]|)` over
nonzero `y[i]`, with `atoli` threaded per `itol_`. -/
def lsodaTolAtolGo (s : LState) (y : ℕ → ℚ) : ℚ → ℚ → ℕ → ℕ → ℚ
  | _, tol, _, 0 => tol
  | atoli, tol, i, c + 1 =>
    let atoli1 := if s.itol_ = 2 ∨ s.itol_ = 4 then s.atol_ i else atoli
    let tol1 := if |y i| ≠ 0 then max tol (atoli1 / |y i|) else tol
    lsodaTolAtolGo s y atoli1 tol1 (i + 1) c

/-- Loop locating the index of maximal `|acor[i]| * ewt[i]` (the `big` /
`imxer` loop of the `kflag` error exit); threads `(big, imxer)`. -/
def lsodaImxerGo (s : LState) : ℚ → ℕ → ℕ → ℕ → ℕ
  | _, imxer, _, 0 => imxer
  | big, imxer, i, c + 1 =>
    let sz := |s.acor i| * s.ewt i
    if big < sz then lsodaImxerGo s sz i (i + 1) c
    else lsodaImxerGo s big imxer (i + 1) c

/-- The `imxer` computed on the `kflag = -1 / -2` exit (`big = 0`,
`imxer = 1`, then the maximising loop over `i = 1..n`). -/
def lsodaImxer (s : LState) : ℕ := lsodaImxerGo s 0 1 1 s.n

/-- Tail of the optional-input processing shared by both `istate` cases:
`hmax` check, `hmxi`, `hmin` assignment and check.  `hmin` is stored
before its sign test, as in the source. -/
def lsodaOpts2 (s : LState) (h0 : ℚ) (rworks : ℕ → ℚ) :
    Sum (LTag × LState) (LState × ℚ) :=
  let hmax := rworks 2
  if hmax < 0 then .inl (.bHmax, s)
  else
    let s1 : LState := { s with hmxi := if hmax > 0 then 1 / hmax else 0 }
    let s2 : LState := { s1 with hmin := rworks 3 }
    if s2.hmin < 0 then .inl (.bHmin, s2)
    else .inr (s2, h0)

/-- Optional-input processing (`iopt == 0` defaults / `iopt == 1` inputs).
`int` inputs drawn from `iworks` land in `size_t`-typed members via
`Int.toNat` (the inputs are nonnegative in every defined use).  Returns
the state and the local `h0`. -/
def lsodaOpts (s : LState) (t tout : ℚ) (istate iopt : ℤ)
    (iworks : ℕ → ℤ) (rworks : ℕ → ℚ) : Sum (LTag × LState) (LState × ℚ) :=
  if iopt = 0 then
    let s1 : LState := { s with
      ixpr := 0
      mxstep := 5000
      mxhnil := 10
      hmxi := 0
      hmin := 0 }
    if istate = 1 then .inr ({ s1 with mxordn := mord 0, mxords := mord 1 }, 0)
    else .inr (s1, 0)
  else
    let s1 : LState := { s with ixpr := (iworks 2).toNat }
    if s1.ixpr > 1 then .inl (.bIxpr, s1)
    else
      let s2 : LState := { s1 with
        mxstep := if (iworks 3).toNat = 0 then 5000 else (iworks 3).toNat
        mxhnil := (iworks 4).toNat }
      if istate = 1 then
        let h0 := rworks 1
        let mxordn1 := (iworks 5).toNat
        let mxords1 := (iworks 6).toNat
        let s3 : LState := { s2 with
          mxordn := min (if mxordn1 = 0 then 100 else mxordn1) (mord 0)
          mxords := min (if mxords1 = 0 then 100 else mxords1) (mord 1) }
        if (tout - t) * h0 < 0 then .inl (.bDir, s3)
        else lsodaOpts2 s3 h0 rworks
      else lsodaOpts2 s2 0 rworks

/-- Block b of `lsoda` (run for `istate = 1` or `3`): zeroes `ntrep`,
checks `neq`, loads `n = neq`, checks `itol_`, `iopt`, `jt`, loads `jtyp`
and (for `jt > 2`) `ml`/`mu` with their checks, then processes the
optional inputs.  `.inl` carries the rejection site and the state at the
failing check (note `ntrep` and `n` are already overwritten by then). -/
def lsodaBlockB (s : LState) (neq : ℕ) (t tout : ℚ) (istate iopt jt : ℤ)
    (iworks : ℕ → ℤ) (rworks : ℕ → ℚ) : Sum (LTag × LState) (LState × ℚ) :=
  let s0 : LState := { s with ntrep := 0 }
  if neq = 0 then .inl (.bNeq, s0)
  else if istate = 3 ∧ neq > s0.n then .inl (.bNeqUp, s0)
  else
    let s1 : LState := { s0 with n := neq }
    if s1.itol_ < 1 ∨ s1.itol_ > 4 then .inl (.bItol, s1)
    else if iopt < 0 ∨ iopt > 1 then .inl (.bIopt, s1)
    else if jt = 3 ∨ jt < 1 ∨ jt > 5 then .inl (.bJt, s1)
    else
      let s2 : LState := { s1 with jtyp := jt.toNat }
      if jt > 2 then
        let s3 : LState := { s2 with
          ml := (iworks 0).toNat
          mu := (iworks 1).toNat }
        if s3.ml ≥ s3.n then .inl (.bMl, s3)
        else if s3.mu ≥ s3.n then .inl (.bMu, s3)
        else lsodaOpts s3 t tout istate iopt iworks rworks
      else lsodaOpts s2 t tout istate iopt iworks rworks

/-- Final `h0` loading of block c: the `hmax` clamp
(`rh = |h0| * hmxi; if rh > 1 then h0 /= rh`), `h_ = h0`, and the scaling
of `yh_[2]` by `h0`. -/
def lsodaH0Load (s : LState) (h0 : ℚ) : LState :=
  let rh := |h0| * s.hmxi
  let h0f := if rh > 1 then h0 / rh else h0
  { s with
    h_ := h0f
    yh_ := fun a b => if a = 2 ∧ 1 ≤ b ∧ b ≤ s.n then s.yh_ a b * h0f else s.yh_ a b }

/-- Block c of `lsoda` (initial call, `istate = 1`): remaining
initializations, the `tcrit` check for `itask` 4/5, the initial `f` call
into `yh_[2]`, loading `yh_[1]` from `y`, `ewset` and weight inversion
(the failing-weight return goes through `terminate2` and leaves `*istate`
at the caller's value), and the initial step-size computation.  The size
assertion on `yh_.size()` is modelled through `yhLen`; the inner-vector
size assertion holds by construction (rows are total functions).  `sqrt`
is `ctx.sqrtF`.  Returns the state and the local `tcrit`. -/
def lsodaBlockC (ctx : Ctx) (s : LState) (y : ℕ → ℚ) (t tout : ℚ)
    (itask istate : ℤ) (h0in : ℚ) (lenyh : ℕ) (rworks : ℕ → ℚ) :
    Sum LRes (LState × ℚ) :=
  let sA : LState := { s with
    tn_ := t
    tsw := t
    maxord := s.mxordn }
  let tcrit : ℚ := if itask = 4 ∨ itask = 5 then rworks 0 else 0
  if (itask = 4 ∨ itask = 5) ∧ (tcrit - tout) * (tout - t) < 0 then
    .inl (lsodaTerm .cTcrit sA y t istate)
  else
    let h0a : ℚ :=
      if (itask = 4 ∨ itask = 5) ∧ h0in ≠ 0 ∧ (t + h0in - tcrit) * h0in > 0 then
        tcrit - t
      else h0in
    let sB : LState := { sA with
      jstart := 0
      nhnil := 0
      nst := 0
      nje := 0
      nslast := 0
      hu := 0
      nqu := 0
      mused := 0
      miter := 0
      ccmax := 3 / 10
      maxcor := 3
      msbp := 20
      mxncf := 10 }
    if sB.yhLen ≠ lenyh + 1 then .inl .abort
    else
      let yhF := fun a b =>
        if a = 2 ∧ 1 ≤ b ∧ b ≤ sB.n then ctx.f t y b
        else if a = 1 ∧ 1 ≤ b ∧ b ≤ sB.n then y b
        else sB.yh_ a b
      let sC : LState := { sB with
        yh_ := yhF
        nfe := 1
        nq := 1
        h_ := 1 }
      let sD := ewset sC y
      match lsodaEwtInvGo sD 1 sD.n with
      | .inl p =>
        let r := terminate2 p.2 y
        .inl (.ret .cEwt r.1 r.2.1 r.2.2 istate)
      | .inr sE =>
        if h0a = 0 then
          let tdist := |tout - t|
          let w0 := max |t| |tout|
          if tdist < 2 * eta * w0 then .inl (lsodaTerm .cClose sE y t istate)
          else
            let tol0 := sE.rtol_ 1
            let tol1 := if sE.itol_ > 2 then lsodaMaxRtolGo sE tol0 2 (sE.n - 1) else tol0
            let tol2 := if tol1 ≤ 0 then lsodaTolAtolGo sE y (sE.atol_ 1) tol1 1 sE.n else tol1
            let tol3 := min (max tol2 (100 * eta)) (1 / 1000)
            let sum0 := vmnorm sE.n (sE.yh_ 2) sE.ewt
            let sum1 := 1 / (tol3 * w0 * w0) + tol3 * sum0 * sum0
            let h00 := sign (min (1 / ctx.sqrtF sum1) tdist) (tout - t)
            .inr (lsodaH0Load sE h00, tcrit)
        else .inr (lsodaH0Load sE h0a, tcrit)

/-- Block d of `lsoda` (continuation calls, `istate = 2` or `3`): records
`nslast = nst` and checks the stop conditions of the given `itask` before
taking a step.  `.inr` continues into the step loop with the (possibly
updated) state, `tcrit` and `ihit`. -/
def lsodaBlockD (s : LState) (y : ℕ → ℚ) (t tout : ℚ) (itask istate : ℤ)
    (tcrit : ℚ) (ihit : ℤ) (rworks : ℕ → ℚ) :
    Sum LRes (LState × ℚ × ℤ) :=
  let s0 : LState := { s with nslast := s.nst }
  if itask = 1 then
    if (s0.tn_ - tout) * s0.h_ ≥ 0 then
      let r := intdy s0 tout 0 y
      if r.2 ≠ 0 then .inl (lsodaTerm .dIntdy1 s0 r.1 t istate)
      else .inl (.ret .dOut1 { s0 with illin := 0 } r.1 tout 2)
    else .inr (s0, tcrit, ihit)
  else if itask = 2 then .inr (s0, tcrit, ihit)
  else if itask = 3 then
    let tp := s0.tn_ - s0.hu * (1 + 100 * eta)
    if (tp - tout) * s0.h_ > 0 then .inl (lsodaTerm .dTp3 s0 y t istate)
    else if (s0.tn_ - tout) * s0.h_ < 0 then .inr (s0, tcrit, ihit)
    else
      let r := successreturn s0 y itask ihit tcrit
      .inl (.ret .dOut3 r.2.2.2 r.1 r.2.1 2)
  else if itask = 4 then
    let tc := rworks 0
    if (s0.tn_ - tc) * s0.h_ > 0 then .inl (lsodaTerm .dTcrit4a s0 y t istate)
    else if (tc - tout) * s0.h_ < 0 then .inl (lsodaTerm .dTcrit4b s0 y t istate)
    else if (s0.tn_ - tout) * s0.h_ ≥ 0 then
      let r := intdy s0 tout 0 y
      if r.2 ≠ 0 then .inl (lsodaTerm .dIntdy4 s0 r.1 t istate)
      else .inl (.ret .dOut4 { s0 with illin := 0 } r.1 tout 2)
    else .inr (s0, tc, ihit)
  else if itask = 5 then
    let tc := rworks 0
    if (s0.tn_ - tc) * s0.h_ > 0 then .inl (lsodaTerm .dTcrit5 s0 y t istate)
    else
      let hmx := |s0.tn_| + |s0.h_|
      let ihit1 : ℤ := if |s0.tn_ - tc| ≤ 100 * eta * hmx then 1 else 0
      if ihit1 ≠ 0 then
        let r := successreturn s0 y itask ihit1 tc
        .inl (.ret .dHit5 r.2.2.2 r.1 r.2.1 2)
      else
        let tnext := s0.tn_ + s0.h_ * (1 + 4 * eta)
        if (tnext - tc) * s0.h_ ≤ 0 then .inr (s0, tc, ihit1)
        else
          let s1 : LState := { s0 with h_ := (tc - s0.tn_) * (1 - 4 * eta) }
          let s2 : LState := if istate = 2 then { s1 with jstart := -2 } else s1
          .inr (s2, tc, ihit1)
  else .inr (s0, tcrit, ihit)

/-- Step-loop preamble (the `if (*istate != 1 || nst != 0)` block):
too-many-steps check (`*istate = -1` then `terminate2`), `ewset` on
`yh_[1]`, and weight inversion (a failing weight sets `*istate = -6`
before `terminate2`). -/
def lsodaPreCheck (s : LState) (y : ℕ → ℚ) (istate : ℤ) : Sum LRes LState :=
  if istate ≠ 1 ∨ s.nst ≠ 0 then
    if s.nst - s.nslast ≥ s.mxstep then
      let r := terminate2 s y
      .inl (.ret .eMaxStep r.1 r.2.1 r.2.2 (-1))
    else
      let s1 := ewset s (s.yh_ 1)
      match lsodaEwtInvGo s1 1 s1.n with
      | .inl p =>
        let r := terminate2 p.2 y
        .inl (.ret .eEwt r.1 r.2.1 r.2.2 (-6))
      | .inr s2 => .inr s2
  else .inr s

/-- Block f of `lsoda` (successful `stoda` return, `kflag == 0`): sets
`init = 1`, completes a method switch (`tsw`, `maxord` from the new
family's bound, `jstart = -1`), then dispatches on `itask`.  `.inr`
continues the step loop with the state and the (possibly updated)
`ihit`; on the `itask = 1` and `4` interpolating returns the source
ignores `intdy`'s `iflag`. -/
def lsodaBlockF (s : LState) (y : ℕ → ℚ) (tout : ℚ) (itask : ℤ)
    (tcrit : ℚ) (ihit : ℤ) : Sum LRes (LState × ℤ) :=
  let sA : LState := { s with init := 1 }
  let sB : LState :=
    if sA.meth_ ≠ sA.mused then
      { sA with
        tsw := sA.tn_
        maxord := if sA.meth_ = 2 then sA.mxords else sA.mxordn
        jstart := -1 }
    else sA
  if itask = 1 then
    if (sB.tn_ - tout) * sB.h_ < 0 then .inr (sB, ihit)
    else
      let r := intdy sB tout 0 y
      .inl (.ret .fOut1 { sB with illin := 0 } r.1 tout 2)
  else if itask = 2 then
    let r := successreturn sB y itask ihit tcrit
    .inl (.ret .fOut2 r.2.2.2 r.1 r.2.1 2)
  else if itask = 3 then
    if (sB.tn_ - tout) * sB.h_ ≥ 0 then
      let r := successreturn sB y itask ihit tcrit
      .inl (.ret .fOut3 r.2.2.2 r.1 r.2.1 2)
    else .inr (sB, ihit)
  else if itask = 4 then
    if (sB.tn_ - tout) * sB.h_ ≥ 0 then
      let r := intdy sB tout 0 y
      .inl (.ret .fOut4 { sB with illin := 0 } r.1 tout 2)
    else
      let hmx := |sB.tn_| + |sB.h_|
      let ihit1 : ℤ := if |sB.tn_ - tcrit| ≤ 100 * eta * hmx then 1 else 0
      if ihit1 ≠ 0 then
        let r := successreturn sB y itask ihit1 tcrit
        .inl (.ret .fHit4 r.2.2.2 r.1 r.2.1 2)
      else
        let tnext := sB.tn_ + sB.h_ * (1 + 4 * eta)
        if (tnext - tcrit) * sB.h_ ≤ 0 then .inr (sB, ihit1)
        else .inr ({ sB with
          h_ := (tcrit - sB.tn_) * (1 - 4 * eta)
          jstart := -2 }, ihit1)
  else
    let hmx := |sB.tn_| + |sB.h_|
    let ihit1 : ℤ := if |sB.tn_ - tcrit| ≤ 100 * eta * hmx then 1 else 0
    let r := successreturn sB y itask ihit1 tcrit
    .inl (.ret .fOut5 r.2.2.2 r.1 r.2.1 2)

/-- The `while(1)` step loop (block e): preamble checks, the
too-much-accuracy exit (`tolsf = ETA * vmnorm(n, yh_[1], ewt)`; at
`nst == 0` it goes through `terminate`, later through `*istate = -2` and
`terminate2`), the `tn_ + h_ == tn_` warning counter, the `stoda` call,
the successful-step dispatch of block f, and the `kflag = -1 / -2` error
exit (`*istate = -4 / -5`, the `imxer` loop, `terminate2`).  `fuel`
bounds the number of iterations. -/
def lsodaLoop (ctx : Ctx) : ℕ → LState → (ℕ → ℚ) → ℚ → ℚ → ℤ → ℤ → ℚ → ℤ → LRes
  | 0, _, _, _, _, _, _, _, _ => .fuelOut
  | fuel + 1, s, y, t, tout, itask, istate, tcrit, ihit =>
    match lsodaPreCheck s y istate with
    | .inl r => r
    | .inr s1 =>
      let tolsf := eta * vmnorm s1.n (s1.yh_ 1) s1.ewt
      if tolsf > 1 then
        if s1.nst = 0 then lsodaTerm .eAcc0 s1 y t istate
        else
          let r := terminate2 s1 y
          .ret .eAcc r.1 r.2.1 r.2.2 (-2)
      else
        let s2 : LState :=
          if s1.tn_ + s1.h_ = s1.tn_ then { s1 with nhnil := s1.nhnil + 1 } else s1
        match stoda ctx (fuel + 1) s2 y with
        | none => .fuelOut
        | some sy =>
          if sy.1.kflag = 0 then
            match lsodaBlockF sy.1 sy.2 tout itask tcrit ihit with
            | .inl r => r
            | .inr c => lsodaLoop ctx fuel c.1 sy.2 t tout itask istate tcrit c.2
          else if sy.1.kflag = -1 ∨ sy.1.kflag = -2 then
            let ist : ℤ := if sy.1.kflag = -1 then -4 else -5
            let s4 : LState := { sy.1 with imxer := lsodaImxer sy.1 }
            let r := terminate2 s4 sy.2
            .ret .eKflag r.1 r.2.1 r.2.2 ist
          else lsodaLoop ctx fuel sy.1 sy.2 t tout itask istate tcrit ihit

/-- `lsoda(f, neq, y, t, tout, itask, istate, iopt, jt, iworks, rworks)`:
the driver.  Its first statement aborts the run (`Rcpp::stop`) unless
`tout > *t`; then block a validates `istate`, `itask` and initialization,
blocks b and c run per `istate` (the `istate = 1` branch also allocates:
`sqrteta = sqrt(ETA)`, `meth_ = 1`, `nyh = n`, and the history resize
tracked by `yhLen`; the resize fills only newly created entries, which
the algorithm overwrites before reading), the tolerance signs are
checked, `istate = 3` flags `jstart = -1`, block d checks continuation
stop conditions, and the step loop runs. -/
def lsoda (ctx : Ctx) (fuel neq : ℕ) (s : LState) (y : ℕ → ℚ) (t tout : ℚ)
    (itask istate iopt jt : ℤ) (iworks : ℕ → ℤ) (rworks : ℕ → ℚ) : LRes :=
  if ¬ tout > t then .abort
  else if istate < 1 ∨ istate > 3 then lsodaTerm .aIstate s y t istate
  else if itask < 1 ∨ itask > 5 then lsodaTerm .aItask s y t istate
  else if s.init = 0 ∧ (istate = 2 ∨ istate = 3) then lsodaTerm .aInit s y t istate
  else
    match (if istate = 1 ∨ istate = 3 then
             lsodaBlockB s neq t tout istate iopt jt iworks rworks
           else .inr (s, 0)) with
    | .inl ts => lsodaTerm ts.1 ts.2 y t istate
    | .inr sh =>
      let s2 : LState :=
        if istate = 1 then
          { sh.1 with
            sqrteta := ctx.sqrtF eta
            meth_ := 1
            nyh := sh.1.n
            yhLen := (1 + max sh.1.mxordn sh.1.mxords) + 1 }
        else sh.1
      match (if istate = 1 ∨ istate = 3 then
               lsodaTolGo s2 (s2.rtol_ 1) (s2.atol_ 1) 1 s2.n
             else none) with
      | some tg => lsodaTerm tg s2 y t istate
      | none =>
        let s3 : LState := if istate = 3 then { s2 with jstart := -1 } else s2
        match (if istate = 1 then
                 lsodaBlockC ctx s3 y t tout itask istate sh.2
                   (1 + max s3.mxordn s3.mxords) rworks
               else .inr (s3, 0)) with
        | .inl r => r
        | .inr sc =>
          match (if istate = 2 ∨ istate = 3 then
                   lsodaBlockD sc.1 y t tout itask istate sc.2 0 rworks
                 else .inr (sc.1, sc.2, 0)) with
          | .inl r => r
          | .inr sd => lsodaLoop ctx fuel sd.1 y t tout itask istate sd.2.1 sd.2.2

/-- `lsoda_function(f, neq, y, yout, t, tout, istate, _data, rtol, atol)`:
the scalar-tolerance wrapper.  It fixes `itask = 1`, `iopt = 0`,
`jt = 2`, zero work arrays, builds the 1-based `yout` copy of `y`
(`yout[0] = 0`), fills `rtol_`/`atol_` with the scalar tolerances and
zeroes index 0 (`resize` semantics of a first call; entries past `n` are
never read), and calls `lsoda`.  The result carries the final 1-based
vector that the source's trailing `erase` re-indexes. -/
def lsoda_function (ctx : Ctx) (fuel neq : ℕ) (s : LState) (y : ℕ → ℚ)
    (t tout : ℚ) (istate : ℤ) (rtol atol : ℚ) : LRes :=
  let iworks : ℕ → ℤ := fun _ => 0
  let rworks : ℕ → ℚ := fun _ => 0
  let yout : ℕ → ℚ := fun i => if i = 0 then 0 else y (i - 1)
  let s1 : LState := { s with
    rtol_ := fun i => if i = 0 then 0 else rtol
    atol_ := fun i => if i = 0 then 0 else atol }
  lsoda ctx fuel neq s1 yout t tout 1 istate 0 2 iworks rworks

/-- The all-zero `iworks` array. -/
def zworksI : ℕ → ℤ := fun _ => 0

/-- The all-zero `rworks` array. -/
def zworksR : ℕ → ℚ := fun _ => 0

/-- State whose illegal-input counter has reached the threshold 5. -/
def sC3a : LState := { ctorState with illin := 5 }

/-- State carrying recognizable values in the fields the validation
prologue overwrites (`ntrep = 7`, `n = 5`) and an illegal tolerance
switch `itol_ = 7`. -/
def sC3b : LState := { ctorState with
  n := 5
  ntrep := 7
  itol_ := 7 }

/-! # Lemmas and claim theorems -/

/-- Closed form of a single ascending additive pass: entries
`i1 ≤ k < i1 + c` become `g k + g (k + 1)` (the operand `g (k + 1)` is the
pre-pass value, because the pass runs in ascending order). -/
theorem passAdd_eq : ∀ (c : ℕ) (g : ℕ → ℚ) (i1 k : ℕ),
    passAdd g i1 c k = if i1 ≤ k ∧ k < i1 + c then g k + g (k + 1) else g k := by
  intro c
  induction c with
  | zero =>
    intro g i1 k
    simp only [passAdd]
    rw [if_neg (by omega)]
  | succ c ih =>
    intro g i1 k
    simp only [passAdd]
    rw [ih]
    by_cases hk : k = i1
    · subst hk
      rw [if_neg (by omega), if_pos rfl, if_pos (by omega)]
    · by_cases h2 : i1 + 1 ≤ k ∧ k < i1 + 1 + c
      · rw [if_pos h2, if_neg hk, if_neg (by omega : ¬ k + 1 = i1), if_pos (by omega)]
      · rw [if_neg h2, if_neg hk, if_neg (by omega)]

/-- Closed form of a single ascending subtractive pass. -/
theorem passSub_eq : ∀ (c : ℕ) (g : ℕ → ℚ) (i1 k : ℕ),
    passSub g i1 c k = if i1 ≤ k ∧ k < i1 + c then g k - g (k + 1) else g k := by
  intro c
  induction c with
  | zero =>
    intro g i1 k
    simp only [passSub]
    rw [if_neg (by omega)]
  | succ c ih =>
    intro g i1 k
    simp only [passSub]
    rw [ih]
    by_cases hk : k = i1
    · subst hk
      rw [if_neg (by omega), if_pos rfl, if_pos (by omega)]
    · by_cases h2 : i1 + 1 ≤ k ∧ k < i1 + 1 + c
      · rw [if_pos h2, if_neg hk, if_neg (by omega : ¬ k + 1 = i1), if_pos (by omega)]
      · rw [if_neg h2, if_neg hk, if_neg (by omega)]

/-- Closed form of `blocksAdd`: after the additive passes for
`j = q, ..., q + 1 - d`, entry `k` in that range holds the binomial
combination `∑ C(m - (q + 1 - d), k - (q + 1 - d)) * g m`. -/
theorem blocksAdd_eq : ∀ (q d : ℕ), d ≤ q → ∀ (g : ℕ → ℚ) (k : ℕ),
    blocksAdd q d g k =
      if q + 1 - d ≤ k ∧ k ≤ q then
        ∑ m ∈ Finset.Ico k (q + 2),
          (((m - (q + 1 - d)).choose (k - (q + 1 - d)) : ℕ) : ℚ) * g m
      else g k := by
  intro q d
  induction d with
  | zero =>
    intro _ g k
    simp only [blocksAdd]
    rw [if_neg (by omega)]
  | succ d ih =>
    intro hd g k
    have e0 : q + 1 - (d + 1) = q - d := by omega
    have e1 : q + 1 - d = (q - d) + 1 := by omega
    rw [e0]
    simp only [blocksAdd]
    rw [passAdd_eq]
    have hBtop : ∀ m, q - d + 1 ≤ m → m ≤ q + 1 →
        blocksAdd q d g m =
          ∑ p ∈ Finset.Ico m (q + 2),
            (((p - (q - d + 1)).choose (m - (q - d + 1)) : ℕ) : ℚ) * g p := by
      intro m hm1 hm2
      rw [ih (by omega), e1]
      by_cases hm : m ≤ q
      · rw [if_pos ⟨hm1, hm⟩]
      · have hmq : m = q + 1 := by omega
        subst hmq
        rw [if_neg (by omega), Finset.sum_Ico_eq_sum_range]
        simp only [show q + 2 - (q + 1) = 1 from by omega, Finset.sum_range_one,
          Nat.add_zero, Nat.choose_self, Nat.cast_one, one_mul]
    by_cases hcond : q - d ≤ k ∧ k ≤ q
    · rw [if_pos (by omega : q - d ≤ k ∧ k < q - d + (d + 1)), if_pos hcond]
      by_cases hkj : k = q - d
      · subst hkj
        rw [ih (by omega), e1, if_neg (by omega), hBtop (q - d + 1) (le_refl _) (by omega)]
        rw [Finset.sum_eq_sum_Ico_succ_bot (by omega : q - d < q + 2)]
        simp only [Nat.sub_self, Nat.choose_zero_right, Nat.cast_one, one_mul]
      · have hk1 : q - d + 1 ≤ k := by omega
        rw [ih (by omega), e1, if_pos ⟨hk1, hcond.2⟩,
          hBtop (k + 1) (by omega) (by omega)]
        have hext :
            ∑ p ∈ Finset.Ico (k + 1) (q + 2),
              (((p - (q - d + 1)).choose (k + 1 - (q - d + 1)) : ℕ) : ℚ) * g p =
            ∑ p ∈ Finset.Ico k (q + 2),
              (((p - (q - d + 1)).choose (k - (q - d)) : ℕ) : ℚ) * g p := by
          rw [Finset.sum_eq_sum_Ico_succ_bot (by omega : k < q + 2)]
          have hz : (k - (q - d + 1)).choose (k - (q - d)) = 0 :=
            Nat.choose_eq_zero_of_lt (by omega)
          rw [show k + 1 - (q - d + 1) = k - (q - d) from by omega, hz]
          simp
        rw [hext, ← Finset.sum_add_distrib]
        refine Finset.sum_congr rfl ?_
        intro m hm
        have hm' := Finset.mem_Ico.mp hm
        have e2 : m - (q - d) = (m - (q - d + 1)) + 1 := by omega
        have e3 : k - (q - d) = (k - (q - d + 1)) + 1 := by omega
        rw [e2, e3, Nat.choose_succ_succ']
        push_cast
        ring
    · rw [if_neg (by omega : ¬ (q - d ≤ k ∧ k < q - d + (d + 1))), if_neg hcond,
        ih (by omega), e1, if_neg (by omega)]

/-- Closed form of `blocksSub`: the subtractive analogue of `blocksAdd_eq`,
with alternating signs. -/
theorem blocksSub_eq : ∀ (q d : ℕ), d ≤ q → ∀ (g : ℕ → ℚ) (k : ℕ),
    blocksSub q d g k =
      if q + 1 - d ≤ k ∧ k ≤ q then
        ∑ m ∈ Finset.Ico k (q + 2),
          (-1 : ℚ) ^ (m - k) *
            (((m - (q + 1 - d)).choose (k - (q + 1 - d)) : ℕ) : ℚ) * g m
      else g k := by
  intro q d
  induction d with
  | zero =>
    intro _ g k
    simp only [blocksSub]
    rw [if_neg (by omega)]
  | succ d ih =>
    intro hd g k
    have e0 : q + 1 - (d + 1) = q - d := by omega
    have e1 : q + 1 - d = (q - d) + 1 := by omega
    rw [e0]
    simp only [blocksSub]
    rw [passSub_eq]
    have hBtop : ∀ m, q - d + 1 ≤ m → m ≤ q + 1 →
        blocksSub q d g m =
          ∑ p ∈ Finset.Ico m (q + 2),
            (-1 : ℚ) ^ (p - m) *
              (((p - (q - d + 1)).choose (m - (q - d + 1)) : ℕ) : ℚ) * g p := by
      intro m hm1 hm2
      rw [ih (by omega), e1]
      by_cases hm : m ≤ q
      · rw [if_pos ⟨hm1, hm⟩]
      · have hmq : m = q + 1 := by omega
        subst hmq
        rw [if_neg (by omega), Finset.sum_Ico_eq_sum_range]
        simp only [show q + 2 - (q + 1) = 1 from by omega, Finset.sum_range_one,
          Nat.add_zero, Nat.choose_self, Nat.cast_one, Nat.sub_self, pow_zero,
          one_mul, mul_one]
    by_cases hcond : q - d ≤ k ∧ k ≤ q
    · rw [if_pos (by omega : q - d ≤ k ∧ k < q - d + (d + 1)), if_pos hcond]
      by_cases hkj : k = q - d
      · subst hkj
        rw [ih (by omega), e1, if_neg (by omega), hBtop (q - d + 1) (le_refl _) (by omega)]
        rw [Finset.sum_eq_sum_Ico_succ_bot (by omega : q - d < q + 2)]
        simp only [Nat.sub_self, Nat.choose_zero_right, Nat.cast_one, one_mul,
          pow_zero, mul_one]
        rw [sub_eq_add_neg, ← Finset.sum_neg_distrib]
        refine congrArg (fun z => g (q - d) + z) ?_
        refine Finset.sum_congr rfl ?_
        intro m hm
        have hm' := Finset.mem_Ico.mp hm
        have e4 : m - (q - d) = (m - (q - d + 1)) + 1 := by omega
        rw [e4, pow_succ]
        ring
      · have hk1 : q - d + 1 ≤ k := by omega
        rw [ih (by omega), e1, if_pos ⟨hk1, hcond.2⟩,
          hBtop (k + 1) (by omega) (by omega)]
        have hext :
            ∑ p ∈ Finset.Ico (k + 1) (q + 2),
              (-1 : ℚ) ^ (p - (k + 1)) *
                (((p - (q - d + 1)).choose (k + 1 - (q - d + 1)) : ℕ) : ℚ) * g p =
            ∑ p ∈ Finset.Ico k (q + 2),
              (-1 : ℚ) ^ (p - (k + 1)) *
                (((p - (q - d + 1)).choose (k - (q - d)) : ℕ) : ℚ) * g p := by
          rw [Finset.sum_eq_sum_Ico_succ_bot (by omega : k < q + 2)]
          have hz : (k - (q - d + 1)).choose (k - (q - d)) = 0 :=
            Nat.choose_eq_zero_of_lt (by omega)
          rw [show k + 1 - (q - d + 1) = k - (q - d) from by omega, hz]
          simp
        rw [hext, sub_eq_add_neg, ← Finset.sum_neg_distrib, ← Finset.sum_add_distrib]
        refine Finset.sum_congr rfl ?_
        intro m hm
        have hm' := Finset.mem_Ico.mp hm
        have e2 : m - (q - d) = (m - (q - d + 1)) + 1 := by omega
        have e3 : k - (q - d) = (k - (q - d + 1)) + 1 := by omega
        have e5 : m - k = (m - (k + 1)) + 1 ∨ m = k := by omega
        rcases e5 with e5 | e5
        · rw [e2, e3, e5, Nat.choose_succ_succ', pow_succ]
          push_cast
          ring
        · subst e5
          rw [Nat.sub_self, e2, Nat.choose_succ_succ']
          rw [Nat.choose_self, Nat.choose_succ_self,
            show m - (m + 1) = 0 from by omega]
          push_cast
          ring
    · rw [if_neg (by omega : ¬ (q - d ≤ k ∧ k < q - d + (d + 1))), if_neg hcond,
        ih (by omega), e1, if_neg (by omega)]

/-- The source's descending `j`-loop (`outerAdd`) regrouped into
`blocksAdd`: running the remaining passes `j, j - 1, ..., 1` after the
passes `q, ..., q + 1 - d` gives `blocksAdd q (d + j)`. -/
theorem outerAdd_blocksAdd (q : ℕ) :
    ∀ (j d : ℕ), j + d = q → ∀ g, outerAdd q (blocksAdd q d g) j = blocksAdd q (d + j) g := by
  intro j
  induction j with
  | zero => intro d _ g; simp only [outerAdd, Nat.add_zero]
  | succ j ih =>
    intro d hd g
    simp only [outerAdd]
    have h1 : q + 1 - (j + 1) = d + 1 := by omega
    have h2 : q - d = j + 1 := by omega
    have hpass : passAdd (blocksAdd q d g) (j + 1) (q + 1 - (j + 1)) = blocksAdd q (d + 1) g := by
      simp only [blocksAdd]
      rw [h1, h2]
    rw [hpass, ih (d + 1) (by omega), show d + 1 + j = d + (j + 1) from by omega]

/-- Subtractive analogue of `outerAdd_blocksAdd`. -/
theorem outerSub_blocksSub (q : ℕ) :
    ∀ (j d : ℕ), j + d = q → ∀ g, outerSub q (blocksSub q d g) j = blocksSub q (d + j) g := by
  intro j
  induction j with
  | zero => intro d _ g; simp only [outerSub, Nat.add_zero]
  | succ j ih =>
    intro d hd g
    simp only [outerSub]
    have h1 : q + 1 - (j + 1) = d + 1 := by omega
    have h2 : q - d = j + 1 := by omega
    have hpass : passSub (blocksSub q d g) (j + 1) (q + 1 - (j + 1)) = blocksSub q (d + 1) g := by
      simp only [blocksSub]
      rw [h1, h2]
    rw [hpass, ih (d + 1) (by omega), show d + 1 + j = d + (j + 1) from by omega]

/-- The full additive outer loop equals `blocksAdd q q`. -/
theorem outerAdd_top (q : ℕ) (g : ℕ → ℚ) : outerAdd q g q = blocksAdd q q g := by
  have h := outerAdd_blocksAdd q q 0 (by omega) g
  simpa only [blocksAdd, Nat.zero_add] using h

/-- The full subtractive outer loop equals `blocksSub q q`. -/
theorem outerSub_top (q : ℕ) (g : ℕ → ℚ) : outerSub q g q = blocksSub q q g := by
  have h := outerSub_blocksSub q q 0 (by omega) g
  simpa only [blocksSub, Nat.zero_add] using h

/-- Alternating sum of binomial coefficients over `ℚ`. -/
theorem alt_sum_choose (n : ℕ) :
    ∑ u ∈ Finset.range (n + 1), (-1 : ℚ) ^ u * ((n.choose u : ℕ) : ℚ) =
      if n = 0 then 1 else 0 := by
  have h := Int.alternating_sum_range_choose (n := n)
  have h2 := congrArg (fun z : ℤ => (z : ℚ)) h
  push_cast at h2
  split_ifs at h2 ⊢ with hn
  · exact h2
  · exact h2

/-- The subtractive Pascal loop inverts the additive one: applying all
additive passes and then all subtractive passes restores every entry. -/
theorem blocksSub_blocksAdd (q : ℕ) (g : ℕ → ℚ) (k : ℕ) :
    blocksSub q q (blocksAdd q q g) k = g k := by
  by_cases hk : 1 ≤ k ∧ k ≤ q
  · rw [blocksSub_eq q q (le_refl q), if_pos (by omega)]
    have hB : ∀ m ∈ Finset.Ico k (q + 2),
        blocksAdd q q g m =
          ∑ p ∈ Finset.Ico m (q + 2), (((p - 1).choose (m - 1) : ℕ) : ℚ) * g p := by
      intro m hm
      have hm' := Finset.mem_Ico.mp hm
      rw [blocksAdd_eq q q (le_refl q)]
      by_cases h : m ≤ q
      · rw [if_pos ⟨by omega, h⟩]
        simp only [show q + 1 - q = 1 from by omega]
      · have hmq : m = q + 1 := by omega
        subst hmq
        rw [if_neg (by omega), Finset.sum_Ico_eq_sum_range]
        simp only [show q + 2 - (q + 1) = 1 from by omega, Finset.sum_range_one,
          Nat.add_zero, Nat.add_sub_cancel, Nat.choose_self, Nat.cast_one, one_mul]
    rw [show q + 1 - q = 1 from by omega]
    rw [Finset.sum_congr rfl (fun m hm => by rw [hB m hm])]
    rw [Finset.sum_congr rfl
      (fun m _ => Finset.mul_sum (Finset.Ico m (q + 2))
        (fun p => (((p - 1).choose (m - 1) : ℕ) : ℚ) * g p)
        ((-1 : ℚ) ^ (m - k) * (((m - 1).choose (k - 1) : ℕ) : ℚ)))]
    rw [Finset.sum_Ico_Ico_comm]
    have hinner : ∀ p ∈ Finset.Ico k (q + 2),
        (∑ m ∈ Finset.Ico k (p + 1),
          (-1 : ℚ) ^ (m - k) * (((m - 1).choose (k - 1) : ℕ) : ℚ) *
            ((((p - 1).choose (m - 1) : ℕ) : ℚ) * g p)) =
        (if p = k then g p else 0) := by
      intro p hp
      have hp' := Finset.mem_Ico.mp hp
      have hfact : ∀ m ∈ Finset.Ico k (p + 1),
          (-1 : ℚ) ^ (m - k) * (((m - 1).choose (k - 1) : ℕ) : ℚ) *
            ((((p - 1).choose (m - 1) : ℕ) : ℚ) * g p) =
          (((p - 1).choose (k - 1) : ℕ) : ℚ) * g p *
            ((-1 : ℚ) ^ (m - k) * (((p - k).choose (m - k) : ℕ) : ℚ)) := by
        intro m hm
        have hm' := Finset.mem_Ico.mp hm
        have h0 := Nat.choose_mul (n := p - 1) (k := m - 1) (s := k - 1)
          (by omega) (by omega)
        rw [show p - 1 - (k - 1) = p - k from by omega,
          show m - 1 - (k - 1) = m - k from by omega] at h0
        have h1 := congrArg (fun z : ℕ => (z : ℚ)) h0
        push_cast at h1
        linear_combination ((-1 : ℚ) ^ (m - k) * g p) * h1
      rw [Finset.sum_congr rfl hfact, ← Finset.mul_sum]
      rw [Finset.sum_Ico_eq_sum_range]
      simp only [show p + 1 - k = (p - k) + 1 from by omega, Nat.add_sub_cancel_left]
      rw [alt_sum_choose (p - k)]
      by_cases hpk : p = k
      · subst hpk
        rw [if_pos (by omega), if_pos rfl, Nat.choose_self]
        norm_num
      · rw [if_neg (by omega), if_neg hpk]
        ring
    rw [Finset.sum_congr rfl hinner, Finset.sum_ite_eq' (Finset.Ico k (q + 2)) k g,
      if_pos (Finset.mem_Ico.mpr ⟨le_refl k, by omega⟩)]
  · rw [blocksSub_eq q q (le_refl q), if_neg (by omega),
      blocksAdd_eq q q (le_refl q), if_neg (by omega)]

/-- Column decomposition of `predMid`: entry `(a, b)` of the updated
matrix is the scalar pass applied to column `b` (columns outside `1..n`
are untouched). -/
theorem predMid_col (n : ℕ) : ∀ (c : ℕ) (yh : ℕ → ℕ → ℚ) (i1 a b : ℕ),
    predMid n yh i1 c a b =
      if 1 ≤ b ∧ b ≤ n then passAdd (fun r => yh r b) i1 c a else yh a b := by
  intro c
  induction c with
  | zero =>
    intro yh i1 a b
    simp only [predMid, passAdd]
    split_ifs <;> rfl
  | succ c ih =>
    intro yh i1 a b
    simp only [predMid, passAdd]
    rw [ih]
    by_cases hb : 1 ≤ b ∧ b ≤ n
    · rw [if_pos hb, if_pos hb]
      congr 1
      funext r
      by_cases hr : r = i1
      · subst hr
        rw [if_pos ⟨rfl, hb.1, hb.2⟩, if_pos rfl]
      · rw [if_neg (by tauto), if_neg hr]
    · rw [if_neg hb, if_neg hb, if_neg (by tauto)]

/-- Column decomposition of `retrMid`. -/
theorem retrMid_col (n : ℕ) : ∀ (c : ℕ) (yh : ℕ → ℕ → ℚ) (i1 a b : ℕ),
    retrMid n yh i1 c a b =
      if 1 ≤ b ∧ b ≤ n then passSub (fun r => yh r b) i1 c a else yh a b := by
  intro c
  induction c with
  | zero =>
    intro yh i1 a b
    simp only [retrMid, passSub]
    split_ifs <;> rfl
  | succ c ih =>
    intro yh i1 a b
    simp only [retrMid, passSub]
    rw [ih]
    by_cases hb : 1 ≤ b ∧ b ≤ n
    · rw [if_pos hb, if_pos hb]
      congr 1
      funext r
      by_cases hr : r = i1
      · subst hr
        rw [if_pos ⟨rfl, hb.1, hb.2⟩, if_pos rfl]
      · rw [if_neg (by tauto), if_neg hr]
    · rw [if_neg hb, if_neg hb, if_neg (by tauto)]

/-- Column decomposition of `predOuter`. -/
theorem predOuter_col (n nq : ℕ) : ∀ (j : ℕ) (yh : ℕ → ℕ → ℚ) (a b : ℕ),
    predOuter n nq yh j a b =
      if 1 ≤ b ∧ b ≤ n then outerAdd nq (fun r => yh r b) j a else yh a b := by
  intro j
  induction j with
  | zero =>
    intro yh a b
    simp only [predOuter, outerAdd]
    split_ifs <;> rfl
  | succ j ih =>
    intro yh a b
    simp only [predOuter, outerAdd]
    rw [ih]
    by_cases hb : 1 ≤ b ∧ b ≤ n
    · rw [if_pos hb, if_pos hb]
      congr 1
      funext r
      rw [predMid_col, if_pos hb]
    · rw [if_neg hb, if_neg hb, predMid_col, if_neg hb]

/-- Column decomposition of `retrOuter`. -/
theorem retrOuter_col (n nq : ℕ) : ∀ (j : ℕ) (yh : ℕ → ℕ → ℚ) (a b : ℕ),
    retrOuter n nq yh j a b =
      if 1 ≤ b ∧ b ≤ n then outerSub nq (fun r => yh r b) j a else yh a b := by
  intro j
  induction j with
  | zero =>
    intro yh a b
    simp only [retrOuter, outerSub]
    split_ifs <;> rfl
  | succ j ih =>
    intro yh a b
    simp only [retrOuter, outerSub]
    rw [ih]
    by_cases hb : 1 ≤ b ∧ b ≤ n
    · rw [if_pos hb, if_pos hb]
      congr 1
      funext r
      rw [retrMid_col, if_pos hb]
    · rw [if_neg hb, if_neg hb, retrMid_col, if_neg hb]

/-- `prja` always marks the Jacobian current. -/
theorem prja_jcur (ctx : Ctx) (s : LState) (y : ℕ → ℚ) :
    (prja ctx s y).1.jcur = 1 := by
  unfold prja
  split_ifs <;> rfl

/-- The `corflag` produced by `corfailure`. -/
theorem corfailure_flag (s : LState) (told rh : ℚ) (ncf : ℕ) :
    (corfailure s told rh ncf).2.2.2 =
      if |s.h_| ≤ s.hmin * 1.00001 ∨ ncf + 1 = s.mxncf then 2 else 1 := by
  unfold corfailure retractStep
  dsimp only
  split_ifs <;> rfl

/-- Case analysis of `corrDiverge` when it loops again: either the
refresh-restart branch fired (divergence with a stale Jacobian) or the
plain iterate branch (no divergence). -/
theorem corrDiverge_next (ctx : Ctx) (told : ℚ) (c c1 : CorrS)
    (h : corrDiverge ctx told c = .next c1) :
    ((c.m + 1 = c.s.maxcor ∨ (2 ≤ c.m + 1 ∧ c.del > 2 * c.delp)) ∧
      c.s.miter ≠ 0 ∧ c.s.jcur ≠ 1 ∧ c1.rcount = c.rcount + 1 ∧ c1.m = 0 ∧
      c1.s.ipup = c.s.miter ∧ c1.s.jcur = c.s.jcur ∧ c1.s.miter = c.s.miter) ∨
    (¬(c.m + 1 = c.s.maxcor ∨ (2 ≤ c.m + 1 ∧ c.del > 2 * c.delp)) ∧
      c1.rcount = c.rcount ∧ c1.m = c.m + 1 ∧ c1.s.jcur = c.s.jcur ∧
      c1.s.miter = c.s.miter ∧ c1.s.ipup = c.s.ipup) := by
  unfold corrDiverge at h
  dsimp only at h
  by_cases h1 : c.m + 1 = c.s.maxcor ∨ 2 ≤ c.m + 1 ∧ c.del > 2 * c.delp
  · rw [if_pos h1] at h
    by_cases h2 : c.s.miter = 0 ∨ c.s.jcur = 1
    · rw [if_pos h2] at h
      exact CorrStepRes.noConfusion h
    · rw [if_neg h2] at h
      left
      injection h with h3
      subst h3
      exact ⟨h1, fun hm => h2 (Or.inl hm), fun hj => h2 (Or.inr hj), rfl, rfl, rfl, rfl, rfl⟩
  · rw [if_neg h1] at h
    right
    injection h with h3
    subst h3
    exact ⟨h1, rfl, rfl, rfl, rfl, rfl⟩

/-- Case analysis of `corrDiverge` when it fails: divergence was declared
with `miter = 0` or a current Jacobian, and `corfailure` produced the
flag. -/
theorem corrDiverge_fail (ctx : Ctx) (told : ℚ) (c c1 : CorrS) (flag : ℕ)
    (h : corrDiverge ctx told c = .fail c1 flag) :
    (c.m + 1 = c.s.maxcor ∨ (2 ≤ c.m + 1 ∧ c.del > 2 * c.delp)) ∧
    (c.s.miter = 0 ∨ c.s.jcur = 1) ∧ c1.rcount = c.rcount ∧
    flag = (if |c.s.h_| ≤ c.s.hmin * 1.00001 ∨ c.ncf + 1 = c.s.mxncf then 2 else 1) := by
  unfold corrDiverge at h
  dsimp only at h
  by_cases h1 : c.m + 1 = c.s.maxcor ∨ 2 ≤ c.m + 1 ∧ c.del > 2 * c.delp
  · rw [if_pos h1] at h
    by_cases h2 : c.s.miter = 0 ∨ c.s.jcur = 1
    · rw [if_pos h2] at h
      injection h with h3 h4
      subst h3
      subst h4
      exact ⟨h1, h2, rfl, corfailure_flag c.s told c.rh c.ncf⟩
    · rw [if_neg h2] at h
      exact CorrStepRes.noConfusion h
  · rw [if_neg h1] at h
    exact CorrStepRes.noConfusion h

/-- `corrDiverge` never reports convergence. -/
theorem corrDiverge_ne_conv (ctx : Ctx) (told : ℚ) (c c1 : CorrS) :
    corrDiverge ctx told c ≠ .conv c1 := by
  unfold corrDiverge
  dsimp only
  split_ifs <;> exact fun h => CorrStepRes.noConfusion h

/-- Observable form of `corrDiverge_next`: a restart (with its pending
forced Jacobian update) or a plain iterate step. -/
theorem corrDiverge_next_obs (ctx : Ctx) (told : ℚ) (c c1 : CorrS)
    (h : corrDiverge ctx told c = .next c1) :
    (c.s.miter ≠ 0 ∧ c.s.jcur ≠ 1 ∧ c1.rcount = c.rcount + 1 ∧ c1.m = 0 ∧
      c1.s.ipup = c1.s.miter ∧ c1.s.miter ≠ 0 ∧ c1.s.jcur = c.s.jcur) ∨
    (c1.rcount = c.rcount ∧ c1.m = c.m + 1 ∧ c1.s.jcur = c.s.jcur) := by
  rcases corrDiverge_next ctx told c c1 h with
    ⟨_, hm, hj, hr, hm0, hip, hjc, hmi⟩ | ⟨_, hr, hm1, hjc, _, _⟩
  · refine Or.inl ⟨hm, hj, hr, hm0, ?_, ?_, hjc⟩
    · rw [hip, hmi]
    · rw [hmi]
      exact hm
  · exact Or.inr ⟨hr, hm1, hjc⟩

/-- `corrConvTest` loops again only through `corrDiverge`, preserving the
loop observables `jcur`, `miter`, `rcount`, `m` to it. -/
theorem corrConvTest_next (ctx : Ctx) (pnorm told : ℚ) (c c1 : CorrS)
    (h : corrConvTest ctx pnorm told c = .next c1) :
    (c.s.miter ≠ 0 ∧ c.s.jcur ≠ 1 ∧ c1.rcount = c.rcount + 1 ∧ c1.m = 0 ∧
      c1.s.ipup = c1.s.miter ∧ c1.s.miter ≠ 0 ∧ c1.s.jcur = c.s.jcur) ∨
    (c1.rcount = c.rcount ∧ c1.m = c.m + 1 ∧ c1.s.jcur = c.s.jcur) := by
  unfold corrConvTest at h
  dsimp only at h
  split_ifs at h <;>
    first
      | exact CorrStepRes.noConfusion h
      | (have hobs := corrDiverge_next_obs ctx told _ c1 h
         exact hobs)

/-- `corrConvTest` preserves `rcount` on `conv` and `fail` results. -/
theorem corrConvTest_out (ctx : Ctx) (pnorm told : ℚ) (c : CorrS) :
    (∀ c1, corrConvTest ctx pnorm told c = .conv c1 → c1.rcount = c.rcount) ∧
    (∀ c1 flag, corrConvTest ctx pnorm told c = .fail c1 flag → c1.rcount = c.rcount) := by
  constructor
  · intro c1 h
    unfold corrConvTest at h
    dsimp only at h
    split_ifs at h <;>
      first
        | (injection h with h4; subst h4; rfl)
        | exact absurd h (corrDiverge_ne_conv ctx told _ c1)
  · intro c1 flag h
    unfold corrConvTest at h
    dsimp only at h
    split_ifs at h <;>
      first
        | exact CorrStepRes.noConfusion h
        | (have hobs := (corrDiverge_fail ctx told _ c1 flag h).2.2.1
           exact hobs)

/-- `solsy` only zeroes `iersl` in the state (the solution goes into the
returned vector). -/
theorem solsy_fst (s : LState) (y : ℕ → ℚ) :
    (solsy s y).1 = { s with iersl := 0 } := by
  unfold solsy
  split_ifs <;> rfl

/-- `corrIterBody` passes the loop observables unchanged into the
convergence test. -/
theorem corrIterBody_next (ctx : Ctx) (pnorm told : ℚ) (c c1 : CorrS)
    (h : corrIterBody ctx pnorm told c = .next c1) :
    (c.s.miter ≠ 0 ∧ c.s.jcur ≠ 1 ∧ c1.rcount = c.rcount + 1 ∧ c1.m = 0 ∧
      c1.s.ipup = c1.s.miter ∧ c1.s.miter ≠ 0 ∧ c1.s.jcur = c.s.jcur) ∨
    (c1.rcount = c.rcount ∧ c1.m = c.m + 1 ∧ c1.s.jcur = c.s.jcur) := by
  unfold corrIterBody at h
  dsimp only at h
  split_ifs at h <;>
    · try rw [solsy_fst] at h
      have hobs := corrConvTest_next ctx pnorm told _ c1 h
      exact hobs

/-- `corrIterBody` preserves `rcount` on `conv` and `fail` results. -/
theorem corrIterBody_out (ctx : Ctx) (pnorm told : ℚ) (c : CorrS) :
    (∀ c1, corrIterBody ctx pnorm told c = .conv c1 → c1.rcount = c.rcount) ∧
    (∀ c1 flag, corrIterBody ctx pnorm told c = .fail c1 flag → c1.rcount = c.rcount) := by
  constructor
  · intro c1 h
    unfold corrIterBody at h
    dsimp only at h
    split_ifs at h <;>
      · try rw [solsy_fst] at h
        have hobs := (corrConvTest_out ctx pnorm told _).1 c1 h
        exact hobs
  · intro c1 flag h
    unfold corrIterBody at h
    dsimp only at h
    split_ifs at h <;>
      · try rw [solsy_fst] at h
        have hobs := (corrConvTest_out ctx pnorm told _).2 c1 flag h
        exact hobs

/-- One corrector iteration preserves the restart invariant (`next`) and
bounds the restart count on termination (`conv`/`fail`). -/
theorem corrStep_inv (ctx : Ctx) (pnorm told : ℚ) (c : CorrS) (hI : corrInv c) :
    (∀ c1, corrStep ctx pnorm told c = .next c1 → corrInv c1) ∧
    (∀ c1, corrStep ctx pnorm told c = .conv c1 → c1.rcount ≤ 1) ∧
    (∀ c1, ∀ flag, corrStep ctx pnorm told c = .fail c1 flag → c1.rcount ≤ 1) := by
  obtain ⟨hI1, hI2⟩ := hI
  refine ⟨?_, ?_, ?_⟩
  · intro c1 h
    unfold corrStep at h
    dsimp only at h
    by_cases h1 : c.m = 0
    · rw [if_pos h1] at h
      by_cases h2 : c.s.ipup > 0
      · rw [if_pos h2] at h
        by_cases h3 : (prja ctx c.s c.y).1.ierpj ≠ 0
        · rw [if_pos h3] at h
          exact CorrStepRes.noConfusion h
        · rw [if_neg h3] at h
          have hjc1 := prja_jcur ctx c.s c.y
          rcases corrIterBody_next ctx pnorm told _ c1 h with
            ⟨hmi, hj, hr, hm0, hip, hmi2, hjc⟩ | ⟨hr, hm1, hjc⟩
          · exact absurd hjc1 hj
          · refine ⟨?_, ?_⟩
            · have hr1 : c1.rcount = c.rcount := hr
              omega
            · intro _
              left
              rw [hjc]
              exact hjc1
      · rw [if_neg h2] at h
        rcases corrIterBody_next ctx pnorm told _ c1 h with
          ⟨hmi, hj, hr, hm0, hip, hmi2, hjc⟩ | ⟨hr, hm1, hjc⟩
        · have hj1 : ¬ c.s.jcur = 1 := hj
          have hr1 : c1.rcount = c.rcount + 1 := hr
          have hc0 : c.rcount = 0 := by
            rcases Nat.lt_or_ge c.rcount 1 with hlt | hge
            · omega
            · have hc1 : c.rcount = 1 := by omega
              rcases hI2 hc1 with hj2 | ⟨_, hip1, hmi1⟩
              · exact absurd hj2 hj1
              · exfalso
                omega
          refine ⟨by omega, ?_⟩
          intro _
          exact Or.inr ⟨hm0, hip, hmi2⟩
        · have hr1 : c1.rcount = c.rcount := hr
          have hjc2 : c1.s.jcur = c.s.jcur := hjc
          refine ⟨by omega, ?_⟩
          intro hcnt
          have hc1 : c.rcount = 1 := by omega
          rcases hI2 hc1 with hj2 | ⟨_, hip1, hmi1⟩
          · left
            rw [hjc2]
            exact hj2
          · exfalso
            omega
    · rw [if_neg h1] at h
      rcases corrIterBody_next ctx pnorm told c c1 h with
        ⟨hmi, hj, hr, hm0, hip, hmi2, hjc⟩ | ⟨hr, hm1, hjc⟩
      · have hc0 : c.rcount = 0 := by
          rcases Nat.lt_or_ge c.rcount 1 with hlt | hge
          · omega
          · have hc1 : c.rcount = 1 := by omega
            rcases hI2 hc1 with hj2 | ⟨hm01, _, _⟩
            · exact absurd hj2 hj
            · exact absurd hm01 h1
        refine ⟨by omega, ?_⟩
        intro _
        exact Or.inr ⟨hm0, hip, hmi2⟩
      · refine ⟨by omega, ?_⟩
        intro hcnt
        have hc1 : c.rcount = 1 := by omega
        rcases hI2 hc1 with hj2 | ⟨hm01, _, _⟩
        · left
          rw [hjc]
          exact hj2
        · exact absurd hm01 h1
  · intro c1 h
    unfold corrStep at h
    dsimp only at h
    by_cases h1 : c.m = 0
    · rw [if_pos h1] at h
      by_cases h2 : c.s.ipup > 0
      · rw [if_pos h2] at h
        by_cases h3 : (prja ctx c.s c.y).1.ierpj ≠ 0
        · rw [if_pos h3] at h
          exact CorrStepRes.noConfusion h
        · rw [if_neg h3] at h
          have hout0 := (corrIterBody_out ctx pnorm told _).1 c1 h
          have hout : c1.rcount = c.rcount := hout0
          omega
      · rw [if_neg h2] at h
        have hout0 := (corrIterBody_out ctx pnorm told _).1 c1 h
        have hout : c1.rcount = c.rcount := hout0
        omega
    · rw [if_neg h1] at h
      have hout : c1.rcount = c.rcount := (corrIterBody_out ctx pnorm told c).1 c1 h
      omega
  · intro c1 flag h
    unfold corrStep at h
    dsimp only at h
    by_cases h1 : c.m = 0
    · rw [if_pos h1] at h
      by_cases h2 : c.s.ipup > 0
      · rw [if_pos h2] at h
        by_cases h3 : (prja ctx c.s c.y).1.ierpj ≠ 0
        · rw [if_pos h3] at h
          injection h with h4 h5
          subst h4
          exact hI1
        · rw [if_neg h3] at h
          have hout0 := (corrIterBody_out ctx pnorm told _).2 c1 flag h
          have hout : c1.rcount = c.rcount := hout0
          omega
      · rw [if_neg h2] at h
        have hout0 := (corrIterBody_out ctx pnorm told _).2 c1 flag h
        have hout : c1.rcount = c.rcount := hout0
        omega
    · rw [if_neg h1] at h
      have hout : c1.rcount = c.rcount := (corrIterBody_out ctx pnorm told c).2 c1 flag h
      omega

/-- The corrector loop keeps the restart count at most 1. -/
theorem corrLoop_rcount (ctx : Ctx) (pnorm told : ℚ) :
    ∀ (fuel : ℕ) (c : CorrS), corrInv c →
      ∀ out, corrLoop ctx pnorm told fuel c = some out → out.c.rcount ≤ 1 := by
  intro fuel
  induction fuel with
  | zero =>
    intro c _ out h
    cases h
  | succ fuel ih =>
    intro c hI out h
    unfold corrLoop at h
    rcases hstep : corrStep ctx pnorm told c with c1 | ⟨c1, flag⟩ | c1 <;> rw [hstep] at h
    · injection h with h4
      subst h4
      exact (corrStep_inv ctx pnorm told c hI).2.1 c1 hstep
    · injection h with h4
      subst h4
      exact (corrStep_inv ctx pnorm told c hI).2.2 c1 flag hstep
    · exact ih c1 ((corrStep_inv ctx pnorm told c hI).1 c1 hstep) out h

/-- A full `correction` call performs at most one Jacobian
refresh-restart. -/
theorem correction_rcount (ctx : Ctx) (s : LState) (y : ℕ → ℚ) (pnorm : ℚ)
    (delp told : ℚ) (ncf : ℕ) (rh : ℚ) (fuel : ℕ) (out : CorrOut)
    (h : correction ctx s y pnorm delp told ncf rh fuel = some out) :
    out.c.rcount ≤ 1 := by
  unfold correction at h
  refine corrLoop_rcount ctx pnorm told fuel _ ⟨?_, ?_⟩ out h
  · exact Nat.zero_le 1
  · intro hc
    exact absurd hc (by simp)

/-- Closed form of the returned `*iflag` of `intdy`: `-1` on an illegal
`k`, `-2` when `t` is outside the fuzz-widened last-step interval, else `0`. -/
theorem intdy_snd_eq (s : LState) (t : ℚ) (k : ℤ) (dky : ℕ → ℚ) :
    (intdy s t k dky).2 =
      if k < 0 ∨ (s.nq : ℤ) < k then -1
      else if 0 < (t - (s.tn_ - s.hu - 100 * eta * sign (|s.tn_| + |s.hu|) s.hu)) *
          (t - (s.tn_ + 100 * eta * sign (|s.tn_| + |s.hu|) s.hu)) then -2
      else 0 := by
  unfold intdy
  split_ifs <;> rfl

/-- On either failure path, `intdy` returns `dky` untouched. -/
theorem intdy_fst_of_fail (s : LState) (t : ℚ) (k : ℤ) (dky : ℕ → ℚ)
    (h : (intdy s t k dky).2 < 0) : (intdy s t k dky).1 = dky := by
  unfold intdy at h ⊢
  split_ifs at h ⊢ <;> simp_all

/-- C1 (code bug): `idamax1` stores `std::abs` of each double entry into a
`size_t` accumulator, truncating the magnitude to an integer before the
comparison.  On `dx = (_, 0.5, 0.9)` with `n = 2`, `offset = 0`, both
magnitudes truncate to `0`, so `idamax1` returns index `1` even though
`|dx[2]| > |dx[1]|`: the returned index does not maximize the absolute
value, contradicting the function's stated purpose (and the partial
pivoting contract of `dgefa`). -/
theorem c1_idamax1_truncates_magnitudes :
    idamax1 dxC1 2 0 = 1 ∧ |dxC1 1| < |dxC1 2| := by
  have h1 : toSize |dxC1 1| = 0 := by
    have : |dxC1 1| = 1 / 2 := by
      rw [show dxC1 1 = 1 / 2 from rfl, abs_of_nonneg] <;> norm_num
    rw [toSize, this]
    norm_num [Int.floor_eq_zero_iff, Set.mem_Ico]
  have h2 : toSize |dxC1 2| = 0 := by
    have : |dxC1 2| = 9 / 10 := by
      rw [show dxC1 2 = 9 / 10 from rfl, abs_of_nonneg] <;> norm_num
    rw [toSize, this]
    norm_num [Int.floor_eq_zero_iff, Set.mem_Ico]
  constructor
  · show idamax1Go dxC1 0 1 2 0 1 = 1
    rw [idamax1Go]
    simp only [Nat.add_zero, h1, lt_irrefl, if_neg (lt_irrefl 0)]
    rw [idamax1Go]
    simp only [Nat.add_zero, h2, if_neg (lt_irrefl 0)]
    rfl
  · have e1 : |dxC1 1| = 1 / 2 := by
      rw [show dxC1 1 = 1 / 2 from rfl, abs_of_nonneg] <;> norm_num
    have e2 : |dxC1 2| = 9 / 10 := by
      rw [show dxC1 2 = 9 / 10 from rfl, abs_of_nonneg] <;> norm_num
    rw [e1, e2]
    norm_num

/-- C4: every return through `successreturn` copies row 1 of the Nordsieck
history into the caller's state vector (`y[i] = yh_[1][i]` for `1 ≤ i ≤ n`),
sets the returned time to `tn_` (replaced by `tcrit` when `itask` is 4 or 5
and the critical time was hit), sets `*istate = 2`, and resets the
repeated-illegal-input counter `illin` to 0. -/
theorem c4_successreturn_shape (s : LState) (y : ℕ → ℚ) (itask ihit : ℤ)
    (tcrit : ℚ) (i : ℕ) (h1 : 1 ≤ i) (h2 : i ≤ s.n) :
    (successreturn s y itask ihit tcrit).1 i = s.yh_ 1 i ∧
    (successreturn s y itask ihit tcrit).2.1 =
      (if (itask = 4 ∨ itask = 5) ∧ ihit ≠ 0 then tcrit else s.tn_) ∧
    (successreturn s y itask ihit tcrit).2.2.1 = 2 ∧
    (successreturn s y itask ihit tcrit).2.2.2.illin = 0 := by
  refine ⟨?_, rfl, rfl, rfl⟩
  simp only [successreturn]
  rw [if_pos ⟨h1, h2⟩]

/-- Witness for C4 at a concrete state and index. -/
theorem c4_successreturn_shape_witness :
    (1 ≤ 1 ∧ 1 ≤ stateW.n) ∧
    ((successreturn stateW (fun _ => 0) 1 0 0).1 1 = stateW.yh_ 1 1 ∧
     (successreturn stateW (fun _ => 0) 1 0 0).2.1 =
       (if ((1:ℤ) = 4 ∨ (1:ℤ) = 5) ∧ (0:ℤ) ≠ 0 then (0:ℚ) else stateW.tn_) ∧
     (successreturn stateW (fun _ => 0) 1 0 0).2.2.1 = 2 ∧
     (successreturn stateW (fun _ => 0) 1 0 0).2.2.2.illin = 0) :=
  ⟨⟨le_refl 1, by decide⟩,
   c4_successreturn_shape stateW (fun _ => 0) 1 0 0 1 (le_refl 1) (by decide)⟩

/-- C6: with `hu ≥ 0` (the magnitude of the last successful step; this
port only integrates forward, `tout > t`), `intdy` returns a negative
`*iflag` exactly when `k < 0`, `k > nq`, or `t` lies outside the
fuzz-widened interval `[tn_ - hu - tfuzz, tn_ + tfuzz]` with
`tfuzz = 100 * ETA * (|tn_| + |hu|)`; on such a failure `dky` is returned
untouched (and `intdy` mutates no integrator state in any case). -/
theorem c6_intdy_failure_iff (s : LState) (t : ℚ) (k : ℤ) (dky : ℕ → ℚ)
    (hhu : 0 ≤ s.hu) :
    ((intdy s t k dky).2 < 0 ↔
      k < 0 ∨ (s.nq : ℤ) < k ∨
        t < s.tn_ - s.hu - 100 * eta * (|s.tn_| + |s.hu|) ∨
        s.tn_ + 100 * eta * (|s.tn_| + |s.hu|) < t) ∧
    ((intdy s t k dky).2 < 0 → (intdy s t k dky).1 = dky) := by
  have hs : sign (|s.tn_| + |s.hu|) s.hu = |s.tn_| + |s.hu| := by
    rw [sign, if_pos hhu, abs_of_nonneg (by positivity)]
  have heta : (0:ℚ) < eta := by norm_num [eta]
  have hfz : 0 ≤ 100 * eta * (|s.tn_| + |s.hu|) := by positivity
  refine ⟨?_, intdy_fst_of_fail s t k dky⟩
  rw [intdy_snd_eq, hs]
  by_cases hk : k < 0 ∨ (s.nq : ℤ) < k
  · rw [if_pos hk]
    constructor
    · intro _
      rcases hk with hk | hk
      · exact Or.inl hk
      · exact Or.inr (Or.inl hk)
    · intro _; norm_num
  · rw [if_neg hk]
    push_neg at hk
    by_cases hp : 0 < (t - (s.tn_ - s.hu - 100 * eta * (|s.tn_| + |s.hu|))) *
        (t - (s.tn_ + 100 * eta * (|s.tn_| + |s.hu|)))
    · rw [if_pos hp]
      constructor
      · intro _
        rcases mul_pos_iff.mp hp with ⟨h1, h2⟩ | ⟨h1, h2⟩
        · exact Or.inr (Or.inr (Or.inr (by linarith)))
        · exact Or.inr (Or.inr (Or.inl (by linarith)))
      · intro _; norm_num
    · rw [if_neg hp]
      push_neg at hp
      constructor
      · intro h; norm_num at h
      · intro h
        rcases h with h | h | h | h
        · exact absurd h (not_lt.mpr hk.1)
        · exact absurd h (not_lt.mpr hk.2)
        · nlinarith [abs_nonneg s.tn_, abs_nonneg s.hu]
        · nlinarith [abs_nonneg s.tn_, abs_nonneg s.hu]

/-- Witness for C6 at a concrete state, time and order. -/
theorem c6_intdy_failure_iff_witness :
    (0 ≤ stateW.hu) ∧
    (((intdy stateW 0 0 (fun _ => 0)).2 < 0 ↔
      (0:ℤ) < 0 ∨ (stateW.nq : ℤ) < 0 ∨
        (0:ℚ) < stateW.tn_ - stateW.hu - 100 * eta * (|stateW.tn_| + |stateW.hu|) ∨
        stateW.tn_ + 100 * eta * (|stateW.tn_| + |stateW.hu|) < 0) ∧
    ((intdy stateW 0 0 (fun _ => 0)).2 < 0 →
      (intdy stateW 0 0 (fun _ => 0)).1 = (fun _ => 0))) :=
  ⟨le_refl 0, c6_intdy_failure_iff stateW 0 0 (fun _ => 0) (le_refl 0)⟩

/-- C9: `intdy` is deterministic and depends only on `nq`, `l`, `n`,
`tn_`, `h_`, `hu` and the `yh_` contents: two calls with the same `t`,
`k`, `dky` and states agreeing on those fields produce identical outputs
(dense output is side-effect-free, so repeated queries give bit-identical
results). -/
theorem c9_intdy_deterministic (s1 s2 : LState) (t : ℚ) (k : ℤ) (dky : ℕ → ℚ)
    (hnq : s1.nq = s2.nq) (hl : s1.l = s2.l) (hn : s1.n = s2.n)
    (htn : s1.tn_ = s2.tn_) (hh : s1.h_ = s2.h_) (hhu : s1.hu = s2.hu)
    (hyh : s1.yh_ = s2.yh_) :
    intdy s1 t k dky = intdy s2 t k dky := by
  unfold intdy
  rw [hnq, hl, hn, htn, hh, hhu, hyh]

/-- C5: the error-test-failure restore is the exact inverse of the
prediction update: for every state (hence every `yh_` array, order `nq`
and dimension `n`), applying the Pascal-triangle prediction loop and then
the rejection loop with the same iteration order returns every entry
`yh_[j][i]` to its pre-prediction value (in exact arithmetic; in fact all
entries, in particular those with `1 ≤ j ≤ nq + 1`), and `tn_` is restored
to its pre-step value `told = tn_`. -/
theorem c5_retract_inverts_predict (s : LState) (j i : ℕ) :
    (retractStep (predictStep s) s.tn_).yh_ j i = s.yh_ j i ∧
    (retractStep (predictStep s) s.tn_).tn_ = s.tn_ := by
  constructor
  · show retrOuter s.n s.nq (predOuter s.n s.nq s.yh_ s.nq) s.nq j i = s.yh_ j i
    rw [retrOuter_col]
    by_cases hi : 1 ≤ i ∧ i ≤ s.n
    · rw [if_pos hi]
      have hcol : (fun r => predOuter s.n s.nq s.yh_ s.nq r i) =
          outerAdd s.nq (fun r => s.yh_ r i) s.nq := by
        funext r
        rw [predOuter_col, if_pos hi]
      rw [hcol, outerAdd_top, outerSub_top]
      exact blocksSub_blocksAdd s.nq (fun r => s.yh_ r i) j
    · rw [if_neg hi, predOuter_col, if_neg hi]
  · rfl

/-- C7: with `maxcor = 3` (as set by `lsoda`), divergence in `correction`
is declared exactly when the incremented iteration count reaches 3 or
when it is at least 2 and the new weighted increment norm `del` exceeds
`2 * delp`; upon divergence with `miter != 0` and a non-current Jacobian
(`jcur != 1`), `ipup = miter` is set and the iteration restarts from
`m = 0`; this refresh-restart happens at most once per `correction` call;
otherwise `corfailure` is invoked, producing `corflag = 2` at the minimum
step size or after `mxncf` failures, else `corflag = 1`
(step-shrink-and-retry). -/
theorem c7_correction_divergence (ctx : Ctx) (c : CorrS) (told : ℚ)
    (hmc : c.s.maxcor = 3) :
    (isDivergedRes (corrDiverge ctx told c) ↔
      (c.m + 1 = 3 ∨ (2 ≤ c.m + 1 ∧ c.del > 2 * c.delp))) ∧
    ((c.m + 1 = 3 ∨ (2 ≤ c.m + 1 ∧ c.del > 2 * c.delp)) → c.s.miter ≠ 0 →
      c.s.jcur ≠ 1 →
      ∃ c1, corrDiverge ctx told c = .next c1 ∧ c1.m = 0 ∧
        c1.s.ipup = c.s.miter ∧ c1.rcount = c.rcount + 1) ∧
    ((c.m + 1 = 3 ∨ (2 ≤ c.m + 1 ∧ c.del > 2 * c.delp)) →
      (c.s.miter = 0 ∨ c.s.jcur = 1) →
      ∃ c1, corrDiverge ctx told c = .fail c1
        (if |c.s.h_| ≤ c.s.hmin * 1.00001 ∨ c.ncf + 1 = c.s.mxncf then 2 else 1)) ∧
    (∀ s y pnorm delp told2 ncf rh fuel out,
      correction ctx s y pnorm delp told2 ncf rh fuel = some out →
        out.c.rcount ≤ 1) := by
  refine ⟨?_, ?_, ?_, ?_⟩
  · unfold corrDiverge
    dsimp only
    rw [hmc]
    by_cases hd : c.m + 1 = 3 ∨ 2 ≤ c.m + 1 ∧ c.del > 2 * c.delp
    · rw [if_pos hd]
      by_cases h2 : c.s.miter = 0 ∨ c.s.jcur = 1
      · rw [if_pos h2]
        simpa [isDivergedRes] using hd
      · rw [if_neg h2]
        simpa [isDivergedRes] using hd
    · rw [if_neg hd]
      simp only [isDivergedRes]
      constructor
      · intro hfalse
        omega
      · intro hcond
        exact absurd hcond hd
  · intro hd hm hj
    unfold corrDiverge
    dsimp only
    rw [hmc, if_pos hd, if_neg (by tauto : ¬(c.s.miter = 0 ∨ c.s.jcur = 1))]
    exact ⟨_, rfl, rfl, rfl, rfl⟩
  · intro hd h2
    unfold corrDiverge
    dsimp only
    rw [hmc, if_pos hd, if_pos h2, corfailure_flag]
    exact ⟨_, rfl⟩
  · intro s y pnorm delp told2 ncf rh fuel out h
    exact correction_rcount ctx s y pnorm delp told2 ncf rh fuel out h

/-- Witness for C7 at a concrete corrector state (`maxcor = 3`). -/
theorem c7_correction_divergence_witness :
    (cW.s.maxcor = 3) ∧
    ((isDivergedRes (corrDiverge ctxW 0 cW) ↔
      (cW.m + 1 = 3 ∨ (2 ≤ cW.m + 1 ∧ cW.del > 2 * cW.delp))) ∧
    ((cW.m + 1 = 3 ∨ (2 ≤ cW.m + 1 ∧ cW.del > 2 * cW.delp)) → cW.s.miter ≠ 0 →
      cW.s.jcur ≠ 1 →
      ∃ c1, corrDiverge ctxW 0 cW = .next c1 ∧ c1.m = 0 ∧
        c1.s.ipup = cW.s.miter ∧ c1.rcount = cW.rcount + 1) ∧
    ((cW.m + 1 = 3 ∨ (2 ≤ cW.m + 1 ∧ cW.del > 2 * cW.delp)) →
      (cW.s.miter = 0 ∨ cW.s.jcur = 1) →
      ∃ c1, corrDiverge ctxW 0 cW = .fail c1
        (if |cW.s.h_| ≤ cW.s.hmin * 1.00001 ∨ cW.ncf + 1 = cW.s.mxncf then 2 else 1)) ∧
    (∀ s y pnorm delp told2 ncf rh fuel out,
      correction ctxW s y pnorm delp told2 ncf rh fuel = some out →
        out.c.rcount ≤ 1)) :=
  ⟨rfl, c7_correction_divergence ctxW cW 0 rfl⟩

/-- Witness for C9: two states differing in an unrelated field (`pdnorm`). -/
theorem c9_intdy_deterministic_witness :
    intdy stateW 0 0 (fun _ => 0) =
      intdy { stateW with pdnorm := 1 } 0 0 (fun _ => 0) :=
  c9_intdy_deterministic stateW { stateW with pdnorm := 1 } 0 0 (fun _ => 0)
    rfl rfl rfl rfl rfl rfl rfl

/-! ## Frame lemmas toward the order invariant (C8) -/

/-- `ordFrame` is reflexive. -/
theorem ordFrame_rfl (a : LState) : ordFrame a a :=
  ⟨rfl, rfl, rfl, rfl, rfl, rfl, rfl, rfl⟩

/-- `ordFrame` is transitive. -/
theorem ordFrame_trans {a b c : LState} (h1 : ordFrame a b) (h2 : ordFrame b c) :
    ordFrame a c := by
  obtain ⟨a1, a2, a3, a4, a5, a6, a7, a8⟩ := h1
  obtain ⟨b1, b2, b3, b4, b5, b6, b7, b8⟩ := h2
  exact ⟨b1.trans a1, b2.trans a2, b3.trans a3, b4.trans a4, b5.trans a5,
    b6.trans a6, b7.trans a7, b8.trans a8⟩

/-- `bnd` only reads frame fields. -/
theorem bnd_frame {a b : LState} (h : ordFrame a b) : bnd b = bnd a := by
  obtain ⟨h1, _, h3, h4, _⟩ := h
  unfold bnd
  rw [h1, h3, h4]

/-- `stodaMid0` transports along `ordFrame`. -/
theorem stodaMid0_frame {a b : LState} (h : stodaMid0 a) (hf : ordFrame a b) :
    stodaMid0 b := by
  obtain ⟨hm, ho1, ho2, hs1, hs2, hmx, hq1, hq2, hl⟩ := h
  obtain ⟨f1, f2, f3, f4, f5, f6, f7, f8⟩ := hf
  refine ⟨?_, ?_, ?_, ?_, ?_, ?_, ?_, ?_, ?_⟩
  · rw [f1]; exact hm
  · rw [f3]; exact ho1
  · rw [f3]; exact ho2
  · rw [f4]; exact hs1
  · rw [f4]; exact hs2
  · rw [f5, bnd_frame ⟨f1, f2, f3, f4, f5, f6, f7, f8⟩]; exact hmx
  · rw [f7]; exact hq1
  · rw [f7, f5]; exact hq2
  · rw [f8, f7]; exact hl

/-- `stodaMid` transports along `ordFrame`. -/
theorem stodaMid_frame {a b : LState} (h : stodaMid a) (hf : ordFrame a b) :
    stodaMid b := by
  obtain ⟨h0, hlm⟩ := h
  refine ⟨stodaMid0_frame h0 hf, ?_⟩
  rw [hf.2.2.2.2.2.1, hf.2.2.2.2.1]
  exact hlm

/-- The mid-step invariant implies the claimed post-invariant. -/
theorem stodaMid_post {s : LState} (h : stodaMid s) : stodaPost s := by
  obtain ⟨⟨_, _, _, _, _, hmx, hq1, hq2, hl⟩, _⟩ := h
  exact ⟨hq1, by rw [← hmx]; exact hq2, hl⟩

/-- `stodaPost` transports along `ordFrame`. -/
theorem stodaPost_frame {a b : LState} (h : stodaPost a) (hf : ordFrame a b) :
    stodaPost b := by
  obtain ⟨h1, h2, h3⟩ := h
  refine ⟨?_, ?_, ?_⟩
  · rw [hf.2.2.2.2.2.2.1]; exact h1
  · rw [hf.2.2.2.2.2.2.1, bnd_frame hf]; exact h2
  · rw [hf.2.2.2.2.2.2.2, hf.2.2.2.2.2.2.1]; exact h3

/-- The constructor's stability bounds are positive on indices 1..12. -/
theorem sm1_pos : ∀ k, 1 ≤ k → k ≤ 12 → 0 < sm1 k := by
  intro k h1 h2
  interval_cases k <;> norm_num [sm1]

/-- The constructor's stability bounds are nonnegative everywhere. -/
theorem sm1_nonneg (k : ℕ) : 0 ≤ sm1 k := by
  unfold sm1
  refine ite_nonneg (by norm_num) (ite_nonneg (by norm_num) (ite_nonneg (by norm_num)
    (ite_nonneg (by norm_num) (ite_nonneg (by norm_num) (ite_nonneg (by norm_num)
    (ite_nonneg (by norm_num) (ite_nonneg (by norm_num) (ite_nonneg (by norm_num)
    (ite_nonneg (by norm_num) (ite_nonneg (by norm_num) (ite_nonneg (by norm_num)
    le_rfl)))))))))))

/-- `cfode` only writes `elco` and `tesco`. -/
theorem cfode_fr (s : LState) (m : ℕ) : ordFrame s (cfode s m) :=
  ⟨rfl, rfl, rfl, rfl, rfl, rfl, rfl, rfl⟩

/-- `resetcoeff` only writes `el`, `rc`, `el0`, `conit`. -/
theorem resetcoeff_fr (s : LState) : ordFrame s (resetcoeff s) :=
  ⟨rfl, rfl, rfl, rfl, rfl, rfl, rfl, rfl⟩

/-- `endstoda` only writes `acor`, `hold`, `jstart`. -/
theorem endstoda_fr (s : LState) : ordFrame s (endstoda s) :=
  ⟨rfl, rfl, rfl, rfl, rfl, rfl, rfl, rfl⟩

/-- `scaleh` never changes the order fields. -/
theorem scaleh_fr (s : LState) (rh pdh : ℚ) : ordFrame s (scaleh s rh pdh).1 :=
  ⟨rfl, rfl, rfl, rfl, rfl, rfl, rfl, rfl⟩

/-- `prja` never changes the order fields. -/
theorem prja_fr (ctx : Ctx) (s : LState) (y : ℕ → ℚ) :
    ordFrame s (prja ctx s y).1 := by
  unfold ordFrame prja
  dsimp only
  split_ifs <;> exact ⟨rfl, rfl, rfl, rfl, rfl, rfl, rfl, rfl⟩

/-- `corfailure` never changes the order fields. -/
theorem corfailure_fr (s : LState) (told rh : ℚ) (ncf : ℕ) :
    ordFrame s (corfailure s told rh ncf).1 := by
  unfold ordFrame corfailure retractStep
  dsimp only
  split_ifs <;> exact ⟨rfl, rfl, rfl, rfl, rfl, rfl, rfl, rfl⟩

/-- `solsy` never changes the order fields. -/
theorem solsy_fr (s : LState) (y : ℕ → ℚ) : ordFrame s (solsy s y).1 := by
  rw [solsy_fst]
  exact ⟨rfl, rfl, rfl, rfl, rfl, rfl, rfl, rfl⟩

/-- `corrDiverge` never changes the order fields. -/
theorem corrDiverge_cs (ctx : Ctx) (told : ℚ) (c : CorrS) :
    ordFrame c.s (resCS (corrDiverge ctx told c)).s := by
  unfold corrDiverge
  dsimp only
  split_ifs <;>
    first
      | exact corfailure_fr c.s told c.rh c.ncf
      | exact ⟨rfl, rfl, rfl, rfl, rfl, rfl, rfl, rfl⟩

/-- `corrConvTest` never changes the order fields. -/
theorem corrConvTest_cs (ctx : Ctx) (pnorm told : ℚ) (c : CorrS) :
    ordFrame c.s (resCS (corrConvTest ctx pnorm told c)).s := by
  unfold corrConvTest
  dsimp only
  split_ifs <;>
    first
      | exact ⟨rfl, rfl, rfl, rfl, rfl, rfl, rfl, rfl⟩
      | exact corrDiverge_cs ctx told _
      | exact ordFrame_trans ⟨rfl, rfl, rfl, rfl, rfl, rfl, rfl, rfl⟩
          (corrDiverge_cs ctx told _)

/-- `corrIterBody` never changes the order fields. -/
theorem corrIterBody_cs (ctx : Ctx) (pnorm told : ℚ) (c : CorrS) :
    ordFrame c.s (resCS (corrIterBody ctx pnorm told c)).s := by
  unfold corrIterBody
  dsimp only
  split_ifs <;>
    · try rw [solsy_fst]
      exact ordFrame_trans ⟨rfl, rfl, rfl, rfl, rfl, rfl, rfl, rfl⟩
        (corrConvTest_cs ctx pnorm told _)

/-- One corrector iteration never changes the order fields. -/
theorem corrStep_cs (ctx : Ctx) (pnorm told : ℚ) (c : CorrS) :
    ordFrame c.s (resCS (corrStep ctx pnorm told c)).s := by
  unfold corrStep
  dsimp only
  split_ifs <;>
    first
      | exact ordFrame_trans
          (ordFrame_trans (prja_fr ctx c.s c.y) ⟨rfl, rfl, rfl, rfl, rfl, rfl, rfl, rfl⟩)
          (corfailure_fr _ told c.rh c.ncf)
      | exact ordFrame_trans
          (ordFrame_trans (prja_fr ctx c.s c.y) ⟨rfl, rfl, rfl, rfl, rfl, rfl, rfl, rfl⟩)
          (corrIterBody_cs ctx pnorm told _)
      | exact ordFrame_trans ⟨rfl, rfl, rfl, rfl, rfl, rfl, rfl, rfl⟩
          (corrIterBody_cs ctx pnorm told _)
      | exact corrIterBody_cs ctx pnorm told _

/-- The corrector loop never changes the order fields. -/
theorem corrLoop_fr (ctx : Ctx) (pnorm told : ℚ) :
    ∀ (fuel : ℕ) (c : CorrS) (out : CorrOut),
      corrLoop ctx pnorm told fuel c = some out → ordFrame c.s out.c.s := by
  intro fuel
  induction fuel with
  | zero =>
    intro c out h
    cases h
  | succ fuel ih =>
    intro c out h
    unfold corrLoop at h
    rcases hstep : corrStep ctx pnorm told c with c1 | ⟨c1, flag⟩ | c1 <;> rw [hstep] at h
    · injection h with h4
      subst h4
      have hf := corrStep_cs ctx pnorm told c
      rw [hstep] at hf
      exact hf
    · injection h with h4
      subst h4
      have hf := corrStep_cs ctx pnorm told c
      rw [hstep] at hf
      exact hf
    · have hf := corrStep_cs ctx pnorm told c
      rw [hstep] at hf
      exact ordFrame_trans hf (ih c1 out h)

/-- A full `correction` call never changes the order fields. -/
theorem correction_fr (ctx : Ctx) (s : LState) (y : ℕ → ℚ) (pnorm : ℚ)
    (delp told : ℚ) (ncf : ℕ) (rh : ℚ) (fuel : ℕ) (out : CorrOut)
    (h : correction ctx s y pnorm delp told ncf rh fuel = some out) :
    ordFrame s out.c.s := by
  unfold correction at h
  exact ordFrame_trans ⟨rfl, rfl, rfl, rfl, rfl, rfl, rfl, rfl⟩
    (corrLoop_fr ctx pnorm told fuel _ out h)

/-- Transport of `stodaMid` to a state with a new order, provided the
frame fields are unchanged and the new order is in range. -/
theorem stodaMid_bump {a b : LState} (h : stodaMid a)
    (f1 : b.meth_ = a.meth_) (f2 : b.mxordn = a.mxordn) (f3 : b.mxords = a.mxords)
    (f4 : b.maxord = a.maxord) (f5 : b.lmax = a.lmax)
    (hq1 : 1 ≤ b.nq) (hq2 : b.nq ≤ a.maxord) (hl : b.l = b.nq + 1) : stodaMid b := by
  obtain ⟨⟨hmm, ho1, ho2, hs1, hs2, hmx, _, _, _⟩, hlm⟩ := h
  refine ⟨⟨?_, ?_, ?_, ?_, ?_, ?_, hq1, ?_, hl⟩, ?_⟩
  · rw [f1]; exact hmm
  · rw [f2]; exact ho1
  · rw [f2]; exact ho2
  · rw [f3]; exact hs1
  · rw [f3]; exact hs2
  · rw [f4, hmx]
    unfold bnd
    rw [f1, f2, f3]
  · rw [f4]; exact hq2
  · rw [f5, f4]; exact hlm

/-- The `*pdh` computed in the `meth_ == 1` branches is positive. -/
theorem osPdh_pos (s : LState) (pdhIn : ℚ) (h : s.meth_ = 1) : 0 < osPdh s pdhIn := by
  unfold osPdh
  rw [if_pos h]
  exact lt_of_lt_of_le (by norm_num) (le_max_right _ _)

/-- `rhsm` is positive whenever `pow` returns nonnegative values and the
order is in the range of the stability table. -/
theorem osRhsm_pos (ctx : Ctx) (s : LState) (dsm pdhIn : ℚ)
    (hpow : 0 ≤ ctx.powF dsm (1 / (s.l : ℚ))) (h1 : 1 ≤ s.nq) (h2 : s.nq ≤ 12) :
    0 < osRhsm ctx s dsm (osPdh s pdhIn) := by
  unfold osRhsm
  dsimp only
  have hr : 0 < 1 / (1.2 * ctx.powF dsm (1 / (s.l : ℚ)) + 0.0000012) := by
    apply one_div_pos.mpr
    linarith
  split_ifs with h
  · exact lt_min hr (div_pos (sm1_pos s.nq h1 h2) (osPdh_pos s pdhIn h))
  · exact hr

/-- The restricted `*rhup` stays nonnegative. -/
theorem osRhup_nonneg (s : LState) (rhupIn pdhIn : ℚ) (h0 : 0 ≤ rhupIn) :
    0 ≤ osRhup s rhupIn (osPdh s pdhIn) := by
  unfold osRhup
  split_ifs with h
  · exact le_min h0 (div_nonneg (sm1_nonneg _) (osPdh_pos s pdhIn h.1).le)
  · exact h0

/-- At order 1 the computed `rhdn` is 0 (no lower order exists). -/
theorem osRhdn_eq_zero (ctx : Ctx) (s : LState) (pdh1 : ℚ) (h : s.nq = 1) :
    osRhdn ctx s pdh1 = 0 := by
  unfold osRhdn
  dsimp only
  have hno : ¬ (s.meth_ = 1 ∧ s.nq > 1) := by
    rintro ⟨_, hgt⟩
    omega
  rw [if_neg hno, if_neg (show ¬ s.nq ≠ 1 from fun hne => hne h)]

/-- The tail of `orderswitch` keeps the order invariant when the selected
order is in range. -/
theorem orderswitchTail_mid (s0 : LState) (rhup1 pdh1 rh0 : ℚ) (newq : ℕ)
    (hm : stodaMid s0) (hq1 : 1 ≤ newq) (hq2 : newq ≤ s0.maxord) :
    stodaMid (orderswitchTail s0 rhup1 pdh1 rh0 newq).1 := by
  unfold orderswitchTail
  dsimp only
  split_ifs <;>
    first
      | exact stodaMid_frame hm ⟨rfl, rfl, rfl, rfl, rfl, rfl, rfl, rfl⟩
      | exact stodaMid_bump hm rfl rfl rfl rfl rfl hq1 hq2 rfl

/-- C8 core, order selection: `orderswitch` preserves the order invariant
(the order only decreases when `nq >= 2` and only increases when
`l < lmax`, i.e. `nq < maxord`). -/
theorem orderswitch_mid (ctx : Ctx) (s : LState) (rhupIn dsm pdhIn rhIn : ℚ)
    (hm : stodaMid s) (hpow : ∀ a b, 0 ≤ ctx.powF a b)
    (h0 : 0 ≤ rhupIn) (hlz : s.l = s.lmax → rhupIn = 0) :
    stodaMid (orderswitch ctx s rhupIn dsm pdhIn rhIn).1 := by
  have hq1 : 1 ≤ s.nq := hm.1.2.2.2.2.2.2.1
  have hq2 : s.nq ≤ s.maxord := hm.1.2.2.2.2.2.2.2.1
  have hl : s.l = s.nq + 1 := hm.1.2.2.2.2.2.2.2.2
  have hlm : s.lmax = s.maxord + 1 := hm.2
  have hq12 : s.nq ≤ 12 := by
    have hb1 := hm.1.2.2.1
    have hb2 := hm.1.2.2.2.2.1
    have hmx := hm.1.2.2.2.2.2.1
    have hble : bnd s ≤ 12 := by
      unfold bnd
      split_ifs <;> omega
    omega
  have hsm : 0 < osRhsm ctx s dsm (osPdh s pdhIn) :=
    osRhsm_pos ctx s dsm pdhIn (hpow _ _) hq1 hq12
  have hfr : ordFrame s (if s.meth_ = 1 then { s with pdest := 0 } else s) := by
    split_ifs <;> exact ⟨rfl, rfl, rfl, rfl, rfl, rfl, rfl, rfl⟩
  have hm0 : stodaMid (if s.meth_ = 1 then { s with pdest := 0 } else s) :=
    stodaMid_frame hm hfr
  have e5 : (if s.meth_ = 1 then { s with pdest := 0 } else s).maxord = s.maxord :=
    hfr.2.2.2.2.1
  have e7 : (if s.meth_ = 1 then { s with pdest := 0 } else s).nq = s.nq :=
    hfr.2.2.2.2.2.2.1
  have e8 : (if s.meth_ = 1 then { s with pdest := 0 } else s).l = s.l :=
    hfr.2.2.2.2.2.2.2
  unfold orderswitch
  dsimp only
  by_cases hA : osRhsm ctx s dsm (osPdh s pdhIn) ≥ osRhup s rhupIn (osPdh s pdhIn)
  · rw [if_pos hA]
    by_cases hB : osRhsm ctx s dsm (osPdh s pdhIn) ≥ osRhdn ctx s (osPdh s pdhIn)
    · rw [if_pos hB]
      exact orderswitchTail_mid _ _ _ _ _ hm0 (by rw [e7]; exact hq1)
        (by rw [e7, e5]; exact hq2)
    · rw [if_neg hB]
      have hnq2 : 2 ≤ s.nq := by
        by_contra hcon
        have h1 : s.nq = 1 := by omega
        rw [osRhdn_eq_zero ctx s _ h1] at hB
        exact hB (le_of_lt hsm)
      exact orderswitchTail_mid _ _ _ _ _ hm0 (by rw [e7]; omega)
        (by rw [e7, e5]; omega)
  · rw [if_neg hA]
    by_cases hC : osRhup s rhupIn (osPdh s pdhIn) ≤ osRhdn ctx s (osPdh s pdhIn)
    · rw [if_pos hC]
      have hnq2 : 2 ≤ s.nq := by
        by_contra hcon
        have h1 : s.nq = 1 := by omega
        rw [osRhdn_eq_zero ctx s _ h1] at hC
        have hAlt := lt_of_not_ge hA
        linarith
      exact orderswitchTail_mid _ _ _ _ _ hm0 (by rw [e7]; omega)
        (by rw [e7, e5]; omega)
    · rw [if_neg hC]
      by_cases hD : osRhup s rhupIn (osPdh s pdhIn) ≥ 1.1
      · rw [if_pos hD]
        have hlne : s.l ≠ s.lmax := by
          intro he
          have hz : rhupIn = 0 := hlz he
          have hru : osRhup s rhupIn (osPdh s pdhIn) = 0 := by
            unfold osRhup
            rw [if_neg, hz]
            rintro ⟨_, hlt⟩
            rw [he] at hlt
            exact lt_irrefl _ hlt
          rw [hru] at hD
          norm_num at hD
        have hbound : s.nq + 1 ≤ s.maxord := by omega
        refine stodaMid_bump hm0 rfl rfl rfl rfl rfl ?_ ?_ rfl
        · show 1 ≤ (if s.meth_ = 1 then { s with pdest := 0 } else s).l
          rw [e8, hl]
          omega
        · show (if s.meth_ = 1 then { s with pdest := 0 } else s).l ≤
            (if s.meth_ = 1 then { s with pdest := 0 } else s).maxord
          rw [e8, e5, hl]
          exact hbound
      · rw [if_neg hD]
        exact stodaMid_frame hm0 ⟨rfl, rfl, rfl, rfl, rfl, rfl, rfl, rfl⟩

/-- C8 core, method selection: a `methodswitch` call either leaves the
order fields unchanged or switches the family, keeping `mused` and
delivering an order that is valid for the new family. -/
theorem methodswitch_post (ctx : Ctx) (s : LState) (dsm pnorm pdh rh : ℚ)
    (hm : stodaMid s) :
    ordFrame s (methodswitch ctx s dsm pnorm pdh rh).1 ∨
    ((methodswitch ctx s dsm pnorm pdh rh).1.meth_ ≠ s.meth_ ∧
      (methodswitch ctx s dsm pnorm pdh rh).1.mused = s.mused ∧
      stodaPost (methodswitch ctx s dsm pnorm pdh rh).1) := by
  have hq1 : 1 ≤ s.nq := hm.1.2.2.2.2.2.2.1
  have ho1 : 1 ≤ s.mxordn := hm.1.2.1
  have hs1 : 1 ≤ s.mxords := hm.1.2.2.2.1
  rcases hm.1.1 with hme | hme <;>
    · unfold methodswitch
      dsimp only
      split_ifs <;>
        first
          | exact Or.inl ⟨rfl, rfl, rfl, rfl, rfl, rfl, rfl, rfl⟩
          | (right
             refine ⟨by (try dsimp only); omega, rfl,
               by (try dsimp only); omega, ?_, rfl⟩
             simp only [bnd]
             (try dsimp only)
             split_ifs <;> omega)

/-- Positivity of the `rhup` candidate `1/(1.4*pow(dup, exup) + 1.4e-6)`
when `pow` returns nonnegative values. -/
theorem rhup_nonneg_aux (ctx : Ctx) (hpow : ∀ a b, 0 ≤ ctx.powF a b) (x z : ℚ) :
    (0 : ℚ) ≤ 1 / (1.4 * ctx.powF x z + 0.0000014) := by
  have hp := hpow x z
  have hd : (0 : ℚ) < 1.4 * ctx.powF x z + 0.0000014 := by linarith
  exact le_of_lt (one_div_pos.mpr hd)

/-- The final block of the success path keeps the order invariant. -/
theorem stodaSuccTail_post (s : LState) (y : ℕ → ℚ) (hm : stodaMid s) :
    stodaPost (stodaSuccTail s y).1 := by
  unfold stodaSuccTail
  split_ifs <;> exact stodaPost_frame (stodaMid_post hm) (endstoda_fr _)

/-- `stodaPost` through the `scaleh`, `rmax` reset, `endstoda` epilogue
shared by several `stoda` exits. -/
theorem scalehEnd_post (s : LState) (rh pdh q : ℚ) (h : stodaPost s) :
    stodaPost (endstoda { (scaleh s rh pdh).1 with rmax := q }) :=
  stodaPost_frame (stodaPost_frame h (scaleh_fr s rh pdh)) (endstoda_fr _)

set_option maxHeartbeats 1600000 in
/-- The `orderswitch` dispatch of the success path keeps the order
invariant. -/
theorem stodaOrderSel_post (ctx : Ctx) (sB : LState) (y : ℕ → ℚ)
    (rhup dsm pdh rh : ℚ) (hm : stodaMid sB) (hpow : ∀ a b, 0 ≤ ctx.powF a b)
    (h0 : 0 ≤ rhup) (hlz : sB.l = sB.lmax → rhup = 0) :
    stodaPost (stodaOrderSel ctx sB y rhup dsm pdh rh).1 := by
  have hosm := orderswitch_mid ctx sB rhup dsm pdh rh hm hpow h0 hlz
  unfold stodaOrderSel
  by_cases h1 : (orderswitch ctx sB rhup dsm pdh rh).2.2.2.2 = 0
  · rw [if_pos h1]
    exact stodaPost_frame (stodaMid_post hosm) (endstoda_fr _)
  · rw [if_neg h1]
    by_cases h2 : (orderswitch ctx sB rhup dsm pdh rh).2.2.2.2 = 1
    · rw [if_pos h2]
      exact scalehEnd_post _ _ _ _ (stodaMid_post hosm)
    · rw [if_neg h2]
      by_cases h3 : (orderswitch ctx sB rhup dsm pdh rh).2.2.2.2 = 2
      · rw [if_pos h3]
        exact scalehEnd_post _ _ _ _
          (stodaPost_frame (stodaMid_post hosm) (resetcoeff_fr _))
      · rw [if_neg h3]
        exact stodaSuccTail_post _ y hosm

/-- The step/order-selection block keeps the order invariant. -/
theorem stodaSucc2_post (ctx : Ctx) (s : LState) (y : ℕ → ℚ) (dsm rh pdh : ℚ)
    (hm : stodaMid s) (hpow : ∀ a b, 0 ≤ ctx.powF a b) :
    stodaPost (stodaSucc2 ctx s y dsm rh pdh).1 := by
  unfold stodaSucc2
  dsimp only
  by_cases hIa : (if s.ialth = 0 then 2 ^ 64 - 1 else s.ialth - 1) = 0
  · rw [if_pos hIa]
    by_cases hL : s.l ≠ s.lmax
    · rw [if_pos hL]
      exact stodaOrderSel_post ctx _ y _ dsm pdh rh (by exact hm) hpow
        (rhup_nonneg_aux ctx hpow _ _) (by exact fun he => absurd he hL)
    · rw [if_neg hL]
      exact stodaOrderSel_post ctx _ y _ dsm pdh rh (by exact hm) hpow le_rfl
        (fun _ => rfl)
  · rw [if_neg hIa]
    exact stodaSuccTail_post _ y hm

/-- The successful-step block (`dsm <= 1`) keeps the order invariant. -/
theorem stodaSucc_post (ctx : Ctx) (s2 : LState) (y : ℕ → ℚ)
    (dsm pnorm rh pdh : ℚ) (hm : stodaMid s2) (hpow : ∀ a b, 0 ≤ ctx.powF a b) :
    stodaPost (stodaSucc ctx s2 y dsm pnorm rh pdh).1 := by
  have hmB : stodaMid { s2 with
      kflag := 0
      nst := s2.nst + 1
      hu := s2.h_
      nqu := s2.nq
      mused := s2.meth_
      yh_ := fun a b =>
        if 1 ≤ a ∧ a ≤ s2.l ∧ 1 ≤ b ∧ b ≤ s2.n then s2.yh_ a b + s2.el a * s2.acor b
        else s2.yh_ a b
      icount := s2.icount - 1 } := hm
  unfold stodaSucc
  dsimp only
  by_cases hIc : s2.icount - 1 < (0 : ℤ)
  · rw [if_pos hIc]
    rcases methodswitch_post ctx _ dsm pnorm pdh rh hmB with hfr | ⟨hne, hmu, hpost⟩
    · split_ifs with ht
      · have heq2 : (methodswitch ctx { s2 with
            kflag := 0
            nst := s2.nst + 1
            hu := s2.h_
            nqu := s2.nq
            mused := s2.meth_
            yh_ := fun a b =>
              if 1 ≤ a ∧ a ≤ s2.l ∧ 1 ≤ b ∧ b ≤ s2.n then s2.yh_ a b + s2.el a * s2.acor b
              else s2.yh_ a b
            icount := s2.icount - 1 } dsm pnorm pdh rh).1.meth_ =
          (methodswitch ctx { s2 with
            kflag := 0
            nst := s2.nst + 1
            hu := s2.h_
            nqu := s2.nq
            mused := s2.meth_
            yh_ := fun a b =>
              if 1 ≤ a ∧ a ≤ s2.l ∧ 1 ≤ b ∧ b ≤ s2.n then s2.yh_ a b + s2.el a * s2.acor b
              else s2.yh_ a b
            icount := s2.icount - 1 } dsm pnorm pdh rh).1.mused := by
          rw [hfr.1, hfr.2.1]
        exact absurd heq2 ht
      · exact stodaSucc2_post ctx _ y dsm _ _ (stodaMid_frame hmB hfr) hpow
    · split_ifs with ht
      · exact scalehEnd_post _ _ _ _ hpost
      · refine absurd ?_ ht
        rw [hmu]
        exact hne
  · rw [if_neg hIc]
    exact stodaSucc2_post ctx _ y dsm rh pdh hmB hpow

set_option maxHeartbeats 1000000 in
/-- The failed-error-test block keeps the order invariant: both on the
returning paths (`.inl`) and into the retried step (`.inr`). -/
theorem stodaFail_res (ctx : Ctx) (s2 : LState) (y : ℕ → ℚ) (told dsm rh pdh : ℚ)
    (hm : stodaMid s2) (hpow : ∀ a b, 0 ≤ ctx.powF a b) :
    (∀ d, stodaFail ctx s2 y told dsm rh pdh = .inl d → stodaPost d.1) ∧
    (∀ k, stodaFail ctx s2 y told dsm rh pdh = .inr k → stodaMid k.1) := by
  have hq1 : 1 ≤ s2.nq := hm.1.2.2.2.2.2.2.1
  have hq2 : s2.nq ≤ s2.maxord := hm.1.2.2.2.2.2.2.2.1
  have hmo : 1 ≤ s2.maxord := by omega
  constructor
  · intro d hEq
    unfold stodaFail at hEq
    dsimp only at hEq
    split_ifs at hEq <;>
      first
        | exact Sum.noConfusion hEq
        | (injection hEq with h4
           subst h4
           exact stodaMid_post hm)
  · intro k hEq
    unfold stodaFail at hEq
    dsimp only at hEq
    split_ifs at hEq <;>
      first
        | exact Sum.noConfusion hEq
        | (injection hEq with h4
           subst h4
           first
             | exact stodaMid_frame
                 (orderswitch_mid ctx _ 0 dsm pdh rh (by exact hm) hpow le_rfl
                   (fun _ => rfl))
                 (scaleh_fr _ _ _)
             | exact stodaMid_frame
                 (stodaMid_frame
                   (orderswitch_mid ctx _ 0 dsm pdh rh (by exact hm) hpow le_rfl
                     (fun _ => rfl))
                   (resetcoeff_fr _))
                 (scaleh_fr _ _ _)
             | exact orderswitch_mid ctx _ 0 dsm pdh rh (by exact hm) hpow le_rfl
                 (fun _ => rfl)
             | exact ⟨⟨hm.1.1, hm.1.2.1, hm.1.2.2.1, hm.1.2.2.2.1, hm.1.2.2.2.2.1,
                 hm.1.2.2.2.2.2.1, le_rfl, hmo, rfl⟩, hm.2⟩
             | exact hm)

/-- The inner (prediction/corrector) loop of `stoda` keeps the order
invariant, both on the `corflag == 2` return and at convergence. -/
theorem stodaInner_res (ctx : Ctx) :
    ∀ (fuel : ℕ) (s : LState) (y : ℕ → ℚ) (told : ℚ) (ncf : ℕ) (delp rh pdh : ℚ),
      stodaMid s →
      (∀ d, stodaInner ctx fuel s y told ncf delp rh pdh = some (.inl d) →
        stodaPost d.1) ∧
      (∀ cv, stodaInner ctx fuel s y told ncf delp rh pdh = some (.inr cv) →
        stodaMid cv.s) := by
  intro fuel
  induction fuel with
  | zero =>
    intro s y told ncf delp rh pdh hm
    refine ⟨fun d h => ?_, fun cv h => ?_⟩ <;> cases h
  | succ fuel ih =>
    intro s y told ncf delp rh pdh hm
    constructor
    · intro d h
      unfold stodaInner at h
      dsimp only at h
      split at h
      · exact Option.noConfusion h
      · rename_i out heq
        have hfr := correction_fr ctx _ _ _ _ _ _ _ _ _ heq
        have hmo : stodaMid out.c.s := stodaMid_frame hm hfr
        by_cases hf0 : out.corflag = 0
        · rw [if_pos hf0] at h
          injection h with h4
          exact Sum.noConfusion h4
        · rw [if_neg hf0] at h
          by_cases hf1 : out.corflag = 1
          · rw [if_pos hf1] at h
            exact (ih _ _ _ _ _ _ _ (stodaMid_frame hmo (scaleh_fr _ _ _))).1 d h
          · rw [if_neg hf1] at h
            injection h with h4
            injection h4 with h5
            subst h5
            exact stodaMid_post hmo
    · intro cv h
      unfold stodaInner at h
      dsimp only at h
      split at h
      · exact Option.noConfusion h
      · rename_i out heq
        have hfr := correction_fr ctx _ _ _ _ _ _ _ _ _ heq
        have hmo : stodaMid out.c.s := stodaMid_frame hm hfr
        by_cases hf0 : out.corflag = 0
        · rw [if_pos hf0] at h
          injection h with h4
          injection h4 with h5
          subst h5
          exact hmo
        · rw [if_neg hf0] at h
          by_cases hf1 : out.corflag = 1
          · rw [if_pos hf1] at h
            exact (ih _ _ _ _ _ _ _ (stodaMid_frame hmo (scaleh_fr _ _ _))).2 cv h
          · rw [if_neg hf1] at h
            injection h with h4
            exact Sum.noConfusion h4

/-- The outer loop of `stoda` delivers the order invariant on every
completed step. -/
theorem stodaOuter_post (ctx : Ctx) (hpow : ∀ a b, 0 ≤ ctx.powF a b) :
    ∀ (fuel : ℕ) (s : LState) (y : ℕ → ℚ) (told : ℚ) (ncf : ℕ) (delp rh pdh : ℚ),
      stodaMid s → ∀ out, stodaOuter ctx fuel s y told ncf delp rh pdh = some out →
        stodaPost out.1 := by
  intro fuel
  induction fuel with
  | zero =>
    intro s y told ncf delp rh pdh hm out h
    cases h
  | succ fuel ih =>
    intro s y told ncf delp rh pdh hm out h
    unfold stodaOuter at h
    split at h
    · exact Option.noConfusion h
    · rename_i done heq
      injection h with h4
      subst h4
      exact (stodaInner_res ctx (fuel + 1) s y told ncf delp rh pdh hm).1 done heq
    · rename_i cv heq
      have hmc : stodaMid cv.s :=
        (stodaInner_res ctx (fuel + 1) s y told ncf delp rh pdh hm).2 cv heq
      dsimp only at h
      split_ifs at h <;>
        first
          | (injection h with h4
             subst h4
             exact stodaSucc_post ctx _ cv.y _ cv.pnorm cv.rh cv.pdh (by exact hmc) hpow)
          | (split at h <;> rename_i w heq2 <;>
              first
                | (injection h with h4
                   subst h4
                   exact (stodaFail_res ctx _ cv.y told _ cv.rh cv.pdh
                     (by exact hmc) hpow).1 w heq2)
                | exact ih w.1 w.2.1 told cv.ncf cv.delp w.2.2.1 w.2.2.2
                    ((stodaFail_res ctx _ cv.y told _ cv.rh cv.pdh
                      (by exact hmc) hpow).2 w heq2)
                    out h)

/-- The `jstart == 0` initialization establishes the mid-step order
invariant (`nq = 1`, `l = 2`, `lmax = maxord + 1`). -/
theorem stodaInit_mid (s : LState)
    (hme : s.meth_ = 1 ∨ s.meth_ = 2) (ho1 : 1 ≤ s.mxordn) (ho2 : s.mxordn ≤ 12)
    (hs1 : 1 ≤ s.mxords) (hs2 : s.mxords ≤ 12) (hmx : s.maxord = bnd s) :
    stodaMid (stodaInit s) := by
  have hb1 : 1 ≤ bnd s := by
    unfold bnd
    split_ifs <;> omega
  have hmo : 1 ≤ s.maxord := by omega
  exact ⟨⟨hme, ho1, ho2, hs1, hs2, hmx, le_rfl, hmo, rfl⟩, rfl⟩

/-- The `jstart == -1` preliminaries establish the mid-step order
invariant (they refresh `lmax` from the possibly-updated `maxord`). -/
theorem stodaJm1_mid (s : LState) (rh pdh : ℚ)
    (hme : s.meth_ = 1 ∨ s.meth_ = 2) (ho1 : 1 ≤ s.mxordn) (ho2 : s.mxordn ≤ 12)
    (hs1 : 1 ≤ s.mxords) (hs2 : s.mxords ≤ 12) (hmx : s.maxord = bnd s)
    (hq1 : 1 ≤ s.nq) (hq2 : s.nq ≤ s.maxord) (hl : s.l = s.nq + 1) :
    stodaMid (stodaJm1 s rh pdh).1 := by
  unfold stodaJm1
  dsimp only
  split_ifs <;> exact ⟨⟨hme, ho1, ho2, hs1, hs2, hmx, hq1, hq2, hl⟩, rfl⟩

/-- The `jstart == -2` preliminaries keep the mid-step order invariant. -/
theorem stodaJm2_mid (s : LState) (rh pdh : ℚ) (hm : stodaMid s) :
    stodaMid (stodaJm2 s rh pdh).1 := by
  unfold stodaJm2
  split_ifs
  · exact stodaMid_frame hm (scaleh_fr _ _ _)
  · exact hm

/-- C8: order invariant.  After the `jstart == 0` initialization and after
every completed `stoda` call (through every order change made by
`orderswitch` and every method-family switch made by `methodswitch`,
both of which are exercised inside `stoda`), the state satisfies
`1 <= nq <= maxord` — with `maxord` read as `mxordn` while the Adams
family is active and `mxords` while the bdf family is active — and
`l = nq + 1`.  The hypotheses are the `stoda` entry conditions
established by `lsoda` and nonnegativity of the `pow` results. -/
theorem c8_order_invariant (ctx : Ctx) (fuel : ℕ) (s : LState) (y : ℕ → ℚ)
    (hpow : ∀ a b, 0 ≤ ctx.powF a b) (hinv : stodaEntryInv s) :
    stodaPostOpt (stoda ctx fuel s y) := by
  obtain ⟨hme, ho1, ho2, hs1, hs2, hmx, hj⟩ := hinv
  intro p hp
  unfold stoda at hp
  dsimp only at hp
  by_cases h0 : s.jstart = (0 : ℤ)
  · rw [if_pos h0, if_neg (show ¬ s.jstart = (-1 : ℤ) by omega),
      if_neg (show ¬ s.jstart = (-2 : ℤ) by omega)] at hp
    exact stodaOuter_post ctx hpow fuel _ y _ 0 0 _ _
      (by exact stodaInit_mid _ hme ho1 ho2 hs1 hs2 hmx) p hp
  · rw [if_neg h0] at hp
    obtain ⟨hq1, hq2, hl, hlmx⟩ := hj h0
    by_cases h1 : s.jstart = (-1 : ℤ)
    · rw [if_pos h1, if_neg (show ¬ s.jstart = (-2 : ℤ) by omega)] at hp
      exact stodaOuter_post ctx hpow fuel _ y _ 0 0 _ _
        (by exact stodaJm1_mid _ 0 0 hme ho1 ho2 hs1 hs2 hmx hq1 hq2 hl) p hp
    · rw [if_neg h1] at hp
      have hlm := hlmx h1
      have hmS : stodaMid { s with kflag := 0, ierpj := 0, iersl := 0, jcur := 0 } :=
        ⟨⟨hme, ho1, ho2, hs1, hs2, hmx, hq1, hq2, hl⟩, hlm⟩
      by_cases h2 : s.jstart = (-2 : ℤ)
      · rw [if_pos h2] at hp
        exact stodaOuter_post ctx hpow fuel _ y _ 0 0 _ _
          (by exact stodaJm2_mid _ _ _ hmS) p hp
      · rw [if_neg h2] at hp
        exact stodaOuter_post ctx hpow fuel _ y _ 0 0 _ _ (by exact hmS) p hp

/-- Witness for C8: a first step (`jstart = 0`) of the one-dimensional
trivial problem under the zero context. -/
theorem c8_order_invariant_witness :
    ((∀ a b, (0 : ℚ) ≤ ctxW.powF a b) ∧ stodaEntryInv sW8) ∧
    stodaPostOpt (stoda ctxW 1 sW8 yW8) :=
  ⟨⟨fun a b => le_refl 0, by unfold stodaEntryInv bnd sW8 ctorState; decide⟩,
   c8_order_invariant ctxW 1 sW8 yW8 (fun a b => le_refl 0)
     (by unfold stodaEntryInv bnd sW8 ctorState; decide)⟩

/-! ## C10, C3, C2: the driver's entry precondition and error returns -/

/-- Evaluation of a `terminate` return site below the threshold: `illin`
is incremented and `*istate` becomes -3. -/
theorem lsodaTerm_ne5 (tag : LTag) (s : LState) (y : ℕ → ℚ) (t : ℚ)
    (istate : ℤ) (h : s.illin ≠ 5) :
    lsodaTerm tag s y t istate =
      .ret tag { s with illin := s.illin + 1 } y t (-3) := by
  unfold lsodaTerm terminate
  rw [if_neg h]

/-- Evaluation of a `terminate` return site at the threshold: only the
message is printed; the state and `*istate` are returned unchanged. -/
theorem lsodaTerm_eq5 (tag : LTag) (s : LState) (y : ℕ → ℚ) (t : ℚ)
    (istate : ℤ) (h : s.illin = 5) :
    lsodaTerm tag s y t istate = .ret tag s y t istate := by
  unfold lsodaTerm terminate
  rw [if_pos h]

/-- Any return from the step-loop preamble's weight-check site (`eEwt`)
carries `*istate = -6`: the per-step half of the weight-rejection
behaviour. -/
theorem lsodaPreCheck_eEwt (s : LState) (y : ℕ → ℚ) (istate : ℤ)
    (s1 : LState) (y1 : ℕ → ℚ) (t1 : ℚ) (ist : ℤ)
    (h : lsodaPreCheck s y istate = .inl (.ret .eEwt s1 y1 t1 ist)) :
    ist = -6 := by
  unfold lsodaPreCheck at h
  split_ifs at h
  · simp at h
  · dsimp only at h
    split at h
    · simp only [Sum.inl.injEq, LRes.ret.injEq] at h
      exact h.2.2.2.2.symm
    · simp at h

/-- C10: the first statement of `lsoda` hard-aborts the run
(`Rcpp::stop`) whenever the requested output time does not strictly
exceed the current time — for every state and every other argument,
before any validation or integration — and `lsoda_function`
unconditionally forwards to `lsoda`, so it aborts under the same
condition. -/
theorem c10_tout_precondition (ctx : Ctx) (fuel neq : ℕ) (s : LState)
    (y : ℕ → ℚ) (t tout : ℚ) (itask istate iopt jt : ℤ)
    (iworks : ℕ → ℤ) (rworks : ℕ → ℚ) (rtol atol : ℚ)
    (h : ¬ tout > t) :
    lsoda ctx fuel neq s y t tout itask istate iopt jt iworks rworks = .abort ∧
    lsoda_function ctx fuel neq s y t tout istate rtol atol = .abort := by
  constructor
  · unfold lsoda
    rw [if_pos h]
  · simp only [lsoda_function]
    unfold lsoda
    rw [if_pos h]

/-- Witness for C10: the degenerate request `tout = *t = 0` aborts both
entry points. -/
theorem c10_tout_precondition_witness :
    (¬ (0 : ℚ) > 0) ∧
    (lsoda ctxW 1 1 ctorState yW8 0 0 1 1 0 2 zworksI zworksR = .abort ∧
     lsoda_function ctxW 1 1 ctorState yW8 0 0 1 0 0 = .abort) :=
  ⟨lt_irrefl 0,
   c10_tout_precondition ctxW 1 1 ctorState yW8 0 0 1 1 0 2 zworksI zworksR 0 0
     (lt_irrefl 0)⟩

/-- Counterexample to C3 as stated: at the threshold `illin = 5` an
illegal call (`istate = 0`) does not hard-abort — it returns normally,
with `illin` and `*istate` unchanged — and a below-threshold rejection
can mutate more than the counter: the `itol_ = 7` rejection also zeroes
`ntrep` (it was 7) and overwrites `n` with `neq = 2` (it was 5). -/
theorem c3_illegal_input_handling_cex :
    (lsoda ctxW 1 1 sC3a yW8 0 1 1 0 0 2 zworksI zworksR =
      .ret .aIstate sC3a yW8 0 0) ∧
    sC3a.illin = 5 ∧
    (lsoda ctxW 1 2 sC3b yW8 0 1 1 1 0 2 zworksI zworksR).stateOf.map
      LState.ntrep = some 0 ∧
    (lsoda ctxW 1 2 sC3b yW8 0 1 1 1 0 2 zworksI zworksR).stateOf.map
      LState.n = some 2 ∧
    sC3b.ntrep = 7 ∧ sC3b.n = 5 :=
  ⟨by with_unfolding_all rfl, rfl, by with_unfolding_all rfl,
   by with_unfolding_all rfl, rfl, rfl⟩

/-- C3 (amended): a call rejected by the first validation check (illegal
`istate`) with `illin < 5` returns with `*istate = -3` and exactly
`illin` incremented, nothing else mutated; at `illin = 5` the rejection
returns normally — no hard abort — with the state and `*istate`
unchanged; and rejections by later validation checks also mutate the
prologue fields assigned before the failing check: the concrete
`itol_ = 7` call is rejected with `*istate = -3` and `illin = 1` but
also with `ntrep` zeroed (it was 7) and `n` overwritten to `neq = 2`
(it was 5). -/
theorem c3_illegal_input_handling (ctx : Ctx) (fuel neq : ℕ) (s : LState)
    (y : ℕ → ℚ) (t tout : ℚ) (itask istate iopt jt : ℤ)
    (iworks : ℕ → ℤ) (rworks : ℕ → ℚ)
    (ht : tout > t) (hbad : istate < 1 ∨ istate > 3) :
    (s.illin ≠ 5 →
      lsoda ctx fuel neq s y t tout itask istate iopt jt iworks rworks =
        .ret .aIstate { s with illin := s.illin + 1 } y t (-3)) ∧
    (s.illin = 5 →
      lsoda ctx fuel neq s y t tout itask istate iopt jt iworks rworks =
        .ret .aIstate s y t istate) ∧
    (lsoda ctxW 1 2 sC3b yW8 0 1 1 1 0 2 zworksI zworksR).tagOf =
      some .bItol ∧
    (lsoda ctxW 1 2 sC3b yW8 0 1 1 1 0 2 zworksI zworksR).istateOf =
      some (-3) ∧
    (lsoda ctxW 1 2 sC3b yW8 0 1 1 1 0 2 zworksI zworksR).stateOf.map
      LState.illin = some 1 ∧
    (lsoda ctxW 1 2 sC3b yW8 0 1 1 1 0 2 zworksI zworksR).stateOf.map
      LState.ntrep = some 0 ∧
    (lsoda ctxW 1 2 sC3b yW8 0 1 1 1 0 2 zworksI zworksR).stateOf.map
      LState.n = some 2 ∧
    sC3b.ntrep = 7 ∧ sC3b.n = 5 := by
  refine ⟨?_, ?_, ?_, ?_, ?_, ?_, ?_, rfl, rfl⟩
  · intro h5
    unfold lsoda
    rw [if_neg (not_not_intro ht), if_pos hbad, lsodaTerm_ne5 _ _ _ _ _ h5]
  · intro h5
    unfold lsoda
    rw [if_neg (not_not_intro ht), if_pos hbad, lsodaTerm_eq5 _ _ _ _ _ h5]
  · with_unfolding_all rfl
  · with_unfolding_all rfl
  · with_unfolding_all rfl
  · with_unfolding_all rfl
  · with_unfolding_all rfl

/-- Witness for C3: the general clauses instantiated at the illegal call
`istate = 0`, `t = 0`, `tout = 1` on a fresh object. -/
theorem c3_illegal_input_handling_witness :
    ((1 : ℚ) > 0 ∧ ((0 : ℤ) < 1 ∨ (0 : ℤ) > 3)) ∧
    ((ctorState.illin ≠ 5 →
      lsoda ctxW 1 1 ctorState yW8 0 1 1 0 0 2 zworksI zworksR =
        .ret .aIstate { ctorState with illin := ctorState.illin + 1 }
          yW8 0 (-3)) ∧
     (ctorState.illin = 5 →
      lsoda ctxW 1 1 ctorState yW8 0 1 1 0 0 2 zworksI zworksR =
        .ret .aIstate ctorState yW8 0 0) ∧
     (lsoda ctxW 1 2 sC3b yW8 0 1 1 1 0 2 zworksI zworksR).tagOf =
       some .bItol ∧
     (lsoda ctxW 1 2 sC3b yW8 0 1 1 1 0 2 zworksI zworksR).istateOf =
       some (-3) ∧
     (lsoda ctxW 1 2 sC3b yW8 0 1 1 1 0 2 zworksI zworksR).stateOf.map
       LState.illin = some 1 ∧
     (lsoda ctxW 1 2 sC3b yW8 0 1 1 1 0 2 zworksI zworksR).stateOf.map
       LState.ntrep = some 0 ∧
     (lsoda ctxW 1 2 sC3b yW8 0 1 1 1 0 2 zworksI zworksR).stateOf.map
       LState.n = some 2 ∧
     sC3b.ntrep = 7 ∧ sC3b.n = 5) :=
  ⟨⟨by decide, by decide⟩,
   c3_illegal_input_handling ctxW 1 1 ctorState yW8 0 1 1 0 0 2
     zworksI zworksR (by decide) (by decide)⟩

/-- C2: the claim fails on the initial-call path.  With zero tolerances
and `y[1] = 0` the initial error weight `ewt[1]` is 0, the weight check
of block c fires (`cEwt` site), and the return goes through
`terminate2`, which never writes `*istate`: the call returns with
`*istate` still equal to the caller's 1 — not a negative code.  (The
per-step site does set -6; see `lsodaPreCheck_eEwt`.) -/
theorem c2_initial_ewt_istate_not_negative :
    (lsoda ctxW 1 1 ctorState yW8 0 1 1 1 0 2 zworksI zworksR).tagOf =
      some .cEwt ∧
    (lsoda ctxW 1 1 ctorState yW8 0 1 1 1 0 2 zworksI zworksR).istateOf =
      some 1 := by
  constructor
  · with_unfolding_all rfl
  · with_unfolding_all rfl

end LSODAModel
